import Mathlib

/-!
# singleflight-demo: cache access with and without request coalescing

A shallow embedding of `src/main.go` (package `main`).  Handlers are functions on an explicit
`World` (the package-level variables, the Prometheus collectors and the Redis server behind `rdb`);
everything the environment decides (Redis transport errors, the wall-clock stamp, how long
`time.Sleep` overslept) is an explicit input.  The second half interleaves the handlers as
atomic steps of concurrent requests around `singleflight.Group.Do`.
-/

namespace Main

/-! ## Package-level constants (main.go 74-81) -/

/-- The constant `cacheKey` (main.go 77). -/
def cacheKey : String := "product:popular"

/-- The constant `cacheTTL = 5 * time.Second` (main.go 78), in nanoseconds as `time.Duration`. -/
def cacheTTL : Nat := 5 * 1000000000

/-- The constant `dbLatency = 200 * time.Millisecond` (main.go 79), in nanoseconds. -/
def dbLatency : Nat := 200 * 1000000

/-- Largest `int64`. -/
def maxInt64 : Int := 9223372036854775807

/-- Smallest `int64`. -/
def minInt64 : Int := -9223372036854775808

/-- Two's-complement reduction of an integer to the `int64` range. -/
def wrapInt64 (x : Int) : Int :=
  (x + 9223372036854775808) % 18446744073709551616 - 9223372036854775808

/-- The call `atomic.AddInt64(&v, delta)`: the new value, with `int64` wrap-around. -/
def atomicAddInt64 (v delta : Int) : Int := wrapInt64 (v + delta)

/-- The struct `Product` (main.go 83-89).  `ID`, `Price` are Go `int`, `RequestID` is `int64`. -/
structure Product where
  ID : Int
  Name : String
  Price : Int
  FetchedAt : String
  RequestID : Int
deriving DecidableEq, Repr, Inhabited

/-! ## External collaborators -/

/-- The two `encoding/json` entry points the program uses on `Product`
(`json.Marshal` at main.go 125, `json.Unmarshal` at main.go 116); either may report an error. -/
structure JSONCodec where
  marshal : Product → Except String String
  unmarshal : String → Except String Product

/-- A Redis value with its expiry deadline (absolute, nanoseconds of the logical clock). -/
structure Entry where
  payload : String
  expireAt : Nat
deriving DecidableEq, Repr

/-- The Redis server behind `rdb`: key to live-or-expired entry. -/
abbrev Redis := String → Option Entry

/-- Outcome of `rdb.Get(ctx, key).Result()`: a value, `redis.Nil`, or another error. -/
inductive GetReply where
  | val (s : String)
  | nil
  | err (msg : String)
deriving DecidableEq, Repr

/-- The call `rdb.Get(ctx, key)`.  `fault` is a transport/context error decided by the environment;
otherwise the key is found exactly when it is stored and its deadline has not been reached. -/
def redisGet (db : Redis) (now : Nat) (fault : Option String) (key : String) : GetReply :=
  match fault with
  | some msg => GetReply.err msg
  | none =>
    match db key with
    | none => GetReply.nil
    | some e => if now < e.expireAt then GetReply.val e.payload else GetReply.nil

/-- The call `rdb.Set(ctx, key, data, ttl)` with a positive `ttl`: on success the key holds `data`
until `now + ttl`; on a fault nothing is stored and the error is returned. -/
def redisSet (db : Redis) (now : Nat) (fault : Option String) (key data : String) (ttl : Nat) :
    Option String × Redis :=
  match fault with
  | some msg => (some msg, db)
  | none => (none, fun k => if k = key then some ⟨data, now + ttl⟩ else db k)

/-- The call `rdb.Del(ctx, key)`: on success the key is gone; on a fault nothing changes. -/
def redisDel (db : Redis) (fault : Option String) (key : String) : Option String × Redis :=
  match fault with
  | some msg => (some msg, db)
  | none => (none, fun k => if k = key then none else db k)

/-- What a handler handed to `json.NewEncoder(w).Encode` or to `http.Error`/`w.Write`. -/
inductive Body where
  | json (p : Product)
  | text (s : String)
deriving DecidableEq, Repr

/-- What a handler did to its `http.ResponseWriter`: status, headers set, body. -/
structure Response where
  status : Nat
  header : List (String × String)
  body : Body
deriving DecidableEq, Repr

/-- Value of a response header, if set. -/
def Response.get (r : Response) (name : String) : Option String :=
  (r.header.find? (fun kv => kv.1 == name)).map Prod.snd

/-- The helper `http.Error(w, msg, code)` of net/http. -/
def httpError (msg : String) (code : Nat) : Response :=
  { status := code
    header := [("Content-Type", "text/plain; charset=utf-8"), ("X-Content-Type-Options", "nosniff")]
    body := Body.text (msg ++ "\n") }

/-- The success response every read path writes: `Content-Type`, `X-Cache`, further headers,
then `Encode(product)`; the status is the implicit 200. -/
def jsonResponse (xcache : String) (extra : List (String × String)) (product : Product) : Response :=
  { status := 200
    header := [("Content-Type", "application/json"), ("X-Cache", xcache)] ++ extra
    body := Body.json product }


/-! ## A model of `encoding/json` on `Product`

`json.Marshal` writes the struct as one object, fields in declaration order under their tags,
integers in decimal and strings quoted with Go's escapes.  The decoder is `json.Unmarshal`
restricted to that layout: it accepts every text `json.Marshal` writes for a `Product`, and
reports an error on texts `json.Unmarshal` would also read (members in another order, missing
or unknown members, white space between tokens).  An escaped surrogate pair is read as two
U+FFFD, where `encoding/json` combines the pair into one character; `json.Marshal` never
writes one.  Nothing below depends on which texts other than its own output the decoder
accepts: the handlers are specified for both outcomes of `getFromCache`. -/

/-- The double quote. -/
def quoteCh : Char := Char.ofNat 34

/-- The backslash. -/
def backslashCh : Char := Char.ofNat 92

/-- Decimal digit `d < 10` as a character. -/
def digitChar (d : Nat) : Char := Char.ofNat (48 + d)

/-- Decimal text of a natural number (`fuel` bounds the number of digits). -/
def natText : Nat → Nat → List Char
  | 0, _ => []
  | fuel + 1, n => (if n < 10 then [] else natText fuel (n / 10)) ++ [digitChar (n % 10)]

/-- Decimal text of an integer, as `strconv.AppendInt` writes it. -/
def intText (i : Int) : List Char :=
  if i < 0 then '-' :: natText ((-i).toNat + 1) (-i).toNat else natText (i.toNat + 1) i.toNat

/-- Lower-case hexadecimal digit `n < 16`. -/
def hexDigit (n : Nat) : Char := if n < 10 then Char.ofNat (48 + n) else Char.ofNat (87 + n)

/-- The escape `\uXXXX` of a code point below 65536. -/
def uEscape (n : Nat) : List Char :=
  [backslashCh, 'u', hexDigit (n / 4096), hexDigit (n / 256 % 16), hexDigit (n / 16 % 16),
   hexDigit (n % 16)]

/-- How `json.Marshal` writes one character of a string (Go 1.22 and later): quote and
backslash are backslash-escaped, backspace, form feed, newline, carriage return and tab get
their short escapes, other control characters, the HTML characters and U+2028/U+2029 are
written as `\uXXXX`. -/
def escapeChar (c : Char) : List Char :=
  if c = quoteCh then [backslashCh, quoteCh]
  else if c = backslashCh then [backslashCh, backslashCh]
  else if c.toNat = 8 then [backslashCh, 'b']
  else if c.toNat = 12 then [backslashCh, 'f']
  else if c.toNat = 10 then [backslashCh, 'n']
  else if c.toNat = 13 then [backslashCh, 'r']
  else if c.toNat = 9 then [backslashCh, 't']
  else if c.toNat < 32 ∨ c.toNat = 60 ∨ c.toNat = 62 ∨ c.toNat = 38 ∨ c.toNat = 8232
      ∨ c.toNat = 8233 then uEscape c.toNat
  else [c]

/-- A string as a JSON string literal. -/
def encodeString (s : String) : List Char :=
  quoteCh :: (s.data.map escapeChar).flatten ++ [quoteCh]

/-- Opening of a member: the separator, the quoted key and the colon. -/
def keyText (first : Bool) (name : String) : List Char :=
  (if first then Char.ofNat 123 else ',') :: quoteCh :: name.data ++ [quoteCh, ':']

/-- The object `json.Marshal` writes for a `Product` (struct tags of main.go 84-88). -/
def encodeProduct (p : Product) : List Char :=
  keyText true "id" ++ intText p.ID
    ++ keyText false "name" ++ encodeString p.Name
    ++ keyText false "price" ++ intText p.Price
    ++ keyText false "fetched_at" ++ encodeString p.FetchedAt
    ++ keyText false "request_id" ++ intText p.RequestID
    ++ [Char.ofNat 125]

/-- Drop a literal from the front of the input. -/
def stripLit : List Char → List Char → Option (List Char)
  | [], s => some s
  | _ :: _, [] => none
  | c :: cs, d :: ds => if c = d then stripLit cs ds else none

/-- Whether the character is a decimal digit. -/
def isDigit (c : Char) : Bool := decide (48 ≤ c.toNat) && decide (c.toNat ≤ 57)

/-- Longest run of decimal digits at the front of the input, and the rest. -/
def spanDigits : List Char → List Char × List Char
  | [] => ([], [])
  | c :: cs => if isDigit c then ((c :: (spanDigits cs).1), (spanDigits cs).2) else ([], c :: cs)

/-- Value of a run of decimal digits. -/
def digitsValue (ds : List Char) : Nat := ds.foldl (fun a c => a * 10 + (c.toNat - 48)) 0

/-- Whether a run of digits is a zero followed by more digits, which JSON does not allow. -/
def leadingZero : List Char → Bool
  | c :: _ :: _ => decide (c = '0')
  | _ => false

/-- Read an integer literal into an `int64` field: an optional minus sign and digits without
a leading zero; a value outside the `int64` range is an error. -/
def decodeInt64 (s : List Char) : Option (Int × List Char) :=
  let neg : Bool := match s with
    | c :: _ => decide (c = '-')
    | [] => false
  let s1 := if neg then s.drop 1 else s
  let ds := (spanDigits s1).1
  let v : Int := if neg then -(digitsValue ds : Int) else (digitsValue ds : Int)
  if ds = [] then none
  else if leadingZero ds then none
  else if minInt64 ≤ v ∧ v ≤ maxInt64 then some (v, (spanDigits s1).2) else none

/-- Value of a hexadecimal digit. -/
def hexVal (c : Char) : Option Nat :=
  if 48 ≤ c.toNat ∧ c.toNat ≤ 57 then some (c.toNat - 48)
  else if 97 ≤ c.toNat ∧ c.toNat ≤ 102 then some (c.toNat - 87)
  else if 65 ≤ c.toNat ∧ c.toNat ≤ 70 then some (c.toNat - 55)
  else none

/-- The character a short escape stands for. -/
def unescape (c : Char) : Option Char :=
  if c = quoteCh then some quoteCh
  else if c = backslashCh then some backslashCh
  else if c = '/' then some '/'
  else if c = 'b' then some (Char.ofNat 8)
  else if c = 'f' then some (Char.ofNat 12)
  else if c = 'n' then some (Char.ofNat 10)
  else if c = 'r' then some (Char.ofNat 13)
  else if c = 't' then some (Char.ofNat 9)
  else none

/-- The character a `\uXXXX` escape stands for; a surrogate half is read as U+FFFD. -/
def decodeRune (n : Nat) : Char :=
  if 55296 ≤ n ∧ n < 57344 then Char.ofNat 65533 else Char.ofNat n

/-- Where the string reader is: in plain text, after a backslash, or inside `\uXXXX` with
`k` digits to go and value `v` so far. -/
inductive StrState where
  | plain
  | esc
  | hex (k v : Nat)

/-- Read the inside of a string literal up to its closing quote: the text (reversed in `acc`)
and the input after the quote. -/
def unquoteAux : StrState → List Char → List Char → Option (List Char × List Char)
  | _, [], _ => none
  | StrState.plain, c :: cs, acc =>
    if c = quoteCh then some (acc.reverse, cs)
    else if c = backslashCh then unquoteAux StrState.esc cs acc
    else if c.toNat < 32 then none
    else unquoteAux StrState.plain cs (c :: acc)
  | StrState.esc, c :: cs, acc =>
    if c = 'u' then unquoteAux (StrState.hex 4 0) cs acc
    else
      match unescape c with
      | some d => unquoteAux StrState.plain cs (d :: acc)
      | none => none
  | StrState.hex k v, c :: cs, acc =>
    match hexVal c with
    | none => none
    | some d =>
      if k ≤ 1 then unquoteAux StrState.plain cs (decodeRune (v * 16 + d) :: acc)
      else unquoteAux (StrState.hex (k - 1) (v * 16 + d)) cs acc

/-- Read a JSON string literal. -/
def decodeString (s : List Char) : Option (String × List Char) :=
  match s with
  | [] => none
  | c :: cs =>
    if c = quoteCh then (unquoteAux StrState.plain cs []).map (fun r => (String.mk r.1, r.2))
    else none

/-- Read back the object `encodeProduct` writes: the five members in declaration order, no
white space.  Any other text is an error. -/
def decodeProduct (s : List Char) : Option Product :=
  (stripLit (keyText true "id") s).bind fun s =>
  (decodeInt64 s).bind fun id =>
  (stripLit (keyText false "name") id.2).bind fun s =>
  (decodeString s).bind fun name =>
  (stripLit (keyText false "price") name.2).bind fun s =>
  (decodeInt64 s).bind fun price =>
  (stripLit (keyText false "fetched_at") price.2).bind fun s =>
  (decodeString s).bind fun fetchedAt =>
  (stripLit (keyText false "request_id") fetchedAt.2).bind fun s =>
  (decodeInt64 s).bind fun requestID =>
  if requestID.2 = [Char.ofNat 125] then
    some { ID := id.1, Name := name.1, Price := price.1, FetchedAt := fetchedAt.1,
           RequestID := requestID.1 }
  else none

/-- The codec of `encoding/json` restricted to `Product`. -/
def encodingJSON : JSONCodec where
  marshal p := Except.ok (String.mk (encodeProduct p))
  unmarshal s :=
    match decodeProduct s.data with
    | some p => Except.ok p
    | none => Except.error "json: cannot unmarshal into Go value of type main.Product"

/-- A `Product` whose integer fields fit their Go types. -/
def Product.wellFormed (p : Product) : Prop :=
  (minInt64 ≤ p.ID ∧ p.ID ≤ maxInt64) ∧ (minInt64 ≤ p.Price ∧ p.Price ≤ maxInt64)
    ∧ (minInt64 ≤ p.RequestID ∧ p.RequestID ≤ maxInt64)

/-! ## The world a request runs in -/

/-- Ghost record of the two calls the claims count. -/
inductive Invoked where
  | simulateDBCall (endpoint : String)
  | setCache (p : Product)
deriving DecidableEq, Repr

/-- Package state: the Redis server, a logical clock, `requestCount` (main.go 80) and the
Prometheus collectors (main.go 21-62), each vector as a map from its `endpoint` label.
`trace` is ghost. -/
structure World where
  rdb : Redis
  now : Nat
  requestCount : Int
  cacheHits : String → Nat
  cacheMisses : String → Nat
  dbCalls : String → Nat
  singleflightShared : Nat
  requestDuration : String → List Nat
  inflightRequests : String → Int
  trace : List Invoked

/-- The method `WithLabelValues(l).Inc()` on a counter vector. -/
def incAt (m : String → Nat) (l : String) : String → Nat :=
  fun k => if k = l then m k + 1 else m k

/-- The methods `WithLabelValues(l).Inc()` / `.Dec()` on a gauge vector. -/
def addAt (m : String → Int) (l : String) (d : Int) : String → Int :=
  fun k => if k = l then m k + d else m k

/-- The method `WithLabelValues(l).Observe(v)` on a histogram vector. -/
def observeAt (m : String → List Nat) (l : String) (v : Nat) : String → List Nat :=
  fun k => if k = l then m k ++ [v] else m k

/-- Inputs the environment supplies to one request. -/
structure Env where
  /-- error of the Redis read at the top of the handler, if any -/
  getErr : Option String
  /-- error of the Redis read inside the singleflight closure, if any -/
  recheckErr : Option String
  /-- error of the Redis write, if any -/
  setErr : Option String
  /-- error of the Redis delete, if any -/
  delErr : Option String
  /-- time `time.Sleep(dbLatency)` slept beyond `dbLatency` -/
  oversleep : Nat
  /-- the text `time.Now().Format(time.RFC3339Nano)` -/
  stamp : String

/-! ## Accessors (main.go 91-133) -/

/-- The struct literal returned by `simulateDBCall` (main.go 96-102). -/
def newProduct (stamp : String) (reqID : Int) : Product :=
  { ID := 1, Name := "Popular Product", Price := 9800, FetchedAt := stamp, RequestID := reqID }

/-- First half of `simulateDBCall` (main.go 93): count the call, then go to sleep. -/
def simulateDBCallBegin (endpoint : String) (w : World) : World :=
  { w with dbCalls := incAt w.dbCalls endpoint
           trace := w.trace ++ [Invoked.simulateDBCall endpoint] }

/-- Second half of `simulateDBCall` (main.go 95-102): take the next sequence number and build
the product.  The returned error is always `nil`. -/
def simulateDBCallEnd (stamp : String) (w : World) : Except String Product × World :=
  let reqID := atomicAddInt64 w.requestCount 1
  (Except.ok (newProduct stamp reqID), { w with requestCount := reqID })

/-- The function `simulateDBCall` (main.go 92-103). -/
def simulateDBCall (endpoint : String) (env : Env) (w : World) : Except String Product × World :=
  let w := simulateDBCallBegin endpoint w
  let w := { w with now := w.now + dbLatency + env.oversleep }
  simulateDBCallEnd env.stamp w

/-- The function `getFromCache` (main.go 106-121): `some p` is `(&p, true)`, `none` is
`(nil, false)`. -/
def getFromCache (J : JSONCodec) (fault : Option String) (w : World) : Option Product :=
  match redisGet w.rdb w.now fault cacheKey with
  | GetReply.nil => none
  | GetReply.err _ => none
  | GetReply.val v =>
    match J.unmarshal v with
    | Except.error _ => none
    | Except.ok product => some product

/-- The function `setCache` (main.go 124-133). -/
def setCache (J : JSONCodec) (fault : Option String) (product : Product) (w : World) : World :=
  let w := { w with trace := w.trace ++ [Invoked.setCache product] }
  match J.marshal product with
  | Except.error _ => w
  | Except.ok data => { w with rdb := (redisSet w.rdb w.now fault cacheKey data cacheTTL).2 }

/-! ## Handlers, one request at a time (main.go 135-248) -/

/-- A backend accessor: the signature of `simulateDBCall`. -/
abbrev Fetch := String → Env → World → Except String Product × World

/-- Deferred function of both read handlers (main.go 141-144, 179-182). -/
def deferred (endpoint : String) (start : Nat) (w : World) : World :=
  { w with inflightRequests := addAt w.inflightRequests endpoint (-1)
           requestDuration := observeAt w.requestDuration endpoint (w.now - start) }

/-- Lines 138-140 / 176-178: note the start time and count the request as in flight. -/
def enter (endpoint : String) (w : World) : World :=
  { w with inflightRequests := addAt w.inflightRequests endpoint 1 }

/-- Lines 150-154 / 188-192: the cache-hit answer. -/
def answerHit (endpoint : String) (product : Product) (w : World) : Response × World :=
  (jsonResponse "HIT" [] product, { w with cacheHits := incAt w.cacheHits endpoint })

/-- Lines 158 / 196: count the miss. -/
def countMiss (endpoint : String) (w : World) : World :=
  { w with cacheMisses := incAt w.cacheMisses endpoint }

/-- Lines 160-170: what the naive handler does with the outcome of the fetch. -/
def afterFetch (J : JSONCodec) (setErr : Option String) (r : Except String Product) (w : World) :
    Response × World :=
  match r with
  | Except.error err => (httpError err 500, w)
  | Except.ok product => (jsonResponse "MISS" [] product, setCache J setErr product w)

/-- Body of `withoutSingleflightHandler` (main.go 137-171) over any backend accessor. -/
def withoutSingleflightHandlerWith (J : JSONCodec) (fetch : Fetch) (env : Env) (w : World) :
    Response × World :=
  let endpoint := "without_singleflight"
  let start := w.now
  let w := enter endpoint w
  let out :=
    match getFromCache J env.getErr w with
    | some product => answerHit endpoint product w
    | none =>
      let w := countMiss endpoint w
      let fetched := fetch endpoint env w
      afterFetch J env.setErr fetched.1 fetched.2
  (out.1, deferred endpoint start out.2)

/-- The handler `withoutSingleflightHandler` (main.go 137-171). -/
def withoutSingleflightHandler (J : JSONCodec) (env : Env) (w : World) : Response × World :=
  withoutSingleflightHandlerWith J simulateDBCall env w

/-- The closure passed to `sfGroup.Do` (main.go 200-211), after its cache re-check missed:
lines 205-210. -/
def closureFetched (J : JSONCodec) (setErr : Option String) (r : Except String Product)
    (w : World) : Except String Product × World :=
  match r with
  | Except.error err => (Except.error err, w)
  | Except.ok product => (Except.ok product, setCache J setErr product w)

/-- The closure passed to `sfGroup.Do` (main.go 200-211) over any backend accessor. -/
def closureWith (J : JSONCodec) (fetch : Fetch) (endpoint : String) (env : Env) (w : World) :
    Except String Product × World :=
  match getFromCache J env.recheckErr w with
  | some product => (Except.ok product, w)
  | none =>
    let fetched := fetch endpoint env w
    closureFetched J env.setErr fetched.1 fetched.2

/-- The call `sfGroup.Do(key, fn)` when no other caller overlaps it: the caller runs `fn`
itself, nobody joined (`c.dups = 0`), so `shared` is false. -/
def sfGroupDoAlone (fn : World → Except String Product × World) (w : World) :
    (Except String Product × Bool) × World :=
  let out := fn w
  ((out.1, false), out.2)

/-- Lines 213-230: what `withSingleflightHandler` does with what `sfGroup.Do` returned. -/
def afterDo (r : Except String Product) (shared : Bool) (w : World) : Response × World :=
  match r with
  | Except.error err => (httpError err 500, w)
  | Except.ok product =>
    let w := if shared then { w with singleflightShared := w.singleflightShared + 1 } else w
    (jsonResponse (if shared then "SINGLEFLIGHT-SHARED" else "MISS")
        [("X-Singleflight-Shared", if shared then "true" else "false")] product, w)

/-- Body of `withSingleflightHandler` (main.go 175-231) for a request that overlaps no other,
over any backend accessor. -/
def withSingleflightHandlerWith (J : JSONCodec) (fetch : Fetch) (env : Env) (w : World) :
    Response × World :=
  let endpoint := "with_singleflight"
  let start := w.now
  let w := enter endpoint w
  let out :=
    match getFromCache J env.getErr w with
    | some product => answerHit endpoint product w
    | none =>
      let w := countMiss endpoint w
      let did := sfGroupDoAlone (closureWith J fetch endpoint env) w
      afterDo did.1.1 did.1.2 did.2
  (out.1, deferred endpoint start out.2)

/-- The handler `withSingleflightHandler` (main.go 175-231) for a request that overlaps no
other. -/
def withSingleflightHandler (J : JSONCodec) (env : Env) (w : World) : Response × World :=
  withSingleflightHandlerWith J simulateDBCall env w

/-- The handler `clearCacheHandler` (main.go 234-242). -/
def clearCacheHandler (env : Env) (w : World) : Response × World :=
  match redisDel w.rdb env.delErr cacheKey with
  | (some err, _) => (httpError err 500, w)
  | (none, db) => ({ status := 200, header := [], body := Body.text "Cache cleared" },
                   { w with rdb := db })

/-- The handler `healthHandler` (main.go 245-248). -/
def healthHandler (w : World) : Response × World :=
  ({ status := 200, header := [], body := Body.text "OK" }, w)

/-! ## Sequences of requests -/

/-- Time passes: the logical clock moves on by `d` nanoseconds. -/
def advance (d : Nat) (w : World) : World := { w with now := w.now + d }

/-- One thing that happens to the server: a request to one of the four handlers of
main.go 266-269, or time passing. -/
inductive Request where
  | withoutSingleflight (env : Env)
  | withSingleflight (env : Env)
  | clearCache (env : Env)
  | health
  | wait (d : Nat)

/-- Serve one request that overlaps no other. -/
def serve (J : JSONCodec) (r : Request) (w : World) : World :=
  match r with
  | Request.withoutSingleflight env => (withoutSingleflightHandler J env w).2
  | Request.withSingleflight env => (withSingleflightHandler J env w).2
  | Request.clearCache env => (clearCacheHandler env w).2
  | Request.health => (healthHandler w).2
  | Request.wait d => advance d w

/-- Serve requests one after the other. -/
def serveAll (J : JSONCodec) (rs : List Request) (w : World) : World :=
  rs.foldl (fun w r => serve J r w) w

/-- The state at start-up: every collector and `requestCount` at zero, over any Redis
content and clock. -/
def initial (db : Redis) (now : Nat) : World :=
  { rdb := db, now := now, requestCount := 0, cacheHits := fun _ => 0, cacheMisses := fun _ => 0,
    dbCalls := fun _ => 0, singleflightShared := 0, requestDuration := fun _ => [],
    inflightRequests := fun _ => 0, trace := [] }

/-! ## Concrete inputs used to exercise the theorems -/

/-- An environment in which nothing fails. -/
def calmEnv : Env :=
  { getErr := none, recheckErr := none, setErr := none, delErr := none, oversleep := 0,
    stamp := "2026-01-02T03:04:05.000000006Z" }

/-- An environment whose first Redis read fails. -/
def firstReadFails : Env := { calmEnv with getErr := some "context canceled" }

/-- An environment in which every Redis call fails. -/
def redisDown : Env :=
  { calmEnv with getErr := some "dial tcp: connection refused"
                 recheckErr := some "dial tcp: connection refused"
                 setErr := some "dial tcp: connection refused"
                 delErr := some "dial tcp: connection refused" }

/-- A product as an earlier fetch left it. -/
def sampleProduct : Product := newProduct "2026-01-02T03:04:00.000000001Z" 7

/-- Redis holding nothing. -/
def emptyRedis : Redis := fun _ => none

/-- Redis holding `sampleProduct` under `cacheKey` until time 9000000000. -/
def warmRedis : Redis :=
  fun k => if k = cacheKey then some ⟨String.mk (encodeProduct sampleProduct), 9000000000⟩ else none

/-- Start-up state over an empty cache. -/
def coldWorld : World := initial emptyRedis 0

/-- Start-up state over a cache that holds `sampleProduct`. -/
def warmWorld : World := initial warmRedis 0

/-- A backend accessor that counts the call and fails. -/
def failingFetch : Fetch :=
  fun endpoint _ w => (Except.error "backend unavailable", simulateDBCallBegin endpoint w)

/-- A codec whose `Marshal` fails. -/
def failingMarshal : JSONCodec :=
  { marshal := fun _ => Except.error "json: unsupported value"
    unmarshal := encodingJSON.unmarshal }

/-- Start-up state over an empty cache, except that `requestCount` has reached the largest
`int64`. -/
def brimWorld : World := { coldWorld with requestCount := maxInt64 }

/-- Start-up state over a cache whose payload under `cacheKey` is not a product. -/
def garbledWorld : World :=
  initial (fun k => if k = cacheKey then some ⟨"<html>", 9000000000⟩ else none) 0

/-- Start-up state over an empty cache, except that `requestCount` is one short of the largest
`int64`. -/
def nearBrimWorld : World := { coldWorld with requestCount := maxInt64 - 1 }

/-! ## Concurrent requests

Requests are interleaved at the points where they touch shared state.  `sfGroup` is modelled
after `golang.org/x/sync/singleflight` (imported at main.go 16): under the group's mutex `Do`
either finds a call in flight for the key, counts itself in (`c.dups++`) and waits for it, or
registers a new call and runs `fn`; when `fn` has returned the call is completed and removed
under the mutex, the waiters are released, and `Do` reports `shared = c.dups > 0` to the caller
that ran `fn` and `shared = true` to the callers that waited. -/

/-- One call of `sfGroup.Do` for `cacheKey` (a `*call` of the library): `dups` counts the
callers that joined it, `result` is filled when `fn` has returned.  Ghost: `leader` is the
request that runs `fn`, `fetches` counts its calls of `simulateDBCall`, `recheckHit` records
that its cache re-check hit. -/
structure Call where
  dups : Nat
  result : Option (Except String Product)
  leader : Nat
  fetches : Nat
  recheckHit : Bool

/-- Replace one entry of the table of calls. -/
def setCall (calls : Nat → Call) (c : Nat) (v : Call) : Nat → Call :=
  fun k => if k = c then v else calls k

/-- State shared by all requests: the world, the entry `sfGroup.m[cacheKey]` (index of the
call in flight, if any) and the calls made so far. -/
structure Shared where
  w : World
  group : Option Nat
  calls : Nat → Call
  ncalls : Nat

/-- The four routes of main.go 266-269. -/
inductive Handler where
  | withoutSingleflight
  | withSingleflight
  | clearCache
  | health
deriving DecidableEq, Repr

/-- The `endpoint` label of a read handler (main.go 138, 176); the other two routes have no
label and never use theirs. -/
def Handler.endpoint : Handler → String
  | Handler.withoutSingleflight => "without_singleflight"
  | Handler.withSingleflight => "with_singleflight"
  | Handler.clearCache => "clear_cache"
  | Handler.health => "health"

/-- Where a request is in its handler. -/
inductive PC where
  /-- not started -/
  | start
  /-- counted as in flight, about to read the cache (main.go 149, 187) -/
  | check
  /-- miss counted, about to call `sfGroup.Do` (main.go 200) -/
  | enterDo
  /-- running `fn`, about to re-read the cache (main.go 202) -/
  | recheck
  /-- about to call `simulateDBCall` (main.go 159, 205) -/
  | dbBegin
  /-- inside `time.Sleep` until `wake` (main.go 94) -/
  | dbSleep (wake : Nat)
  /-- `simulateDBCall` returned (main.go 160, 206) -/
  | fetched (r : Except String Product)
  /-- `fn` returned, the call is about to be completed -/
  | finish (r : Except String Product)
  /-- joined a call in flight, blocked until it completes -/
  | wait
  /-- `sfGroup.Do` returned (main.go 213) -/
  | respond (r : Except String Product) (shared : Bool)
  /-- response written, deferred function pending (main.go 141, 179) -/
  | deferred (resp : Response)
  /-- handler returned -/
  | done (resp : Response)

/-- One request: its route, `start` (main.go 139, 177), where it is, and for a request inside
or past `sfGroup.Do` the call it belongs to and whether it is the caller that runs `fn`. -/
structure Thread where
  handler : Handler
  start : Nat
  pc : PC
  call : Option Nat
  leads : Bool

/-- The next atomic step of a read handler; `none` when the request is blocked or finished. -/
def stepRead (J : JSONCodec) (env : Env) (i : Nat) (t : Thread) (s : Shared) :
    Option (Thread × Shared) :=
  match t.pc with
  | PC.start =>
    some ({ t with pc := PC.check, start := s.w.now },
          { s with w := enter t.handler.endpoint s.w })
  | PC.check =>
    match getFromCache J env.getErr s.w with
    | some product =>
      some ({ t with pc := PC.deferred (answerHit t.handler.endpoint product s.w).1 },
            { s with w := (answerHit t.handler.endpoint product s.w).2 })
    | none =>
      some ({ t with pc := if t.handler = Handler.withSingleflight then PC.enterDo
                           else PC.dbBegin },
            { s with w := countMiss t.handler.endpoint s.w })
  | PC.enterDo =>
    match s.group with
    | some c =>
      some ({ t with pc := PC.wait, call := some c, leads := false },
            { s with calls := setCall s.calls c { s.calls c with dups := (s.calls c).dups + 1 } })
    | none =>
      some ({ t with pc := PC.recheck, call := some s.ncalls, leads := true },
            { s with group := some s.ncalls
                     ncalls := s.ncalls + 1
                     calls := setCall s.calls s.ncalls
                       { dups := 0, result := none, leader := i, fetches := 0,
                         recheckHit := false } })
  | PC.recheck =>
    match getFromCache J env.recheckErr s.w with
    | some product =>
      some ({ t with pc := PC.finish (Except.ok product) },
            match t.call with
            | some c => { s with calls := setCall s.calls c { s.calls c with recheckHit := true } }
            | none => s)
    | none => some ({ t with pc := PC.dbBegin }, s)
  | PC.dbBegin =>
    some ({ t with pc := PC.dbSleep (s.w.now + dbLatency) },
          { s with w := simulateDBCallBegin t.handler.endpoint s.w
                   calls := match t.call with
                     | some c =>
                       setCall s.calls c { s.calls c with fetches := (s.calls c).fetches + 1 }
                     | none => s.calls })
  | PC.dbSleep wake =>
    if wake ≤ s.w.now then
      some ({ t with pc := PC.fetched (simulateDBCallEnd env.stamp s.w).1 },
            { s with w := (simulateDBCallEnd env.stamp s.w).2 })
    else none
  | PC.fetched r =>
    if t.handler = Handler.withSingleflight then
      some ({ t with pc := PC.finish (closureFetched J env.setErr r s.w).1 },
            { s with w := (closureFetched J env.setErr r s.w).2 })
    else
      some ({ t with pc := PC.deferred (afterFetch J env.setErr r s.w).1 },
            { s with w := (afterFetch J env.setErr r s.w).2 })
  | PC.finish r =>
    match t.call with
    | some c =>
      some ({ t with pc := PC.respond r (decide (0 < (s.calls c).dups)) },
            { s with calls := setCall s.calls c { s.calls c with result := some r }
                     group := if s.group = some c then none else s.group })
    | none => none
  | PC.wait =>
    match t.call with
    | some c =>
      match (s.calls c).result with
      | some r => some ({ t with pc := PC.respond r true }, s)
      | none => none
    | none => none
  | PC.respond r shared =>
    some ({ t with pc := PC.deferred (afterDo r shared s.w).1 },
          { s with w := (afterDo r shared s.w).2 })
  | PC.deferred resp =>
    some ({ t with pc := PC.done resp },
          { s with w := deferred t.handler.endpoint t.start s.w })
  | PC.done _ => none

/-- The next atomic step of a request. -/
def stepThread (J : JSONCodec) (env : Env) (i : Nat) (t : Thread) (s : Shared) :
    Option (Thread × Shared) :=
  match t.handler with
  | Handler.clearCache =>
    match t.pc with
    | PC.start =>
      some ({ t with pc := PC.done (clearCacheHandler env s.w).1 },
            { s with w := (clearCacheHandler env s.w).2 })
    | _ => none
  | Handler.health =>
    match t.pc with
    | PC.start =>
      some ({ t with pc := PC.done (healthHandler s.w).1 },
            { s with w := (healthHandler s.w).2 })
    | _ => none
  | _ => stepRead J env i t s

/-- The server: shared state and the requests received so far. -/
structure State where
  sh : Shared
  threads : List Thread

/-- What can happen next: a request arrives, time passes, or request `i` takes its next
step with the environment's inputs `env`. -/
inductive Event where
  | spawn (h : Handler)
  | tick (d : Nat)
  | step (i : Nat) (env : Env)

/-- One event; `none` when request `i` does not exist or cannot move. -/
def exec (J : JSONCodec) (s : State) : Event → Option State
  | Event.spawn h =>
    some { s with threads := s.threads ++
      [{ handler := h, start := 0, pc := PC.start, call := none, leads := false }] }
  | Event.tick d => some { s with sh := { s.sh with w := advance d s.sh.w } }
  | Event.step i env =>
    match s.threads[i]? with
    | none => none
    | some t =>
      match stepThread J env i t s.sh with
      | none => none
      | some out => some { sh := out.2, threads := s.threads.set i out.1 }

/-- A schedule, event by event. -/
def run (J : JSONCodec) (s : State) : List Event → Option State
  | [] => some s
  | e :: es =>
    match exec J s e with
    | none => none
    | some s' => run J s' es

/-- A call slot nobody has used. -/
def noCall : Call := { dups := 0, result := none, leader := 0, fetches := 0, recheckHit := false }

/-- The server over world `w` before any request: no call in flight. -/
def boot (w : World) : State :=
  { sh := { w := w, group := none, calls := fun _ => noCall, ncalls := 0 }, threads := [] }

/-- The response of request `i`, once its handler has returned. -/
def State.response (s : State) (i : Nat) : Option Response :=
  match s.threads[i]? with
  | some t =>
    match t.pc with
    | PC.done resp => some resp
    | _ => none
  | none => none

/-- Let request `i` take `n` steps in a calm environment. -/
def steps (i n : Nat) : List Event := List.replicate n (Event.step i calmEnv)

/-- Ten requests to the coalescing endpoint arrive together over an empty cache: request 0
becomes the leader and is inside `simulateDBCall` when requests 1..9 miss the cache and join
its call; then the sleep ends, the leader stores and publishes, and everybody answers. -/
def tenAtOnce : List Event :=
  List.replicate 10 (Event.spawn Handler.withSingleflight)
    ++ steps 0 5
    ++ (List.range 9).flatMap (fun k => steps (k + 1) 3)
    ++ [Event.tick dbLatency]
    ++ steps 0 5
    ++ (List.range 9).flatMap (fun k => steps (k + 1) 3)

/-- Two requests to the coalescing endpoint: request 1 misses the cache while request 0 is
fetching, but reaches `sfGroup.Do` only after request 0 has stored its product and completed
its call; request 1 therefore leads a call of its own, whose re-check hits. -/
def lateJoiner : List Event :=
  [Event.spawn Handler.withSingleflight, Event.spawn Handler.withSingleflight]
    ++ steps 0 5 ++ steps 1 2 ++ [Event.tick dbLatency] ++ steps 0 5 ++ steps 1 5

/-! ## Invariants of the interleaving -/

/-- The success response of lines 223-230 for a product that came out of `sfGroup.Do`. -/
def doResponse (p : Product) (shared : Bool) : Response :=
  jsonResponse (if shared then "SINGLEFLIGHT-SHARED" else "MISS")
    [("X-Singleflight-Shared", if shared then "true" else "false")] p

/-- Request `i` is the caller running `fn` of call `c`, which is still in flight. -/
def Leading (s : Shared) (i : Nat) (t : Thread) (c : Nat) : Prop :=
  t.call = some c ∧ c < s.ncalls ∧ t.leads = true ∧ (s.calls c).leader = i
    ∧ (s.calls c).result = none

/-- Request `i` got `r` and `shared` from call `c`, which is complete. -/
def Answered (s : Shared) (i : Nat) (t : Thread) (r : Except String Product) (shared : Bool) :
    Prop :=
  ∃ c, t.call = some c ∧ c < s.ncalls ∧ (s.calls c).result = some r ∧ (∃ p, r = Except.ok p)
    ∧ (t.leads = true → (s.calls c).leader = i ∧ shared = decide (0 < (s.calls c).dups))
    ∧ (t.leads = false → shared = true ∧ 0 < (s.calls c).dups)

/-- What holds of request `i` wherever it is. -/
def ThreadOK (s : Shared) (i : Nat) (t : Thread) : Prop :=
  match t.handler with
  | Handler.withSingleflight =>
    match t.pc with
    | PC.start => t.call = none
    | PC.check => t.call = none
    | PC.enterDo => t.call = none
    | PC.recheck =>
      ∃ c, Leading s i t c ∧ (s.calls c).fetches = 0 ∧ (s.calls c).recheckHit = false
    | PC.dbBegin =>
      ∃ c, Leading s i t c ∧ (s.calls c).fetches = 0 ∧ (s.calls c).recheckHit = false
    | PC.dbSleep _ =>
      ∃ c, Leading s i t c ∧ (s.calls c).fetches = 1 ∧ (s.calls c).recheckHit = false
    | PC.fetched r =>
      ∃ c, Leading s i t c ∧ (s.calls c).fetches = 1 ∧ (s.calls c).recheckHit = false
        ∧ ∃ p, r = Except.ok p
    | PC.finish r =>
      ∃ c, Leading s i t c
        ∧ (s.calls c).fetches + (if (s.calls c).recheckHit then 1 else 0) = 1
        ∧ ∃ p, r = Except.ok p
    | PC.wait => ∃ c, t.call = some c ∧ c < s.ncalls ∧ t.leads = false ∧ 0 < (s.calls c).dups
    | PC.respond r shared => Answered s i t r shared
    | PC.deferred resp =>
      (t.call = none ∧ ∃ p, resp = jsonResponse "HIT" [] p)
        ∨ ∃ p shared, Answered s i t (Except.ok p) shared ∧ resp = doResponse p shared
    | PC.done resp =>
      (t.call = none ∧ ∃ p, resp = jsonResponse "HIT" [] p)
        ∨ ∃ p shared, Answered s i t (Except.ok p) shared ∧ resp = doResponse p shared
  | Handler.withoutSingleflight =>
    t.call = none ∧
    match t.pc with
    | PC.start => True
    | PC.check => True
    | PC.dbBegin => True
    | PC.dbSleep _ => True
    | PC.fetched r => ∃ p, r = Except.ok p
    | PC.deferred resp => ∃ p, resp = jsonResponse "HIT" [] p ∨ resp = jsonResponse "MISS" [] p
    | PC.done resp => ∃ p, resp = jsonResponse "HIT" [] p ∨ resp = jsonResponse "MISS" [] p
    | _ => False
  | Handler.clearCache => t.call = none
  | Handler.health => t.call = none

/-- What holds of the table of calls. -/
def SharedOK (s : Shared) : Prop :=
  (∀ c, s.group = some c → c < s.ncalls ∧ (s.calls c).result = none)
  ∧ ∀ c, (s.calls c).fetches ≤ 1
      ∧ ((s.calls c).result ≠ none →
          (s.calls c).fetches + (if (s.calls c).recheckHit then 1 else 0) = 1)
      ∧ ∀ r, (s.calls c).result = some r → ∃ p, r = Except.ok p

/-- How a step of request `i` may change the calls that exist: never the leader, never a
completed call, `dups` only upwards, and of a call `i` does not lead only `dups`. -/
def Frame (i : Nat) (s s' : Shared) : Prop :=
  s.ncalls ≤ s'.ncalls
  ∧ ∀ c, c < s.ncalls →
      (s'.calls c).leader = (s.calls c).leader
      ∧ (s.calls c).dups ≤ (s'.calls c).dups
      ∧ ((s.calls c).result ≠ none → s'.calls c = s.calls c)
      ∧ ((s.calls c).leader ≠ i →
          (s'.calls c).result = (s.calls c).result
          ∧ (s'.calls c).fetches = (s.calls c).fetches
          ∧ (s'.calls c).recheckHit = (s.calls c).recheckHit)

/-- The invariant of the interleaving. -/
def Inv (s : State) : Prop :=
  SharedOK s.sh ∧ ∀ i t, s.threads[i]? = some t → ThreadOK s.sh i t

/-- Whether a request has written a response carrying the shared marker
(`X-Singleflight-Shared: true`, main.go 229). -/
def flagged (t : Thread) : Bool :=
  match t.pc with
  | PC.deferred resp => decide (resp.get "X-Singleflight-Shared" = some "true")
  | PC.done resp => decide (resp.get "X-Singleflight-Shared" = some "true")
  | _ => false

/-- Backend calls made by the closures of the first `n` calls of `sfGroup.Do`. -/
def waveFetches (calls : Nat → Call) : Nat → Nat
  | 0 => 0
  | n + 1 => waveFetches calls n + (calls n).fetches

/-- Two requests to the coalescing endpoint arrive together over an empty cache: request 0
leads, request 1 joins its call while it is inside `simulateDBCall`. -/
def twoAtOnce : List Event :=
  [Event.spawn Handler.withSingleflight, Event.spawn Handler.withSingleflight]
    ++ steps 0 5 ++ steps 1 3 ++ [Event.tick dbLatency] ++ steps 0 5 ++ steps 1 3

/-- The state a schedule leads to from start-up over an empty cache (start-up itself if the
schedule cannot be run). -/
def endOf (es : List Event) : State :=
  (run encodingJSON (boot coldWorld) es).getD (boot coldWorld)

/-- Whether the request's handler has returned. -/
def Thread.answered (t : Thread) : Bool :=
  match t.pc with
  | PC.done _ => true
  | _ => false

/-- Whether a request to the naive endpoint has missed the cache (it is about to fetch, is
fetching, or has answered something other than a hit). -/
def naiveMissed (t : Thread) : Bool :=
  decide (t.handler = Handler.withoutSingleflight) &&
    match t.pc with
    | PC.dbBegin => true
    | PC.dbSleep _ => true
    | PC.fetched _ => true
    | PC.deferred resp => decide (resp.get "X-Cache" ≠ some "HIT")
    | PC.done resp => decide (resp.get "X-Cache" ≠ some "HIT")
    | _ => false

/-- Whether a request to the naive endpoint has called `simulateDBCall`. -/
def naiveFetched (t : Thread) : Bool :=
  decide (t.handler = Handler.withoutSingleflight) &&
    match t.pc with
    | PC.dbSleep _ => true
    | PC.fetched _ => true
    | PC.deferred resp => decide (resp.get "X-Cache" ≠ some "HIT")
    | PC.done resp => decide (resp.get "X-Cache" ≠ some "HIT")
    | _ => false

/-- Ten requests to the naive endpoint arrive together over an empty cache: all miss before
the first fetch has returned. -/
def tenNaive : List Event :=
  List.replicate 10 (Event.spawn Handler.withoutSingleflight)
    ++ (List.range 10).flatMap (fun k => steps k 3)
    ++ [Event.tick dbLatency]
    ++ (List.range 10).flatMap (fun k => steps k 3)

/-! ## Counting requests by where they are -/

/-- Whether the route is one of the two read endpoints. -/
def Handler.reads : Handler → Bool
  | Handler.withoutSingleflight => true
  | Handler.withSingleflight => true
  | _ => false

/-- A request to the read endpoint labelled `e`. -/
def requestTo (e : String) (t : Thread) : Bool :=
  t.handler.reads && decide (t.handler.endpoint = e)

/-- A request to endpoint `e` whose first cache read hit (counted at main.go 150, 188). -/
def hitOn (e : String) (t : Thread) : Bool :=
  requestTo e t &&
    match t.pc with
    | PC.deferred resp => decide (resp.get "X-Cache" = some "HIT")
    | PC.done resp => decide (resp.get "X-Cache" = some "HIT")
    | _ => false

/-- A request to endpoint `e` whose first cache read missed (counted at main.go 158, 196). -/
def missedOn (e : String) (t : Thread) : Bool :=
  requestTo e t &&
    match t.pc with
    | PC.start => false
    | PC.check => false
    | PC.deferred resp => decide (resp.get "X-Cache" ≠ some "HIT")
    | PC.done resp => decide (resp.get "X-Cache" ≠ some "HIT")
    | _ => true

/-- A request to endpoint `e` that has counted its miss and may still call
`simulateDBCall`. -/
def pendingOn (e : String) (t : Thread) : Bool :=
  requestTo e t &&
    match t.pc with
    | PC.enterDo => true
    | PC.recheck => true
    | PC.dbBegin => true
    | _ => false

/-- A request inside `simulateDBCall` between its `dbCalls` increment (main.go 93) and its
`requestCount` increment (main.go 95). -/
def sleeping (t : Thread) : Bool :=
  t.handler.reads &&
    match t.pc with
    | PC.dbSleep _ => true
    | _ => false

/-- A request to endpoint `e` between its `inflightRequests` increment (main.go 140, 178)
and the decrement of its deferred function. -/
def activeOn (e : String) (t : Thread) : Bool :=
  requestTo e t &&
    match t.pc with
    | PC.start => false
    | PC.done _ => false
    | _ => true

/-- One naive request, the `k`-th the server receives, served before the next arrives:
its three steps up to the sleep, the sleep, its three steps to the answer. -/
def naiveRound (k : Nat) (env : Env) : List Event :=
  Event.spawn Handler.withoutSingleflight
    :: List.replicate 3 (Event.step k env) ++ Event.tick (dbLatency + env.oversleep)
    :: List.replicate 3 (Event.step k env)

/-- The schedule of `n` naive requests served one after the other while Redis is down. -/
def serialMisses : Nat → List Event
  | 0 => []
  | n + 1 => serialMisses n ++ naiveRound n redisDown

/-! ## A wave whose fetch failed -/

/-- The server as it would stand had `simulateDBCall` just returned the error `err` to the
leader of a coalescing wave over `coldWorld`: request 0 runs the closure of call 0, requests 1
and 2 joined the call and wait in `sfGroup.Do`, request 3 is a naive request whose own fetch
returned the same error.  (`simulateDBCall` as written never fails, so no schedule leads
here from start-up.) -/
def errorWave (err : String) : State :=
  { sh :=
      { w := coldWorld
        group := some 0
        calls := setCall (fun _ => noCall) 0
          { dups := 2, result := none, leader := 0, fetches := 1, recheckHit := false }
        ncalls := 1 }
    threads :=
      [{ handler := Handler.withSingleflight, start := 0, pc := PC.fetched (Except.error err)
         call := some 0, leads := true },
       { handler := Handler.withSingleflight, start := 0, pc := PC.wait
         call := some 0, leads := false },
       { handler := Handler.withSingleflight, start := 0, pc := PC.wait
         call := some 0, leads := false },
       { handler := Handler.withoutSingleflight, start := 0, pc := PC.fetched (Except.error err)
         call := none, leads := false }] }

/-! ## The codec reads back what it writes -/

theorem toNat_ofNat_small (n : Nat) (h : n < 55296) : (Char.ofNat n).toNat = n := by
  have hv : n.isValidChar := Or.inl h
  simp [Char.ofNat, hv, Char.ofNatAux, Char.toNat, UInt32.toNat]

theorem digitChar_toNat (d : Nat) (h : d < 10) : (digitChar d).toNat = 48 + d := by
  unfold digitChar
  exact toNat_ofNat_small _ (by omega)

theorem isDigit_digitChar (d : Nat) (h : d < 10) : isDigit (digitChar d) = true := by
  simp [isDigit, digitChar_toNat d h]
  omega

theorem natText_allDigits : ∀ (fuel n : Nat) (c : Char), c ∈ natText fuel n → isDigit c = true := by
  intro fuel
  induction fuel with
  | zero => intro n c hc; simp [natText] at hc
  | succ k ih =>
    intro n c hc
    simp only [natText, List.mem_append, List.mem_singleton] at hc
    rcases hc with hc | hc
    · split at hc
      · simp at hc
      · exact ih _ _ hc
    · rw [hc]; exact isDigit_digitChar _ (Nat.mod_lt _ (by decide))

theorem natText_ne_nil (fuel n : Nat) : natText (fuel + 1) n ≠ [] := by
  simp [natText]

theorem digitsValue_snoc (ds : List Char) (c : Char) :
    digitsValue (ds ++ [c]) = digitsValue ds * 10 + (c.toNat - 48) := by
  simp [digitsValue, List.foldl_append]

theorem digitsValue_natText : ∀ (fuel n : Nat), n < fuel → digitsValue (natText fuel n) = n := by
  intro fuel
  induction fuel with
  | zero => intro n h; omega
  | succ k ih =>
    intro n h
    rw [natText, digitsValue_snoc, digitChar_toNat _ (Nat.mod_lt _ (by decide))]
    by_cases h10 : n < 10
    · simp [h10, digitsValue]
    · simp only [h10, if_false]
      rw [ih (n / 10) (by omega)]
      omega

theorem spanDigits_append (ds rest : List Char) (hds : ∀ c ∈ ds, isDigit c = true)
    (hrest : ∀ c r, rest = c :: r → isDigit c = false) : spanDigits (ds ++ rest) = (ds, rest) := by
  induction ds with
  | nil =>
    cases rest with
    | nil => simp [spanDigits]
    | cons c r => simp [spanDigits, hrest c r rfl]
  | cons d ds ih =>
    have hd : isDigit d = true := hds d (by simp)
    have ih2 := ih (fun c hc => hds c (by simp [hc]))
    simp [spanDigits, hd, ih2]

theorem natText_head (fuel n : Nat) :
    ∃ c cs, natText (fuel + 1) n = c :: cs ∧ isDigit c = true := by
  cases h : natText (fuel + 1) n with
  | nil => exact absurd h (natText_ne_nil fuel n)
  | cons c cs =>
    exact ⟨c, cs, rfl, natText_allDigits (fuel + 1) n c (by simp [h])⟩

theorem natText_head_nonzero : ∀ (fuel n : Nat), n < fuel → 0 < n →
    ∃ c cs, natText fuel n = c :: cs ∧ c ≠ '0' := by
  intro fuel
  induction fuel with
  | zero => intro n h; omega
  | succ k ih =>
    intro n h hn
    by_cases h10 : n < 10
    · refine ⟨digitChar (n % 10), [], by simp [natText, h10], ?_⟩
      intro hc
      have h1 := digitChar_toNat (n % 10) (Nat.mod_lt _ (by decide))
      rw [hc] at h1
      have h2 : ('0' : Char).toNat = 48 := by decide
      omega
    · obtain ⟨c, cs, hcs, hc⟩ := ih (n / 10) (by omega) (by omega)
      exact ⟨c, cs ++ [digitChar (n % 10)], by simp [natText, h10, hcs], hc⟩

theorem leadingZero_natText (n : Nat) : leadingZero (natText (n + 1) n) = false := by
  rcases Nat.eq_zero_or_pos n with h | h
  · subst h
    simp [natText, leadingZero]
  · obtain ⟨c, cs, hcs, hc⟩ := natText_head_nonzero (n + 1) n (by omega) h
    rw [hcs]
    cases cs <;> simp [leadingZero, hc]

theorem decodeInt64_intText (i : Int) (hi : minInt64 ≤ i ∧ i ≤ maxInt64) (rest : List Char)
    (hrest : ∀ c r, rest = c :: r → isDigit c = false) :
    decodeInt64 (intText i ++ rest) = some (i, rest) := by
  by_cases hneg : i < 0
  · have hspan := spanDigits_append (natText ((-i).toNat + 1) (-i).toNat) rest
      (natText_allDigits _ _) hrest
    have hval := digitsValue_natText ((-i).toNat + 1) (-i).toNat (by omega)
    have hne := natText_ne_nil (-i).toNat (-i).toNat
    have hlz := leadingZero_natText (-i).toNat
    have hcast : ((-i).toNat : Int) = -i := Int.toNat_of_nonneg (by omega)
    simp only [decodeInt64, intText, hneg, if_true, List.cons_append, decide_True, List.drop_succ_cons,
      List.drop_zero, hspan, hval, hcast, neg_neg, hne, if_false, hlz, Bool.false_eq_true]
    simp [hi]
  · obtain ⟨c, cs, hcs, hc⟩ := natText_head i.toNat i.toNat
    have hspan := spanDigits_append (natText (i.toNat + 1) i.toNat) rest
      (natText_allDigits _ _) hrest
    have hval := digitsValue_natText (i.toNat + 1) i.toNat (by omega)
    have hne := natText_ne_nil i.toNat i.toNat
    have hlz := leadingZero_natText i.toNat
    have hcast : (i.toNat : Int) = i := Int.toNat_of_nonneg (by omega)
    have hminus : decide (c = '-') = false := by
      rw [decide_eq_false_iff_not]
      intro hcm
      rw [hcm] at hc
      exact absurd hc (by decide)
    have hshape : decodeInt64 (intText i ++ rest)
        = decodeInt64 (natText (i.toNat + 1) i.toNat ++ rest) := by simp [intText, hneg]
    rw [hshape]
    unfold decodeInt64
    have hn : (match natText (i.toNat + 1) i.toNat ++ rest with
        | c :: _ => decide (c = '-')
        | [] => false) = false := by rw [hcs]; simpa using hminus
    simp only [hn]
    simp [hspan, hval, hcast, hne, hi, hlz]

theorem hexVal_hexDigit (n : Nat) (h : n < 16) : hexVal (hexDigit n) = some n := by
  interval_cases n <;> decide

theorem unquoteAux_uEscape (n : Nat) (h : n < 55296) (tail acc : List Char) :
    unquoteAux StrState.plain (uEscape n ++ tail) acc
      = unquoteAux StrState.plain tail (Char.ofNat n :: acc) := by
  have h1 := hexVal_hexDigit (n / 4096) (by omega)
  have h2 := hexVal_hexDigit (n / 256 % 16) (by omega)
  have h3 := hexVal_hexDigit (n / 16 % 16) (by omega)
  have h4 := hexVal_hexDigit (n % 16) (by omega)
  have hq : ¬ backslashCh = quoteCh := by decide
  have hsum : ((n / 4096 * 16 + n / 256 % 16) * 16 + n / 16 % 16) * 16 + n % 16 = n := by omega
  have hrune : decodeRune n = Char.ofNat n := by
    unfold decodeRune
    rw [if_neg (by omega)]
  simp [uEscape, unquoteAux, hq, h1, h2, h3, h4, hsum, hrune]

theorem unquoteAux_escapeChar (c : Char) (tail acc : List Char) :
    unquoteAux StrState.plain (escapeChar c ++ tail) acc
      = unquoteAux StrState.plain tail (c :: acc) := by
  have hq : ¬ backslashCh = quoteCh := by decide
  have hbu : ¬ backslashCh = 'u' := by decide
  have hqu : ¬ quoteCh = 'u' := by decide
  unfold escapeChar
  split
  · next h => subst h; simp [unquoteAux, hq, hqu, unescape]
  split
  · next h => subst h; simp [unquoteAux, hq, hbu, unescape]
  split
  · next h =>
    have hc : c = Char.ofNat 8 := by rw [← h, Char.ofNat_toNat]
    have hu : unescape 'b' = some (Char.ofNat 8) := by decide
    subst hc
    simp [unquoteAux, hq, hu]
  split
  · next h =>
    have hc : c = Char.ofNat 12 := by rw [← h, Char.ofNat_toNat]
    have hu : unescape 'f' = some (Char.ofNat 12) := by decide
    subst hc
    simp [unquoteAux, hq, hu]
  split
  · next h =>
    have hc : c = Char.ofNat 10 := by rw [← h, Char.ofNat_toNat]
    have hu : unescape 'n' = some (Char.ofNat 10) := by decide
    subst hc
    simp [unquoteAux, hq, hu]
  split
  · next h =>
    have hc : c = Char.ofNat 13 := by rw [← h, Char.ofNat_toNat]
    have hu : unescape 'r' = some (Char.ofNat 13) := by decide
    subst hc
    simp [unquoteAux, hq, hu]
  split
  · next h =>
    have hc : c = Char.ofNat 9 := by rw [← h, Char.ofNat_toNat]
    have hu : unescape 't' = some (Char.ofNat 9) := by decide
    subst hc
    simp [unquoteAux, hq, hu]
  split
  · next h =>
    rw [unquoteAux_uEscape c.toNat (by omega), Char.ofNat_toNat]
  · next h1 h2 _ _ h3 h4 h5 h6 =>
    have h32 : ¬ c.toNat < 32 := by omega
    simp [unquoteAux, h1, h2, h32]

theorem unquoteAux_escaped (cs tail acc : List Char) :
    unquoteAux StrState.plain ((cs.map escapeChar).flatten ++ quoteCh :: tail) acc
      = some (acc.reverse ++ cs, tail) := by
  induction cs generalizing acc with
  | nil => simp [unquoteAux]
  | cons c cs ih =>
    simp only [List.map_cons, List.flatten_cons, List.append_assoc]
    rw [unquoteAux_escapeChar, ih]
    simp

theorem decodeString_encodeString (s : String) (tail : List Char) :
    decodeString (encodeString s ++ tail) = some (s, tail) := by
  simp [decodeString, encodeString, unquoteAux_escaped]

theorem stripLit_append (lit rest : List Char) : stripLit lit (lit ++ rest) = some rest := by
  induction lit with
  | nil => simp [stripLit]
  | cons c cs ih => simp [stripLit, ih]

/-- Reading back the object written for a well-formed product gives the product. -/
theorem decodeProduct_encodeProduct (p : Product) (h : p.wellFormed) :
    decodeProduct (encodeProduct p) = some p := by
  obtain ⟨h1, h2, h3⟩ := h
  have hcomma : ∀ (name : String) (tail : List Char) (c : Char) (r : List Char),
      keyText false name ++ tail = c :: r → isDigit c = false := by
    intro name tail c r hcr
    simp only [keyText, Bool.false_eq_true, if_false, List.cons_append] at hcr
    injection hcr with hc _
    subst hc
    decide
  have hbrace : ∀ (c : Char) (r : List Char), [Char.ofNat 125] = c :: r → isDigit c = false := by
    intro c r hcr
    injection hcr with hc _
    subst hc
    decide
  unfold decodeProduct encodeProduct
  simp only [List.append_assoc, stripLit_append, Option.some_bind]
  rw [decodeInt64_intText p.ID h1 _ (hcomma _ _)]
  simp only [Option.some_bind, stripLit_append, decodeString_encodeString]
  rw [decodeInt64_intText p.Price h2 _ (hcomma _ _)]
  simp only [Option.some_bind, stripLit_append, decodeString_encodeString]
  rw [decodeInt64_intText p.RequestID h3 _ hbrace]
  simp

/-- The codec reads back what it wrote, for every well-formed product. -/
theorem encodingJSON_roundtrip (p : Product) (h : p.wellFormed) :
    ∃ data, encodingJSON.marshal p = Except.ok data ∧ encodingJSON.unmarshal data = Except.ok p := by
  refine ⟨String.mk (encodeProduct p), rfl, ?_⟩
  simp [encodingJSON, decodeProduct_encodeProduct p h]
/-! ## One request at a time -/

theorem addAt_cancel (m : String → Int) (l : String) : addAt (addAt m l 1) l (-1) = m := by
  funext k
  simp only [addAt]
  split <;> simp

theorem getFromCache_congr (J : JSONCodec) (fault : Option String) (w w' : World)
    (hdb : w'.rdb = w.rdb) (hnow : w'.now = w.now) :
    getFromCache J fault w' = getFromCache J fault w := by
  simp [getFromCache, hdb, hnow]

/-- C3. A request to `withSingleflightHandler` that overlaps no other: on a hit of the first
read the cached product is answered with `X-Cache: HIT` and neither `simulateDBCall` nor
`setCache` runs; on a miss followed by a hit of the closure's re-read the cached product is
answered, again without `simulateDBCall` or `setCache`; only when both reads miss is
`simulateDBCall` called, exactly once, and its product passed to `setCache` (stored under
`cacheKey` with `cacheTTL`) and answered. -/
theorem withSingleflightHandler_alone (J : JSONCodec) (env : Env) (w : World) :
    (∀ p, getFromCache J env.getErr w = some p →
      (withSingleflightHandler J env w).1 = jsonResponse "HIT" [] p
      ∧ (withSingleflightHandler J env w).2.trace = w.trace
      ∧ (withSingleflightHandler J env w).2.rdb = w.rdb
      ∧ (withSingleflightHandler J env w).2.requestCount = w.requestCount
      ∧ (withSingleflightHandler J env w).2.dbCalls = w.dbCalls)
    ∧ (getFromCache J env.getErr w = none → ∀ p, getFromCache J env.recheckErr w = some p →
      (withSingleflightHandler J env w).1
          = jsonResponse "MISS" [("X-Singleflight-Shared", "false")] p
      ∧ (withSingleflightHandler J env w).2.trace = w.trace
      ∧ (withSingleflightHandler J env w).2.rdb = w.rdb
      ∧ (withSingleflightHandler J env w).2.requestCount = w.requestCount
      ∧ (withSingleflightHandler J env w).2.dbCalls = w.dbCalls)
    ∧ (getFromCache J env.getErr w = none → getFromCache J env.recheckErr w = none →
      (withSingleflightHandler J env w).1
          = jsonResponse "MISS" [("X-Singleflight-Shared", "false")]
              (newProduct env.stamp (atomicAddInt64 w.requestCount 1))
      ∧ (withSingleflightHandler J env w).2.trace
          = w.trace ++ [Invoked.simulateDBCall "with_singleflight",
              Invoked.setCache (newProduct env.stamp (atomicAddInt64 w.requestCount 1))]
      ∧ (withSingleflightHandler J env w).2.dbCalls = incAt w.dbCalls "with_singleflight"
      ∧ (withSingleflightHandler J env w).2.rdb
          = (match J.marshal (newProduct env.stamp (atomicAddInt64 w.requestCount 1)) with
             | Except.error _ => w.rdb
             | Except.ok data =>
               (redisSet w.rdb (w.now + dbLatency + env.oversleep) env.setErr cacheKey data
                  cacheTTL).2)) := by
  have e1 : getFromCache J env.getErr (enter "with_singleflight" w)
      = getFromCache J env.getErr w := getFromCache_congr _ _ _ _ rfl rfl
  have e2 : getFromCache J env.recheckErr (countMiss "with_singleflight"
      (enter "with_singleflight" w)) = getFromCache J env.recheckErr w :=
    getFromCache_congr _ _ _ _ rfl rfl
  refine ⟨?_, ?_, ?_⟩
  · intro p hp
    simp only [withSingleflightHandler, withSingleflightHandlerWith, e1, hp]
    simp [answerHit, deferred, enter]
  · intro h1 p hp
    simp only [withSingleflightHandler, withSingleflightHandlerWith, e1, h1, sfGroupDoAlone,
      closureWith, e2, hp]
    simp [afterDo, deferred, enter, countMiss]
  · intro h1 h2
    simp only [withSingleflightHandler, withSingleflightHandlerWith, e1, h1, sfGroupDoAlone,
      closureWith, e2, h2]
    simp only [simulateDBCall, simulateDBCallEnd, simulateDBCallBegin, closureFetched,
      afterDo, setCache, deferred, enter, countMiss]
    cases J.marshal (newProduct env.stamp (atomicAddInt64 w.requestCount 1)) <;> simp

/-- The three branches of C3 at concrete inputs: a warm cache (hit), a warm cache whose first
read fails (miss, then hit on the re-read), and an empty cache (miss, miss, fetch). -/
theorem withSingleflightHandler_alone_witness :
    (withSingleflightHandler encodingJSON calmEnv warmWorld).1 = jsonResponse "HIT" [] sampleProduct
    ∧ (withSingleflightHandler encodingJSON firstReadFails warmWorld).1
        = jsonResponse "MISS" [("X-Singleflight-Shared", "false")] sampleProduct
    ∧ (withSingleflightHandler encodingJSON calmEnv coldWorld).2.trace
        = [Invoked.simulateDBCall "with_singleflight",
           Invoked.setCache (newProduct calmEnv.stamp 1)] :=
  ⟨((withSingleflightHandler_alone encodingJSON calmEnv warmWorld).1 sampleProduct
      (by decide)).1,
   ((withSingleflightHandler_alone encodingJSON firstReadFails warmWorld).2.1 (by decide)
      sampleProduct (by decide)).1,
   ((withSingleflightHandler_alone encodingJSON calmEnv coldWorld).2.2 (by decide)
      (by decide)).2.1⟩
theorem wrapInt64_of_range (x : Int) (h1 : minInt64 ≤ x) (h2 : x ≤ maxInt64) : wrapInt64 x = x := by
  unfold wrapInt64
  unfold minInt64 at h1
  unfold maxInt64 at h2
  omega

theorem wrapInt64_range (x : Int) : minInt64 ≤ wrapInt64 x ∧ wrapInt64 x ≤ maxInt64 := by
  unfold wrapInt64 minInt64 maxInt64
  omega

/-- C4 as stated fails at the top of the `int64` range: on a miss with
`requestCount = 9223372036854775807` the counter does not grow by 1, it wraps to the smallest
`int64`. -/
theorem withoutSingleflightHandler_wraps :
    getFromCache encodingJSON calmEnv.getErr brimWorld = none
    ∧ brimWorld.requestCount = 9223372036854775807
    ∧ (withoutSingleflightHandler encodingJSON calmEnv brimWorld).2.requestCount
        = -9223372036854775808
    ∧ (withoutSingleflightHandler encodingJSON calmEnv brimWorld).2.requestCount
        ≠ brimWorld.requestCount + 1 := by
  decide

/-- C4, amended. A request to `withoutSingleflightHandler` over any cache state: on a hit the
body is the cached product with `X-Cache: HIT` and neither `simulateDBCall` nor `setCache` is
called (`requestCount`, `dbCalls` and the cache are unchanged); on a miss `simulateDBCall` is
called exactly once (`dbCalls["without_singleflight"]` grows by exactly 1, `requestCount` takes
one `int64` increment, which is growth by exactly 1 below the largest `int64`), the fetched
product is passed to `setCache`, and the body is that product with `X-Cache: MISS`. -/
theorem withoutSingleflightHandler_request (J : JSONCodec) (env : Env) (w : World) :
    (∀ p, getFromCache J env.getErr w = some p →
      (withoutSingleflightHandler J env w).1 = jsonResponse "HIT" [] p
      ∧ (withoutSingleflightHandler J env w).2.trace = w.trace
      ∧ (withoutSingleflightHandler J env w).2.requestCount = w.requestCount
      ∧ (withoutSingleflightHandler J env w).2.dbCalls = w.dbCalls
      ∧ (withoutSingleflightHandler J env w).2.rdb = w.rdb)
    ∧ (getFromCache J env.getErr w = none →
      (withoutSingleflightHandler J env w).1
          = jsonResponse "MISS" [] (newProduct env.stamp (atomicAddInt64 w.requestCount 1))
      ∧ (withoutSingleflightHandler J env w).2.trace
          = w.trace ++ [Invoked.simulateDBCall "without_singleflight",
              Invoked.setCache (newProduct env.stamp (atomicAddInt64 w.requestCount 1))]
      ∧ (withoutSingleflightHandler J env w).2.dbCalls "without_singleflight"
          = w.dbCalls "without_singleflight" + 1
      ∧ (withoutSingleflightHandler J env w).2.requestCount = atomicAddInt64 w.requestCount 1
      ∧ (minInt64 ≤ w.requestCount → w.requestCount < maxInt64 →
          (withoutSingleflightHandler J env w).2.requestCount = w.requestCount + 1)
      ∧ (withoutSingleflightHandler J env w).2.rdb
          = (match J.marshal (newProduct env.stamp (atomicAddInt64 w.requestCount 1)) with
             | Except.error _ => w.rdb
             | Except.ok data =>
               (redisSet w.rdb (w.now + dbLatency + env.oversleep) env.setErr cacheKey data
                  cacheTTL).2)) := by
  have e1 : getFromCache J env.getErr (enter "without_singleflight" w)
      = getFromCache J env.getErr w := getFromCache_congr _ _ _ _ rfl rfl
  refine ⟨?_, ?_⟩
  · intro p hp
    simp only [withoutSingleflightHandler, withoutSingleflightHandlerWith, e1, hp]
    simp [answerHit, deferred, enter]
  · intro h1
    have hw : minInt64 ≤ w.requestCount → w.requestCount < maxInt64 →
        atomicAddInt64 w.requestCount 1 = w.requestCount + 1 := by
      intro ha hb
      exact wrapInt64_of_range _ (by omega) (by omega)
    simp only [withoutSingleflightHandler, withoutSingleflightHandlerWith, e1, h1]
    simp only [simulateDBCall, simulateDBCallEnd, simulateDBCallBegin, afterFetch, setCache,
      deferred, enter, countMiss]
    cases J.marshal (newProduct env.stamp (atomicAddInt64 w.requestCount 1)) <;>
      simp [incAt] <;> exact hw

/-- Both branches of C4 at concrete inputs: a warm cache (hit) and an empty cache (miss). -/
theorem withoutSingleflightHandler_request_witness :
    (withoutSingleflightHandler encodingJSON calmEnv warmWorld).1
        = jsonResponse "HIT" [] sampleProduct
    ∧ (withoutSingleflightHandler encodingJSON calmEnv coldWorld).1
        = jsonResponse "MISS" [] (newProduct calmEnv.stamp 1)
    ∧ (withoutSingleflightHandler encodingJSON calmEnv coldWorld).2.requestCount
        = coldWorld.requestCount + 1 :=
  ⟨((withoutSingleflightHandler_request encodingJSON calmEnv warmWorld).1 sampleProduct
      (by decide)).1,
   ((withoutSingleflightHandler_request encodingJSON calmEnv coldWorld).2 (by decide)).1,
   ((withoutSingleflightHandler_request encodingJSON calmEnv coldWorld).2 (by decide)).2.2.2.2.1
      (by decide) (by decide)⟩
/-- C6. Cache failures never fail a read request: `getFromCache` reports a miss whenever the
Redis read returns `redis.Nil` or any other error or the payload fails `json.Unmarshal`, and it
reports a hit only with a product that `json.Unmarshal` produced from the stored payload; and
when `json.Marshal` or the Redis write inside `setCache` fails, both read handlers still answer
200 with the product fetched from `simulateDBCall` (the cache is left as it was). -/
theorem cache_failures_degrade (J : JSONCodec) (env : Env) (w : World) :
    (∀ fault,
      (redisGet w.rdb w.now fault cacheKey = GetReply.nil → getFromCache J fault w = none)
      ∧ (∀ msg, redisGet w.rdb w.now fault cacheKey = GetReply.err msg →
          getFromCache J fault w = none)
      ∧ (∀ v e, redisGet w.rdb w.now fault cacheKey = GetReply.val v →
          J.unmarshal v = Except.error e → getFromCache J fault w = none)
      ∧ (∀ p, getFromCache J fault w = some p →
          ∃ v, redisGet w.rdb w.now fault cacheKey = GetReply.val v
            ∧ J.unmarshal v = Except.ok p))
    ∧ (getFromCache J env.getErr w = none →
        ((∃ e, J.marshal (newProduct env.stamp (atomicAddInt64 w.requestCount 1))
            = Except.error e) ∨ (∃ msg, env.setErr = some msg)) →
        (withoutSingleflightHandler J env w).1
            = jsonResponse "MISS" [] (newProduct env.stamp (atomicAddInt64 w.requestCount 1))
        ∧ (withoutSingleflightHandler J env w).1.status = 200
        ∧ (withoutSingleflightHandler J env w).2.rdb = w.rdb)
    ∧ (getFromCache J env.getErr w = none → getFromCache J env.recheckErr w = none →
        ((∃ e, J.marshal (newProduct env.stamp (atomicAddInt64 w.requestCount 1))
            = Except.error e) ∨ (∃ msg, env.setErr = some msg)) →
        (withSingleflightHandler J env w).1
            = jsonResponse "MISS" [("X-Singleflight-Shared", "false")]
                (newProduct env.stamp (atomicAddInt64 w.requestCount 1))
        ∧ (withSingleflightHandler J env w).1.status = 200
        ∧ (withSingleflightHandler J env w).2.rdb = w.rdb) := by
  refine ⟨?_, ?_, ?_⟩
  · intro fault
    refine ⟨?_, ?_, ?_, ?_⟩
    · intro h; simp [getFromCache, h]
    · intro msg h; simp [getFromCache, h]
    · intro v e h hu; simp [getFromCache, h, hu]
    · intro p hp
      unfold getFromCache at hp
      cases hg : redisGet w.rdb w.now fault cacheKey with
      | nil => simp [hg] at hp
      | err msg => simp [hg] at hp
      | val v =>
        rw [hg] at hp
        cases hu : J.unmarshal v with
        | error e => simp [hu] at hp
        | ok q =>
          simp only [hu, Option.some.injEq] at hp
          exact ⟨v, rfl, by rw [hu, hp]⟩
  · intro h1 hfail
    have e1 : getFromCache J env.getErr (enter "without_singleflight" w)
        = getFromCache J env.getErr w := getFromCache_congr _ _ _ _ rfl rfl
    simp only [withoutSingleflightHandler, withoutSingleflightHandlerWith, e1, h1]
    simp only [simulateDBCall, simulateDBCallEnd, simulateDBCallBegin, afterFetch, setCache,
      deferred, enter, countMiss]
    rcases hfail with ⟨e, he⟩ | ⟨msg, hmsg⟩
    · simp [he, jsonResponse]
    · cases J.marshal (newProduct env.stamp (atomicAddInt64 w.requestCount 1)) <;>
        simp [hmsg, redisSet, jsonResponse]
  · intro h1 h2 hfail
    have e1 : getFromCache J env.getErr (enter "with_singleflight" w)
        = getFromCache J env.getErr w := getFromCache_congr _ _ _ _ rfl rfl
    have e2 : getFromCache J env.recheckErr (countMiss "with_singleflight"
        (enter "with_singleflight" w)) = getFromCache J env.recheckErr w :=
      getFromCache_congr _ _ _ _ rfl rfl
    simp only [withSingleflightHandler, withSingleflightHandlerWith, e1, h1, sfGroupDoAlone,
      closureWith, e2, h2]
    simp only [simulateDBCall, simulateDBCallEnd, simulateDBCallBegin, closureFetched,
      afterDo, setCache, deferred, enter, countMiss]
    rcases hfail with ⟨e, he⟩ | ⟨msg, hmsg⟩
    · simp [he, jsonResponse]
    · cases J.marshal (newProduct env.stamp (atomicAddInt64 w.requestCount 1)) <;>
        simp [hmsg, redisSet, jsonResponse]

/-- C6 at concrete inputs: a failed read of a warm cache and an unreadable payload are misses;
with a failing `Marshal`, and with Redis down altogether, both handlers still answer 200 with
the fetched product. -/
theorem cache_failures_degrade_witness :
    getFromCache encodingJSON (some "context canceled") warmWorld = none
    ∧ getFromCache encodingJSON none garbledWorld = none
    ∧ (withoutSingleflightHandler failingMarshal calmEnv coldWorld).1
        = jsonResponse "MISS" [] (newProduct calmEnv.stamp 1)
    ∧ (withSingleflightHandler encodingJSON redisDown warmWorld).1
        = jsonResponse "MISS" [("X-Singleflight-Shared", "false")] (newProduct redisDown.stamp 1) :=
  ⟨((cache_failures_degrade encodingJSON calmEnv warmWorld).1 (some "context canceled")).2.1
      "context canceled" (by decide),
   ((cache_failures_degrade encodingJSON calmEnv garbledWorld).1 none).2.2.1 "<html>"
      "json: cannot unmarshal into Go value of type main.Product" (by decide) rfl,
   ((cache_failures_degrade failingMarshal calmEnv coldWorld).2.1 (by decide)
      (Or.inl ⟨"json: unsupported value", rfl⟩)).1,
   ((cache_failures_degrade encodingJSON redisDown warmWorld).2.2 (by decide) (by decide)
      (Or.inr ⟨"dial tcp: connection refused", rfl⟩)).1⟩

/-- The function `simulateDBCall` never returns an error. -/
theorem simulateDBCall_ok (endpoint : String) (env : Env) (w : World) :
    (simulateDBCall endpoint env w).1
      = Except.ok (newProduct env.stamp (atomicAddInt64 w.requestCount 1)) := by
  simp [simulateDBCall, simulateDBCallEnd, simulateDBCallBegin]

/-! ## What one request does to the world -/

theorem withoutSingleflightHandler_hit (J : JSONCodec) (env : Env) (w : World) (p : Product)
    (h : getFromCache J env.getErr w = some p) :
    withoutSingleflightHandler J env w
      = (jsonResponse "HIT" [] p,
         { w with cacheHits := incAt w.cacheHits "without_singleflight"
                  requestDuration := observeAt w.requestDuration "without_singleflight" 0 }) := by
  have e1 : getFromCache J env.getErr (enter "without_singleflight" w)
      = getFromCache J env.getErr w := getFromCache_congr _ _ _ _ rfl rfl
  simp only [withoutSingleflightHandler, withoutSingleflightHandlerWith, e1, h]
  simp [answerHit, deferred, enter, addAt_cancel]

theorem withoutSingleflightHandler_miss (J : JSONCodec) (env : Env) (w : World)
    (h : getFromCache J env.getErr w = none) :
    withoutSingleflightHandler J env w
      = (jsonResponse "MISS" [] (newProduct env.stamp (atomicAddInt64 w.requestCount 1)),
         { w with
             rdb := (match J.marshal (newProduct env.stamp (atomicAddInt64 w.requestCount 1)) with
               | Except.error _ => w.rdb
               | Except.ok data =>
                 (redisSet w.rdb (w.now + dbLatency + env.oversleep) env.setErr cacheKey data
                    cacheTTL).2)
             now := w.now + dbLatency + env.oversleep
             requestCount := atomicAddInt64 w.requestCount 1
             cacheMisses := incAt w.cacheMisses "without_singleflight"
             dbCalls := incAt w.dbCalls "without_singleflight"
             requestDuration := observeAt w.requestDuration "without_singleflight"
               (dbLatency + env.oversleep)
             trace := w.trace ++ [Invoked.simulateDBCall "without_singleflight",
               Invoked.setCache (newProduct env.stamp (atomicAddInt64 w.requestCount 1))] }) := by
  have e1 : getFromCache J env.getErr (enter "without_singleflight" w)
      = getFromCache J env.getErr w := getFromCache_congr _ _ _ _ rfl rfl
  have ht : w.now + dbLatency + env.oversleep - w.now = dbLatency + env.oversleep := by omega
  simp only [withoutSingleflightHandler, withoutSingleflightHandlerWith, e1, h]
  simp only [simulateDBCall, simulateDBCallEnd, simulateDBCallBegin, afterFetch, setCache,
    deferred, enter, countMiss]
  cases J.marshal (newProduct env.stamp (atomicAddInt64 w.requestCount 1)) <;>
    simp [addAt_cancel, ht]

theorem withSingleflightHandler_hit (J : JSONCodec) (env : Env) (w : World) (p : Product)
    (h : getFromCache J env.getErr w = some p) :
    withSingleflightHandler J env w
      = (jsonResponse "HIT" [] p,
         { w with cacheHits := incAt w.cacheHits "with_singleflight"
                  requestDuration := observeAt w.requestDuration "with_singleflight" 0 }) := by
  have e1 : getFromCache J env.getErr (enter "with_singleflight" w)
      = getFromCache J env.getErr w := getFromCache_congr _ _ _ _ rfl rfl
  simp only [withSingleflightHandler, withSingleflightHandlerWith, e1, h]
  simp [answerHit, deferred, enter, addAt_cancel]

theorem withSingleflightHandler_recheck_hit (J : JSONCodec) (env : Env) (w : World) (p : Product)
    (h1 : getFromCache J env.getErr w = none) (h2 : getFromCache J env.recheckErr w = some p) :
    withSingleflightHandler J env w
      = (jsonResponse "MISS" [("X-Singleflight-Shared", "false")] p,
         { w with cacheMisses := incAt w.cacheMisses "with_singleflight"
                  requestDuration := observeAt w.requestDuration "with_singleflight" 0 }) := by
  have e1 : getFromCache J env.getErr (enter "with_singleflight" w)
      = getFromCache J env.getErr w := getFromCache_congr _ _ _ _ rfl rfl
  have e2 : getFromCache J env.recheckErr (countMiss "with_singleflight"
      (enter "with_singleflight" w)) = getFromCache J env.recheckErr w :=
    getFromCache_congr _ _ _ _ rfl rfl
  simp only [withSingleflightHandler, withSingleflightHandlerWith, e1, h1, sfGroupDoAlone,
    closureWith, e2, h2]
  simp [afterDo, deferred, enter, countMiss, addAt_cancel]

theorem withSingleflightHandler_miss (J : JSONCodec) (env : Env) (w : World)
    (h1 : getFromCache J env.getErr w = none) (h2 : getFromCache J env.recheckErr w = none) :
    withSingleflightHandler J env w
      = (jsonResponse "MISS" [("X-Singleflight-Shared", "false")]
           (newProduct env.stamp (atomicAddInt64 w.requestCount 1)),
         { w with
             rdb := (match J.marshal (newProduct env.stamp (atomicAddInt64 w.requestCount 1)) with
               | Except.error _ => w.rdb
               | Except.ok data =>
                 (redisSet w.rdb (w.now + dbLatency + env.oversleep) env.setErr cacheKey data
                    cacheTTL).2)
             now := w.now + dbLatency + env.oversleep
             requestCount := atomicAddInt64 w.requestCount 1
             cacheMisses := incAt w.cacheMisses "with_singleflight"
             dbCalls := incAt w.dbCalls "with_singleflight"
             requestDuration := observeAt w.requestDuration "with_singleflight"
               (dbLatency + env.oversleep)
             trace := w.trace ++ [Invoked.simulateDBCall "with_singleflight",
               Invoked.setCache (newProduct env.stamp (atomicAddInt64 w.requestCount 1))] }) := by
  have e1 : getFromCache J env.getErr (enter "with_singleflight" w)
      = getFromCache J env.getErr w := getFromCache_congr _ _ _ _ rfl rfl
  have e2 : getFromCache J env.recheckErr (countMiss "with_singleflight"
      (enter "with_singleflight" w)) = getFromCache J env.recheckErr w :=
    getFromCache_congr _ _ _ _ rfl rfl
  have ht : w.now + dbLatency + env.oversleep - w.now = dbLatency + env.oversleep := by omega
  simp only [withSingleflightHandler, withSingleflightHandlerWith, e1, h1, sfGroupDoAlone,
    closureWith, e2, h2]
  simp only [simulateDBCall, simulateDBCallEnd, simulateDBCallBegin, closureFetched,
    afterDo, setCache, deferred, enter, countMiss]
  cases J.marshal (newProduct env.stamp (atomicAddInt64 w.requestCount 1)) <;>
    simp [addAt_cancel, ht]

theorem getFromCache_absent (J : JSONCodec) (fault : Option String) (w : World)
    (h : w.rdb cacheKey = none) : getFromCache J fault w = none := by
  cases fault <;> simp [getFromCache, redisGet, h]

theorem clearCacheHandler_ok (env : Env) (w : World) (h : env.delErr = none) :
    clearCacheHandler env w
      = ({ status := 200, header := [], body := Body.text "Cache cleared" },
         { w with rdb := fun k => if k = cacheKey then none else w.rdb k }) := by
  simp [clearCacheHandler, redisDel, h]

theorem atomicAddInt64_succ (x : Int) (h : minInt64 ≤ x) (h2 : x < maxInt64) :
    atomicAddInt64 x 1 = x + 1 :=
  wrapInt64_of_range _ (by omega) (by omega)
/-- C8 as stated fails at the top of the `int64` range: from `requestCount = 2^63 - 2` two
successive calls of `simulateDBCall` return `RequestID` 9223372036854775807 and then
-9223372036854775808, which is not greater. -/
theorem simulateDBCall_wraps :
    (simulateDBCall "without_singleflight" calmEnv nearBrimWorld).1
        = Except.ok (newProduct calmEnv.stamp 9223372036854775807)
    ∧ (simulateDBCall "without_singleflight" calmEnv
        (simulateDBCall "without_singleflight" calmEnv nearBrimWorld).2).1
        = Except.ok (newProduct calmEnv.stamp (-9223372036854775808))
    ∧ ¬ ((newProduct calmEnv.stamp 9223372036854775807).RequestID
          < (newProduct calmEnv.stamp (-9223372036854775808)).RequestID) :=
  ⟨rfl, rfl, by decide⟩

/-- C8, amended. Request sequence numbers increase until the `int64` counter wraps: of two
successive calls of `simulateDBCall` (no call in between, so `requestCount` is what the first
left) the later `RequestID` is the earlier one incremented as `int64`, hence strictly greater
whenever the earlier one is below 9223372036854775807.  In particular two requests to the same
endpoint that miss (the coalescing one also on its re-check), separated by the first one's
completion and a successful cache clear, make two backend fetches whose `RequestID`s are
related in that way. -/
theorem requestID_increasing (J : JSONCodec) (env1 env2 env3 : Env) (w : World) :
    (∀ e1 e2 w', w'.requestCount = (simulateDBCall e1 env1 w).2.requestCount →
      ∃ p1 p2, (simulateDBCall e1 env1 w).1 = Except.ok p1
        ∧ (simulateDBCall e2 env2 w').1 = Except.ok p2
        ∧ p2.RequestID = atomicAddInt64 p1.RequestID 1
        ∧ (p1.RequestID < maxInt64 → p1.RequestID < p2.RequestID))
    ∧ (∀ d1 d2, getFromCache J env1.getErr w = none → env2.delErr = none →
      ∃ p1 p2,
        (withoutSingleflightHandler J env1 w).1.body = Body.json p1
        ∧ (withoutSingleflightHandler J env3 (advance d2 (clearCacheHandler env2
            (advance d1 (withoutSingleflightHandler J env1 w).2)).2)).1.body = Body.json p2
        ∧ (withoutSingleflightHandler J env3 (advance d2 (clearCacheHandler env2
            (advance d1 (withoutSingleflightHandler J env1 w).2)).2)).2.dbCalls
              "without_singleflight" = w.dbCalls "without_singleflight" + 2
        ∧ p2.RequestID = atomicAddInt64 p1.RequestID 1
        ∧ (p1.RequestID < maxInt64 → p1.RequestID < p2.RequestID))
    ∧ (∀ d1 d2, getFromCache J env1.getErr w = none → getFromCache J env1.recheckErr w = none →
      env2.delErr = none →
      ∃ p1 p2,
        (withSingleflightHandler J env1 w).1.body = Body.json p1
        ∧ (withSingleflightHandler J env3 (advance d2 (clearCacheHandler env2
            (advance d1 (withSingleflightHandler J env1 w).2)).2)).1.body = Body.json p2
        ∧ (withSingleflightHandler J env3 (advance d2 (clearCacheHandler env2
            (advance d1 (withSingleflightHandler J env1 w).2)).2)).2.dbCalls
              "with_singleflight" = w.dbCalls "with_singleflight" + 2
        ∧ p2.RequestID = atomicAddInt64 p1.RequestID 1
        ∧ (p1.RequestID < maxInt64 → p1.RequestID < p2.RequestID)) := by
  have hlt : ∀ x : Int, atomicAddInt64 x 1 < maxInt64 →
      atomicAddInt64 x 1 < atomicAddInt64 (atomicAddInt64 x 1) 1 := by
    intro x hx
    have hr := wrapInt64_range (x + 1)
    rw [atomicAddInt64_succ (atomicAddInt64 x 1) hr.1 hx]
    omega
  refine ⟨?_, ?_, ?_⟩
  · intro e1 e2 w' hw'
    refine ⟨_, _, simulateDBCall_ok e1 env1 w, simulateDBCall_ok e2 env2 w', ?_, ?_⟩
    · simp [hw', newProduct, simulateDBCall, simulateDBCallEnd, simulateDBCallBegin]
    · simp only [hw', newProduct, simulateDBCall, simulateDBCallEnd, simulateDBCallBegin]
      exact hlt _
  · intro d1 d2 h1 hdel
    rw [withoutSingleflightHandler_miss J env1 w h1, clearCacheHandler_ok env2 _ hdel]
    rw [withoutSingleflightHandler_miss J env3 _
      (getFromCache_absent _ _ _ (by simp [advance]))]
    refine ⟨_, _, rfl, rfl, ?_, ?_, ?_⟩
    · simp [advance, incAt]
    · simp [advance, newProduct]
    · simp only [advance, newProduct]
      exact hlt _
  · intro d1 d2 h1 h2 hdel
    rw [withSingleflightHandler_miss J env1 w h1 h2, clearCacheHandler_ok env2 _ hdel]
    rw [withSingleflightHandler_miss J env3 _
      (getFromCache_absent _ _ _ (by simp [advance]))
      (getFromCache_absent _ _ _ (by simp [advance]))]
    refine ⟨_, _, rfl, rfl, ?_, ?_, ?_⟩
    · simp [advance, incAt]
    · simp [advance, newProduct]
    · simp only [advance, newProduct]
      exact hlt _

/-- C8 at a concrete input: from start-up over an empty cache, a miss, a cache clear and a
second miss on either endpoint are answered with `RequestID` 1 and then 2. -/
theorem requestID_increasing_witness :
    (withoutSingleflightHandler encodingJSON calmEnv coldWorld).1.body
        = Body.json (newProduct calmEnv.stamp 1)
    ∧ (withoutSingleflightHandler encodingJSON calmEnv (advance 5 (clearCacheHandler calmEnv
        (advance 3 (withoutSingleflightHandler encodingJSON calmEnv coldWorld).2)).2)).1.body
        = Body.json (newProduct calmEnv.stamp 2)
    ∧ (∃ p1 p2,
        (withSingleflightHandler encodingJSON calmEnv coldWorld).1.body = Body.json p1
        ∧ (withSingleflightHandler encodingJSON calmEnv (advance 5 (clearCacheHandler calmEnv
            (advance 3 (withSingleflightHandler encodingJSON calmEnv coldWorld).2)).2)).1.body
            = Body.json p2
        ∧ (withSingleflightHandler encodingJSON calmEnv (advance 5 (clearCacheHandler calmEnv
            (advance 3 (withSingleflightHandler encodingJSON calmEnv coldWorld).2)).2)).2.dbCalls
              "with_singleflight" = coldWorld.dbCalls "with_singleflight" + 2
        ∧ p2.RequestID = atomicAddInt64 p1.RequestID 1
        ∧ (p1.RequestID < maxInt64 → p1.RequestID < p2.RequestID)) :=
  ⟨by decide, by decide,
   (requestID_increasing encodingJSON calmEnv calmEnv calmEnv coldWorld).2.2 3 5 (by decide)
     (by decide) rfl⟩
theorem newProduct_wellFormed (stamp : String) (x : Int) :
    (newProduct stamp (atomicAddInt64 x 1)).wellFormed := by
  refine ⟨⟨?_, ?_⟩, ⟨?_, ?_⟩, wrapInt64_range _⟩ <;> simp [newProduct, minInt64, maxInt64]

theorem getFromCache_after_setCache (p : Product) (hp : p.wellFormed) (w : World) (d : Nat)
    (hd : d < cacheTTL) :
    getFromCache encodingJSON none (advance d (setCache encodingJSON none p w)) = some p := by
  have hlt : w.now + d < w.now + cacheTTL := by omega
  simp [getFromCache, advance, setCache, encodingJSON, redisGet, redisSet, hlt,
    decodeProduct_encodeProduct p hp]

theorem getFromCache_expired (p : Product) (fault : Option String) (w : World) (d : Nat)
    (hd : cacheTTL < d) :
    getFromCache encodingJSON fault (advance d (setCache encodingJSON none p w)) = none := by
  have hlt : ¬ w.now + d < w.now + cacheTTL := by omega
  cases fault <;>
    simp [getFromCache, advance, setCache, encodingJSON, redisGet, redisSet, hlt]

/-- C9 as stated fails in two ways inside the TTL and with no delete in between: a read whose
Redis call fails reports a miss, and after another write the read returns the other
product. -/
theorem cache_roundtrip_disturbed :
    getFromCache encodingJSON (some "context canceled")
        (advance 1 (setCache encodingJSON none sampleProduct coldWorld)) = none
    ∧ getFromCache encodingJSON none
        (advance 1 (setCache encodingJSON none (newProduct "2026-01-02T03:04:01Z" 8)
          (setCache encodingJSON none sampleProduct coldWorld)))
        = some (newProduct "2026-01-02T03:04:01Z" 8)
    ∧ newProduct "2026-01-02T03:04:01Z" 8 ≠ sampleProduct := by
  decide

/-- C9, amended. Cache round trip under TTL: for every product `p` produced by
`simulateDBCall`, once `setCache(p)` has succeeded, a `getFromCache` issued before `cacheTTL`
has elapsed, with nothing but time in between and a Redis read that does not itself fail,
returns `(p, true)` (encode-then-decode is the identity on `p`), so such a read on either
endpoint is a HIT with the same product and no backend call; a read issued after `cacheTTL`
has elapsed, or after `clearCacheHandler` succeeded, reports a miss. -/
theorem cache_roundtrip_ttl (endpoint : String) (env0 : Env) (w0 : World) (p : Product)
    (hp : (simulateDBCall endpoint env0 w0).1 = Except.ok p) (w : World) :
    (∃ data, encodingJSON.marshal p = Except.ok data ∧ encodingJSON.unmarshal data = Except.ok p)
    ∧ (∀ d, d < cacheTTL →
        getFromCache encodingJSON none (advance d (setCache encodingJSON none p w)) = some p)
    ∧ (∀ d env, d < cacheTTL → env.getErr = none →
        (withoutSingleflightHandler encodingJSON env
            (advance d (setCache encodingJSON none p w))).1 = jsonResponse "HIT" [] p
        ∧ (withoutSingleflightHandler encodingJSON env
            (advance d (setCache encodingJSON none p w))).2.trace
              = (setCache encodingJSON none p w).trace
        ∧ (withSingleflightHandler encodingJSON env
            (advance d (setCache encodingJSON none p w))).1 = jsonResponse "HIT" [] p
        ∧ (withSingleflightHandler encodingJSON env
            (advance d (setCache encodingJSON none p w))).2.trace
              = (setCache encodingJSON none p w).trace)
    ∧ (∀ d fault, cacheTTL < d →
        getFromCache encodingJSON fault (advance d (setCache encodingJSON none p w)) = none)
    ∧ (∀ d d' env fault, env.delErr = none →
        getFromCache encodingJSON fault
          (advance d' (clearCacheHandler env
            (advance d (setCache encodingJSON none p w))).2) = none) := by
  have hwf : p.wellFormed := by
    rw [simulateDBCall_ok] at hp
    injection hp with hp
    rw [← hp]
    exact newProduct_wellFormed _ _
  refine ⟨encodingJSON_roundtrip p hwf, ?_, ?_, ?_, ?_⟩
  · intro d hd
    exact getFromCache_after_setCache p hwf w d hd
  · intro d env hd henv
    have hget : getFromCache encodingJSON env.getErr
        (advance d (setCache encodingJSON none p w)) = some p := by
      rw [henv]; exact getFromCache_after_setCache p hwf w d hd
    rw [withoutSingleflightHandler_hit _ _ _ p hget, withSingleflightHandler_hit _ _ _ p hget]
    simp [advance]
  · intro d fault hd
    exact getFromCache_expired p fault w d hd
  · intro d d' env fault hdel
    rw [clearCacheHandler_ok env _ hdel]
    exact getFromCache_absent _ _ _ (by simp [advance])

/-- C9 at a concrete input: the product fetched at start-up, stored and read back one second
later. -/
theorem cache_roundtrip_ttl_witness :
    getFromCache encodingJSON none
        (advance 1000000000 (setCache encodingJSON none (newProduct calmEnv.stamp 1) coldWorld))
      = some (newProduct calmEnv.stamp 1) :=
  (cache_roundtrip_ttl "with_singleflight" calmEnv coldWorld (newProduct calmEnv.stamp 1) rfl
    coldWorld).2.1 1000000000 (by decide)
/-! ## Counters over sequences of requests -/

theorem wrapInt64_succ (x : Int) : atomicAddInt64 (wrapInt64 x) 1 = wrapInt64 (x + 1) := by
  unfold atomicAddInt64 wrapInt64
  omega

theorem getFromCache_fault (J : JSONCodec) (msg : String) (w : World) :
    getFromCache J (some msg) w = none := by
  simp [getFromCache, redisGet]

theorem serve_inflight (J : JSONCodec) (r : Request) (w : World) :
    (serve J r w).inflightRequests = w.inflightRequests := by
  cases r with
  | withoutSingleflight env =>
    cases h : getFromCache J env.getErr w with
    | some p => simp [serve, withoutSingleflightHandler_hit J env w p h]
    | none => simp [serve, withoutSingleflightHandler_miss J env w h]
  | withSingleflight env =>
    cases h : getFromCache J env.getErr w with
    | some p => simp [serve, withSingleflightHandler_hit J env w p h]
    | none =>
      cases h2 : getFromCache J env.recheckErr w with
      | some p => simp [serve, withSingleflightHandler_recheck_hit J env w p h h2]
      | none => simp [serve, withSingleflightHandler_miss J env w h h2]
  | clearCache env =>
    cases h : env.delErr <;> simp [serve, clearCacheHandler, redisDel, h]
  | health => simp [serve, healthHandler]
  | wait d => simp [serve, advance]

theorem serve_counts (J : JSONCodec) (r : Request) (w : World)
    (h1 : w.requestCount
      = wrapInt64 ((w.dbCalls "without_singleflight" + w.dbCalls "with_singleflight" : Nat) : Int))
    (h2 : ∀ e, w.dbCalls e ≤ w.cacheMisses e) :
    (serve J r w).requestCount
      = wrapInt64 (((serve J r w).dbCalls "without_singleflight"
          + (serve J r w).dbCalls "with_singleflight" : Nat) : Int)
    ∧ ∀ e, (serve J r w).dbCalls e ≤ (serve J r w).cacheMisses e := by
  have hmono : ∀ (l e : String), incAt w.dbCalls l e ≤ incAt w.cacheMisses l e := by
    intro l e
    have := h2 e
    simp only [incAt]
    split <;> omega
  have hle : ∀ (l e : String), w.dbCalls e ≤ incAt w.cacheMisses l e := by
    intro l e
    have := h2 e
    simp only [incAt]
    split <;> omega
  cases r with
  | withoutSingleflight env =>
    cases h : getFromCache J env.getErr w with
    | some p =>
      simp only [serve, withoutSingleflightHandler_hit J env w p h]
      exact ⟨h1, h2⟩
    | none =>
      simp only [serve, withoutSingleflightHandler_miss J env w h]
      refine ⟨?_, hmono _⟩
      rw [h1, wrapInt64_succ]
      simp [incAt]
      ring_nf
  | withSingleflight env =>
    cases h : getFromCache J env.getErr w with
    | some p =>
      simp only [serve, withSingleflightHandler_hit J env w p h]
      exact ⟨h1, h2⟩
    | none =>
      cases h3 : getFromCache J env.recheckErr w with
      | some p =>
        simp only [serve, withSingleflightHandler_recheck_hit J env w p h h3]
        exact ⟨h1, hle _⟩
      | none =>
        simp only [serve, withSingleflightHandler_miss J env w h h3]
        refine ⟨?_, hmono _⟩
        rw [h1, wrapInt64_succ]
        simp [incAt]
        ring_nf
  | clearCache env =>
    cases h : env.delErr <;> simp [serve, clearCacheHandler, redisDel, h, h1, h2]
  | health => simp [serve, healthHandler, h1, h2]
  | wait d => simp [serve, advance, h1, h2]

theorem serveAll_counts (J : JSONCodec) (rs : List Request) (w : World)
    (h1 : w.requestCount
      = wrapInt64 ((w.dbCalls "without_singleflight" + w.dbCalls "with_singleflight" : Nat) : Int))
    (h2 : ∀ e, w.dbCalls e ≤ w.cacheMisses e) :
    (serveAll J rs w).requestCount
      = wrapInt64 (((serveAll J rs w).dbCalls "without_singleflight"
          + (serveAll J rs w).dbCalls "with_singleflight" : Nat) : Int)
    ∧ (∀ e, (serveAll J rs w).dbCalls e ≤ (serveAll J rs w).cacheMisses e)
    ∧ (serveAll J rs w).inflightRequests = w.inflightRequests := by
  induction rs generalizing w with
  | nil => exact ⟨h1, h2, rfl⟩
  | cons r rs ih =>
    have hs := serve_counts J r w h1 h2
    have := ih (serve J r w) hs.1 hs.2
    simp only [serveAll, List.foldl_cons] at this ⊢
    rw [serve_inflight] at this
    exact this

theorem serveAll_naive_misses (J : JSONCodec) (msg : String) (env : Env)
    (henv : env.getErr = some msg) (n : Nat) (w : World) :
    (serveAll J (List.replicate n (Request.withoutSingleflight env)) w).dbCalls
        "without_singleflight" = w.dbCalls "without_singleflight" + n
    ∧ (serveAll J (List.replicate n (Request.withoutSingleflight env)) w).dbCalls
        "with_singleflight" = w.dbCalls "with_singleflight" := by
  induction n generalizing w with
  | zero => simp [serveAll]
  | succ n ih =>
    have hmiss : getFromCache J env.getErr w = none := by
      rw [henv]; exact getFromCache_fault J msg w
    have := ih (serve J (Request.withoutSingleflight env) w)
    simp only [serveAll, List.replicate_succ, List.foldl_cons] at this ⊢
    rw [this.1, this.2]
    simp only [serve, withoutSingleflightHandler_miss J env w hmiss]
    simp [incAt]
    omega
/-- Served one after the other, 2^63 naive requests that all miss (Redis is down) leave
`dbCalls["without_singleflight"]` at 2^63 and `requestCount` at -2^63. -/
theorem serveAll_requestCount_wraps :
    (serveAll encodingJSON
        (List.replicate 9223372036854775808 (Request.withoutSingleflight redisDown))
        coldWorld).requestCount = -9223372036854775808
    ∧ (serveAll encodingJSON
        (List.replicate 9223372036854775808 (Request.withoutSingleflight redisDown))
        coldWorld).dbCalls "without_singleflight" = 9223372036854775808
    ∧ (serveAll encodingJSON
        (List.replicate 9223372036854775808 (Request.withoutSingleflight redisDown))
        coldWorld).requestCount
      ≠ (((serveAll encodingJSON
            (List.replicate 9223372036854775808 (Request.withoutSingleflight redisDown))
            coldWorld).dbCalls "without_singleflight"
          + (serveAll encodingJSON
            (List.replicate 9223372036854775808 (Request.withoutSingleflight redisDown))
            coldWorld).dbCalls "with_singleflight" : Nat) : Int) := by
  have hc := (serveAll_counts encodingJSON
    (List.replicate 9223372036854775808 (Request.withoutSingleflight redisDown)) coldWorld
    (by decide) (by intro e; exact Nat.le_refl _)).1
  have hn := serveAll_naive_misses encodingJSON "dial tcp: connection refused" redisDown rfl
    9223372036854775808 coldWorld
  have h0 : coldWorld.dbCalls "without_singleflight" = 0 := rfl
  have h1 : coldWorld.dbCalls "with_singleflight" = 0 := rfl
  rw [hc, hn.1, hn.2, h0, h1]
  decide

/-- Requests served one after the other.  In every state reached from start-up (all counters
0) by any sequence of requests to the four handlers that do not overlap, with time passing in
between: `requestCount` equals
`dbCalls["without_singleflight"] + dbCalls["with_singleflight"]` reduced to `int64` (so it
equals that sum while fewer than 2^63 backend calls were made), `dbCalls[e] <= cacheMisses[e]`
for each endpoint, `inflightRequests[e]` is 0, every further read request increments exactly
one of `cacheHits[e]` and `cacheMisses[e]` by exactly 1, and every further request leaves
`inflightRequests` at its pre-request value. -/
theorem serial_counters (J : JSONCodec) (db : Redis) (now : Nat) (rs : List Request) :
    (serveAll J rs (initial db now)).requestCount
      = wrapInt64 (((serveAll J rs (initial db now)).dbCalls "without_singleflight"
          + (serveAll J rs (initial db now)).dbCalls "with_singleflight" : Nat) : Int)
    ∧ ((serveAll J rs (initial db now)).dbCalls "without_singleflight"
          + (serveAll J rs (initial db now)).dbCalls "with_singleflight" < 9223372036854775808 →
        (serveAll J rs (initial db now)).requestCount
          = (((serveAll J rs (initial db now)).dbCalls "without_singleflight"
              + (serveAll J rs (initial db now)).dbCalls "with_singleflight" : Nat) : Int))
    ∧ (∀ e, (serveAll J rs (initial db now)).dbCalls e
          ≤ (serveAll J rs (initial db now)).cacheMisses e)
    ∧ (∀ e, (serveAll J rs (initial db now)).inflightRequests e = 0)
    ∧ (∀ env,
        ((withoutSingleflightHandler J env (serveAll J rs (initial db now))).2.cacheHits
              "without_singleflight"
            = (serveAll J rs (initial db now)).cacheHits "without_singleflight" + 1
          ∧ (withoutSingleflightHandler J env (serveAll J rs (initial db now))).2.cacheMisses
              "without_singleflight"
            = (serveAll J rs (initial db now)).cacheMisses "without_singleflight")
        ∨ ((withoutSingleflightHandler J env (serveAll J rs (initial db now))).2.cacheHits
              "without_singleflight"
            = (serveAll J rs (initial db now)).cacheHits "without_singleflight"
          ∧ (withoutSingleflightHandler J env (serveAll J rs (initial db now))).2.cacheMisses
              "without_singleflight"
            = (serveAll J rs (initial db now)).cacheMisses "without_singleflight" + 1))
    ∧ (∀ env,
        ((withSingleflightHandler J env (serveAll J rs (initial db now))).2.cacheHits
              "with_singleflight"
            = (serveAll J rs (initial db now)).cacheHits "with_singleflight" + 1
          ∧ (withSingleflightHandler J env (serveAll J rs (initial db now))).2.cacheMisses
              "with_singleflight"
            = (serveAll J rs (initial db now)).cacheMisses "with_singleflight")
        ∨ ((withSingleflightHandler J env (serveAll J rs (initial db now))).2.cacheHits
              "with_singleflight"
            = (serveAll J rs (initial db now)).cacheHits "with_singleflight"
          ∧ (withSingleflightHandler J env (serveAll J rs (initial db now))).2.cacheMisses
              "with_singleflight"
            = (serveAll J rs (initial db now)).cacheMisses "with_singleflight" + 1))
    ∧ (∀ r, (serve J r (serveAll J rs (initial db now))).inflightRequests
          = (serveAll J rs (initial db now)).inflightRequests) := by
  have hc := serveAll_counts J rs (initial db now) (by simp [initial, wrapInt64])
    (by intro e; exact Nat.le_refl _)
  refine ⟨hc.1, ?_, hc.2.1, ?_, ?_, ?_, ?_⟩
  · intro hlt
    rw [hc.1]
    apply wrapInt64_of_range
    · unfold minInt64; omega
    · unfold maxInt64; omega
  · intro e
    rw [hc.2.2]
    rfl
  · intro env
    cases h : getFromCache J env.getErr (serveAll J rs (initial db now)) with
    | some p =>
      left
      simp [withoutSingleflightHandler_hit J env _ p h, incAt]
    | none =>
      right
      simp [withoutSingleflightHandler_miss J env _ h, incAt]
  · intro env
    cases h : getFromCache J env.getErr (serveAll J rs (initial db now)) with
    | some p =>
      left
      simp [withSingleflightHandler_hit J env _ p h, incAt]
    | none =>
      right
      cases h2 : getFromCache J env.recheckErr (serveAll J rs (initial db now)) with
      | some p => simp [withSingleflightHandler_recheck_hit J env _ p h h2, incAt]
      | none => simp [withSingleflightHandler_miss J env _ h h2, incAt]
  · intro r
    exact serve_inflight J r _

/-- Five requests served one after the other: after a naive miss, a coalesced hit, a cache
clear, a health check and a coalesced miss, `requestCount` is 2, the number of backend calls. -/
theorem serial_counters_witness :
    (serveAll encodingJSON
        [Request.withoutSingleflight calmEnv, Request.withSingleflight calmEnv,
         Request.clearCache calmEnv, Request.health, Request.wait 7,
         Request.withSingleflight calmEnv] (initial emptyRedis 0)).requestCount
      = ((1 + 1 : Nat) : Int) :=
  (serial_counters encodingJSON emptyRedis 0
    [Request.withoutSingleflight calmEnv, Request.withSingleflight calmEnv,
     Request.clearCache calmEnv, Request.health, Request.wait 7,
     Request.withSingleflight calmEnv]).2.1 (by decide)
/-! ## The interleaving keeps its invariant -/

theorem leading_frame {s s' : Shared} {i j : Nat} {t : Thread} {c : Nat}
    (h : Leading s j t c) (hf : Frame i s s') (hij : i ≠ j) :
    Leading s' j t c ∧ (s'.calls c).fetches = (s.calls c).fetches
      ∧ (s'.calls c).recheckHit = (s.calls c).recheckHit := by
  obtain ⟨h1, h2, h3, h4, h5⟩ := h
  obtain ⟨hn, hc⟩ := hf
  obtain ⟨f1, _, _, f4⟩ := hc c h2
  have hne : (s.calls c).leader ≠ i := by rw [h4]; exact fun h => hij h.symm
  obtain ⟨g1, g2, g3⟩ := f4 hne
  exact ⟨⟨h1, by omega, h3, by rw [f1, h4], by rw [g1, h5]⟩, g2, g3⟩

theorem answered_frame {s s' : Shared} {i j : Nat} {t : Thread} {r : Except String Product}
    {shared : Bool} (h : Answered s j t r shared) (hf : Frame i s s') :
    Answered s' j t r shared := by
  obtain ⟨c, h1, h2, h3, h4, h5, h6⟩ := h
  obtain ⟨hn, hc⟩ := hf
  obtain ⟨_, _, f3, _⟩ := hc c h2
  have hsame : s'.calls c = s.calls c := f3 (by rw [h3]; simp)
  exact ⟨c, h1, by omega, by rw [hsame, h3], h4, by rw [hsame]; exact h5, by rw [hsame]; exact h6⟩

theorem threadOK_frame {s s' : Shared} {i j : Nat} {t : Thread}
    (h : ThreadOK s j t) (hf : Frame i s s') (hij : i ≠ j) : ThreadOK s' j t := by
  unfold ThreadOK at h ⊢
  cases hh : t.handler <;> simp only [hh] at h ⊢
  · exact h
  · cases hp : t.pc <;> simp only [hp] at h ⊢
    · exact h
    · exact h
    · exact h
    · obtain ⟨c, hl, h1, h2⟩ := h
      obtain ⟨hl', e1, e2⟩ := leading_frame hl hf hij
      exact ⟨c, hl', by rw [e1, h1], by rw [e2, h2]⟩
    · obtain ⟨c, hl, h1, h2⟩ := h
      obtain ⟨hl', e1, e2⟩ := leading_frame hl hf hij
      exact ⟨c, hl', by rw [e1, h1], by rw [e2, h2]⟩
    · obtain ⟨c, hl, h1, h2⟩ := h
      obtain ⟨hl', e1, e2⟩ := leading_frame hl hf hij
      exact ⟨c, hl', by rw [e1, h1], by rw [e2, h2]⟩
    · obtain ⟨c, hl, h1, h2, h3⟩ := h
      obtain ⟨hl', e1, e2⟩ := leading_frame hl hf hij
      exact ⟨c, hl', by rw [e1, h1], by rw [e2, h2], h3⟩
    · obtain ⟨c, hl, h1, h3⟩ := h
      obtain ⟨hl', e1, e2⟩ := leading_frame hl hf hij
      exact ⟨c, hl', by rw [e1, e2, h1], h3⟩
    · obtain ⟨c, h1, h2, h3, h4⟩ := h
      have := (hf.2 c h2).2.1
      exact ⟨c, h1, by have := hf.1; omega, h3, by omega⟩
    · exact answered_frame h hf
    · rcases h with h | ⟨p, shared, ha, hr⟩
      · exact Or.inl h
      · exact Or.inr ⟨p, shared, answered_frame ha hf, hr⟩
    · rcases h with h | ⟨p, shared, ha, hr⟩
      · exact Or.inl h
      · exact Or.inr ⟨p, shared, answered_frame ha hf, hr⟩
  · exact h
  · exact h
theorem sharedOK_of_eq {s s' : Shared} (h : SharedOK s) (hg : s'.group = s.group)
    (hc : s'.calls = s.calls) (hn : s'.ncalls = s.ncalls) : SharedOK s' := by
  unfold SharedOK at h ⊢
  rw [hg, hc, hn]
  exact h

theorem frame_of_eq {s s' : Shared} (i : Nat) (hc : s'.calls = s.calls)
    (hn : s'.ncalls = s.ncalls) : Frame i s s' := by
  unfold Frame
  rw [hc, hn]
  exact ⟨Nat.le_refl _, fun c _ => ⟨rfl, Nat.le_refl _, fun _ => rfl, fun _ => ⟨rfl, rfl, rfl⟩⟩⟩

theorem stepThread_inv (J : JSONCodec) (env : Env) (i : Nat) (t t' : Thread) (s s' : Shared)
    (hs : SharedOK s) (ht : ThreadOK s i t) (h : stepThread J env i t s = some (t', s')) :
    ThreadOK s' i t' ∧ SharedOK s' ∧ Frame i s s' := by
  obtain ⟨handler, start, pc, call, leads⟩ := t
  cases handler
  · -- the naive handler never touches the calls
    cases pc <;> simp [stepThread, stepRead, ThreadOK] at h ht
    · obtain ⟨rfl, rfl⟩ := h
      exact ⟨by simp [ThreadOK, ht], sharedOK_of_eq hs rfl rfl rfl, frame_of_eq i rfl rfl⟩
    · cases hg : getFromCache J env.getErr s.w <;> simp [hg] at h <;> obtain ⟨rfl, rfl⟩ := h
      · exact ⟨by simp [ThreadOK, ht], sharedOK_of_eq hs rfl rfl rfl, frame_of_eq i rfl rfl⟩
      · exact ⟨by simp [ThreadOK, ht, answerHit]; exact ⟨_, Or.inl rfl⟩, sharedOK_of_eq hs rfl rfl rfl,
          frame_of_eq i rfl rfl⟩
    · subst ht
      obtain ⟨rfl, rfl⟩ := h
      exact ⟨by simp [ThreadOK], sharedOK_of_eq hs rfl rfl rfl, frame_of_eq i rfl rfl⟩
    · obtain ⟨_, rfl, rfl⟩ := h
      exact ⟨by simp [ThreadOK, ht, simulateDBCallEnd], sharedOK_of_eq hs rfl rfl rfl,
        frame_of_eq i rfl rfl⟩
    · obtain ⟨rfl, rfl⟩ := h
      obtain ⟨hc, p, rfl⟩ := ht
      exact ⟨by simp [ThreadOK, hc, afterFetch]; exact ⟨_, Or.inr rfl⟩, sharedOK_of_eq hs rfl rfl rfl,
        frame_of_eq i rfl rfl⟩
    · obtain ⟨rfl, rfl⟩ := h
      exact ⟨by simpa [ThreadOK] using ht, sharedOK_of_eq hs rfl rfl rfl, frame_of_eq i rfl rfl⟩
  · -- the coalescing handler
    cases pc <;> simp only [ThreadOK] at ht <;> simp [stepThread, stepRead] at h
    · -- start
      obtain ⟨rfl, rfl⟩ := h
      exact ⟨by simp [ThreadOK, ht], sharedOK_of_eq hs rfl rfl rfl, frame_of_eq i rfl rfl⟩
    · -- check
      cases hg : getFromCache J env.getErr s.w <;> simp [hg] at h <;> obtain ⟨rfl, rfl⟩ := h
      · exact ⟨by simp [ThreadOK, ht], sharedOK_of_eq hs rfl rfl rfl, frame_of_eq i rfl rfl⟩
      · exact ⟨by simp [ThreadOK, ht, answerHit], sharedOK_of_eq hs rfl rfl rfl, frame_of_eq i rfl rfl⟩
    · -- enterDo
      cases hgr : s.group <;> simp [hgr] at h <;> obtain ⟨rfl, rfl⟩ := h
      · -- no call in flight: become the leader of a new call
        refine ⟨?_, ?_, ?_⟩
        · simp only [ThreadOK]
          refine ⟨s.ncalls, ?_⟩
          simp [Leading, setCall]
        · refine ⟨?_, ?_⟩
          · intro c hc
            simp only [Option.some.injEq] at hc
            subst hc
            simp [setCall]
          · intro c
            by_cases hcn : c = s.ncalls
            · simp [setCall, hcn]
            · simpa [setCall, hcn] using hs.2 c
        · refine ⟨by simp, ?_⟩
          intro c hc
          have hcn : c ≠ s.ncalls := by omega
          simp [setCall, hcn]
      · -- a call is in flight: join it
        rename_i c
        obtain ⟨hlt, hnone⟩ := hs.1 c hgr
        refine ⟨?_, ?_, ?_⟩
        · simp only [ThreadOK]
          refine ⟨c, ?_⟩
          simp [setCall, hlt]
        · refine ⟨?_, ?_⟩
          · intro c2 hc2
            simp only [Option.some.injEq] at hc2
            subst hc2
            simp [setCall, hlt, hnone]
          · intro c2
            by_cases hcn : c2 = c
            · subst hcn
              simpa [setCall] using hs.2 c2
            · simpa [setCall, hcn] using hs.2 c2
        · refine ⟨Nat.le_refl _, ?_⟩
          intro c2 _
          by_cases hcn : c2 = c
          · subst hcn
            simp [setCall, hnone]
          · simp [setCall, hcn]
    · -- recheck
      obtain ⟨c, ⟨hcall, hlt, hleads, hlead, hres⟩, hf, hr⟩ := ht
      simp only at hcall hleads
      subst hcall
      cases hg : getFromCache J env.recheckErr s.w <;> simp [hg] at h <;> obtain ⟨rfl, rfl⟩ := h
      · exact ⟨by simp only [ThreadOK]; exact ⟨c, ⟨rfl, hlt, hleads, hlead, hres⟩, hf, hr⟩,
          sharedOK_of_eq hs rfl rfl rfl, frame_of_eq i rfl rfl⟩
      · refine ⟨?_, ?_, ?_⟩
        · simp only [ThreadOK]
          refine ⟨c, ?_⟩
          simp [Leading, setCall, hlt, hleads, hlead, hres, hf]
        · refine ⟨?_, ?_⟩
          · intro c2 hc2
            have := hs.1 c2 hc2
            by_cases hcn : c2 = c
            · subst hcn
              simp [setCall, hlt, hres]
            · simpa [setCall, hcn] using this
          · intro c2
            by_cases hcn : c2 = c
            · subst hcn
              simp [setCall, hf, hres]
            · simpa [setCall, hcn] using hs.2 c2
        · refine ⟨Nat.le_refl _, ?_⟩
          intro c2 _
          by_cases hcn : c2 = c
          · subst hcn
            simp [setCall, hres, hlead]
          · simp [setCall, hcn]
    · -- dbBegin
      obtain ⟨c, ⟨hcall, hlt, hleads, hlead, hres⟩, hf, hr⟩ := ht
      simp only at hcall hleads
      subst hcall
      obtain ⟨rfl, rfl⟩ := h
      refine ⟨?_, ?_, ?_⟩
      · simp only [ThreadOK]
        refine ⟨c, ?_⟩
        simp [Leading, setCall, hlt, hleads, hlead, hres, hf, hr]
      · refine ⟨?_, ?_⟩
        · intro c2 hc2
          have := hs.1 c2 hc2
          by_cases hcn : c2 = c
          · subst hcn
            simp [setCall, hlt, hres]
          · simpa [setCall, hcn] using this
        · intro c2
          by_cases hcn : c2 = c
          · subst hcn
            simp [setCall, hf, hres]
          · simpa [setCall, hcn] using hs.2 c2
      · refine ⟨Nat.le_refl _, ?_⟩
        intro c2 _
        by_cases hcn : c2 = c
        · subst hcn
          simp [setCall, hres, hlead]
        · simp [setCall, hcn]
    · -- dbSleep
      obtain ⟨c, ⟨hcall, hlt, hleads, hlead, hres⟩, hf, hr⟩ := ht
      simp only at hcall hleads
      obtain ⟨_, rfl, rfl⟩ := h
      exact ⟨by simp only [ThreadOK]; exact ⟨c, ⟨hcall, hlt, hleads, hlead, hres⟩, hf, hr, _, rfl⟩,
        sharedOK_of_eq hs rfl rfl rfl, frame_of_eq i rfl rfl⟩
    · -- fetched
      obtain ⟨c, ⟨hcall, hlt, hleads, hlead, hres⟩, hf, hr, p, rfl⟩ := ht
      simp only at hcall hleads
      obtain ⟨rfl, rfl⟩ := h
      exact ⟨by
          simp only [ThreadOK, closureFetched]
          exact ⟨c, ⟨hcall, hlt, hleads, hlead, hres⟩, by simp [hf, hr], _, rfl⟩,
        sharedOK_of_eq hs rfl rfl rfl, frame_of_eq i rfl rfl⟩
    · -- finish
      obtain ⟨c, ⟨hcall, hlt, hleads, hlead, hres⟩, hf, p, rfl⟩ := ht
      simp only at hcall hleads
      subst hcall
      simp at h
      obtain ⟨rfl, rfl⟩ := h
      refine ⟨?_, ?_, ?_⟩
      · simp only [ThreadOK]
        refine ⟨c, ?_⟩
        simp [setCall, hlt, hleads, hlead]
      · refine ⟨?_, ?_⟩
        · intro c2 hc2
          by_cases hcn : c2 = c
          · subst hcn
            simp at hc2
          · have hg2 : s.group = some c2 := by
              by_cases hgc : s.group = some c
              · simp [hgc] at hc2
              · simpa [hgc] using hc2
            simpa [setCall, hcn] using hs.1 c2 hg2
        · intro c2
          by_cases hcn : c2 = c
          · subst hcn
            have := (hs.2 c2).1
            simp [setCall, hf, this]
          · simpa [setCall, hcn] using hs.2 c2
      · refine ⟨Nat.le_refl _, ?_⟩
        intro c2 _
        by_cases hcn : c2 = c
        · subst hcn
          simp [setCall, hres, hlead]
        · simp [setCall, hcn]
    · -- wait
      obtain ⟨c, hcall, hlt, hleads, hdups⟩ := ht
      subst hcall
      simp at h
      cases hres : (s.calls c).result <;> simp [hres] at h
      obtain ⟨rfl, rfl⟩ := h
      rename_i r
      exact ⟨by
          simp only [ThreadOK]
          exact ⟨c, rfl, hlt, hres, (hs.2 c).2.2 r hres, by simp [hleads], by simp [hdups]⟩,
        hs, frame_of_eq i rfl rfl⟩
    · -- respond
      obtain ⟨rfl, rfl⟩ := h
      obtain ⟨c, hcall, hlt, hres, ⟨p, rfl⟩, hl, hnl⟩ := ht
      refine ⟨?_, sharedOK_of_eq hs rfl rfl rfl, frame_of_eq i rfl rfl⟩
      simp only [ThreadOK]
      exact Or.inr ⟨p, _, ⟨c, hcall, hlt, hres, ⟨p, rfl⟩, hl, hnl⟩, rfl⟩
    · -- deferred
      obtain ⟨rfl, rfl⟩ := h
      refine ⟨?_, sharedOK_of_eq hs rfl rfl rfl, frame_of_eq i rfl rfl⟩
      simp only [ThreadOK]
      rcases ht with ht | ⟨p, shared, ⟨c, hcall, hlt, hres, hp, hl, hnl⟩, hr⟩
      · exact Or.inl ht
      · exact Or.inr ⟨p, shared, ⟨c, hcall, hlt, hres, hp, hl, hnl⟩, hr⟩
  · -- clearCache
    cases pc <;> simp [stepThread] at h
    obtain ⟨rfl, rfl⟩ := h
    exact ⟨by simpa [ThreadOK] using ht, sharedOK_of_eq hs rfl rfl rfl, frame_of_eq i rfl rfl⟩
  · -- health
    cases pc <;> simp [stepThread] at h
    obtain ⟨rfl, rfl⟩ := h
    exact ⟨by simpa [ThreadOK] using ht, sharedOK_of_eq hs rfl rfl rfl, frame_of_eq i rfl rfl⟩
theorem threadOK_of_eq {s s' : Shared} {j : Nat} {t : Thread} (h : ThreadOK s j t)
    (hc : s'.calls = s.calls) (hn : s'.ncalls = s.ncalls) : ThreadOK s' j t :=
  threadOK_frame h (frame_of_eq (j + 1) hc hn) (by omega)

theorem boot_inv (w : World) : Inv (boot w) := by
  refine ⟨⟨?_, ?_⟩, ?_⟩
  · intro c hc
    simp [boot] at hc
  · intro c
    simp [boot, noCall]
  · intro i t hit
    simp [boot] at hit

theorem exec_inv (J : JSONCodec) (s s' : State) (e : Event) (hs : Inv s)
    (h : exec J s e = some s') : Inv s' := by
  obtain ⟨hsh, hth⟩ := hs
  cases e with
  | spawn hd =>
    simp only [exec, Option.some.injEq] at h
    subst h
    refine ⟨hsh, ?_⟩
    intro i t hit
    simp only [List.getElem?_append] at hit
    split at hit
    · exact hth i t hit
    · cases hidx : i - s.threads.length with
      | zero =>
        simp [hidx] at hit
        subst hit
        cases hd <;> simp [ThreadOK]
      | succ k => simp [hidx] at hit
  | tick d =>
    simp only [exec, Option.some.injEq] at h
    subst h
    exact ⟨sharedOK_of_eq hsh rfl rfl rfl, fun i t hit => threadOK_of_eq (hth i t hit) rfl rfl⟩
  | step i env =>
    simp only [exec] at h
    cases hti : s.threads[i]? with
    | none => simp [hti] at h
    | some t =>
      simp only [hti] at h
      cases hst : stepThread J env i t s.sh with
      | none => simp [hst] at h
      | some out =>
        obtain ⟨t', sh'⟩ := out
        simp only [hst, Option.some.injEq] at h
        subst h
        obtain ⟨h1, h2, h3⟩ := stepThread_inv J env i t t' s.sh sh' hsh (hth i t hti) hst
        refine ⟨h2, ?_⟩
        intro j tj hj
        by_cases hij : i = j
        · subst hij
          have hlen : i < s.threads.length := by
            by_contra hcon
            rw [List.getElem?_eq_none (by omega)] at hti
            exact absurd hti (by simp)
          simp only [List.getElem?_set_self hlen, Option.some.injEq] at hj
          subst hj
          exact h1
        · simp only [List.getElem?_set_ne hij] at hj
          exact threadOK_frame (hth j tj hj) h3 hij

theorem run_inv (J : JSONCodec) (es : List Event) (s s' : State) (hs : Inv s)
    (h : run J s es = some s') : Inv s' := by
  induction es generalizing s with
  | nil =>
    simp only [run, Option.some.injEq] at h
    subst h
    exact hs
  | cons e es ih =>
    simp only [run] at h
    cases he : exec J s e with
    | none => simp [he] at h
    | some s1 =>
      simp only [he] at h
      exact ih s1 (exec_inv J s s1 e hs he) h

theorem reachable_inv (J : JSONCodec) (w0 : World) (es : List Event) (s : State)
    (h : run J (boot w0) es = some s) : Inv s :=
  run_inv J es (boot w0) s (boot_inv w0) h
/-! ## Counting shared answers and backend calls -/

theorem get_shared_hit (x : String) (p : Product) :
    (jsonResponse x [] p).get "X-Singleflight-Shared" = none := by
  simp [jsonResponse, Response.get, List.find?]

theorem get_shared_error (msg : String) (code : Nat) :
    (httpError msg code).get "X-Singleflight-Shared" = none := by
  simp [httpError, Response.get, List.find?]

theorem setCache_frame (J : JSONCodec) (f : Option String) (p : Product) (w : World) :
    (setCache J f p w).singleflightShared = w.singleflightShared
    ∧ (setCache J f p w).dbCalls = w.dbCalls := by
  unfold setCache
  cases J.marshal p <;> simp

theorem afterFetch_frame (J : JSONCodec) (f : Option String) (r : Except String Product)
    (w : World) :
    (afterFetch J f r w).2.singleflightShared = w.singleflightShared
    ∧ (afterFetch J f r w).2.dbCalls = w.dbCalls
    ∧ (afterFetch J f r w).1.get "X-Singleflight-Shared" = none := by
  cases r with
  | error e => simp [afterFetch, get_shared_error]
  | ok p => simp [afterFetch, get_shared_hit, setCache_frame]

theorem closureFetched_frame (J : JSONCodec) (f : Option String) (r : Except String Product)
    (w : World) :
    (closureFetched J f r w).2.singleflightShared = w.singleflightShared
    ∧ (closureFetched J f r w).2.dbCalls = w.dbCalls := by
  cases r with
  | error e => simp [closureFetched]
  | ok p => simp [closureFetched, setCache_frame]

theorem afterDo_shared (r : Except String Product) (shared : Bool) (w : World) :
    (afterDo r shared w).2.singleflightShared
      = w.singleflightShared
        + (if (afterDo r shared w).1.get "X-Singleflight-Shared" = some "true" then 1 else 0)
    ∧ (afterDo r shared w).2.dbCalls = w.dbCalls := by
  cases r with
  | error e => simp [afterDo, get_shared_error]
  | ok p => cases shared <;> simp [afterDo, jsonResponse, Response.get, List.find?]

theorem stepRead_shared (J : JSONCodec) (env : Env) (i : Nat) (t t' : Thread) (s s' : Shared)
    (h : stepRead J env i t s = some (t', s')) :
    s'.w.singleflightShared + (if flagged t = true then 1 else 0)
      = s.w.singleflightShared + (if flagged t' = true then 1 else 0) := by
  obtain ⟨handler, start, pc, call, leads⟩ := t
  cases pc <;> simp only [stepRead] at h
  · simp at h; obtain ⟨rfl, rfl⟩ := h; simp [flagged, enter]
  · split at h <;> simp at h <;> obtain ⟨rfl, rfl⟩ := h
    · simp [flagged, answerHit, get_shared_hit]
    · by_cases hh : handler = Handler.withSingleflight <;> simp [flagged, countMiss, hh]
  · split at h <;> simp at h <;> obtain ⟨rfl, rfl⟩ := h <;> simp [flagged]
  · split at h <;> simp at h <;> obtain ⟨rfl, rfl⟩ := h
    · cases call <;> simp [flagged]
    · simp [flagged]
  · simp at h; obtain ⟨rfl, rfl⟩ := h; simp [flagged, simulateDBCallBegin]
  · split at h <;> simp at h
    obtain ⟨rfl, rfl⟩ := h
    simp [flagged, simulateDBCallEnd]
  · split at h <;> simp at h <;> obtain ⟨rfl, rfl⟩ := h
    · simp [flagged, closureFetched_frame]
    · simp [flagged, afterFetch_frame]
  · split at h <;> simp at h
    obtain ⟨rfl, rfl⟩ := h
    simp [flagged]
  · cases call with
    | none => simp at h
    | some c =>
      simp only at h
      cases hres : (s.calls c).result with
      | none => simp [hres] at h
      | some r =>
        simp [hres] at h
        obtain ⟨rfl, rfl⟩ := h
        simp [flagged]
  · simp at h; obtain ⟨rfl, rfl⟩ := h
    simp [flagged, (afterDo_shared _ _ _).1]
  · simp at h; obtain ⟨rfl, rfl⟩ := h
    simp [flagged, deferred]
  · simp at h

theorem stepThread_shared (J : JSONCodec) (env : Env) (i : Nat) (t t' : Thread) (s s' : Shared)
    (h : stepThread J env i t s = some (t', s')) :
    s'.w.singleflightShared + (if flagged t = true then 1 else 0)
      = s.w.singleflightShared + (if flagged t' = true then 1 else 0) := by
  cases hh : t.handler
  · exact stepRead_shared J env i t t' s s' (by simpa [stepThread, hh] using h)
  · exact stepRead_shared J env i t t' s s' (by simpa [stepThread, hh] using h)
  · obtain ⟨handler, start, pc, call, leads⟩ := t
    simp only at hh
    subst hh
    cases pc <;> simp [stepThread] at h
    obtain ⟨rfl, rfl⟩ := h
    cases hd : env.delErr <;>
      simp [flagged, clearCacheHandler, redisDel, hd, Response.get, List.find?, get_shared_error]
  · obtain ⟨handler, start, pc, call, leads⟩ := t
    simp only at hh
    subst hh
    cases pc <;> simp [stepThread] at h
    obtain ⟨rfl, rfl⟩ := h
    simp [flagged, healthHandler, Response.get, List.find?]
theorem waveFetches_congr (calls calls' : Nat → Call) (n : Nat)
    (h : ∀ c, c < n → (calls' c).fetches = (calls c).fetches) :
    waveFetches calls' n = waveFetches calls n := by
  induction n with
  | zero => rfl
  | succ k ih =>
    simp only [waveFetches]
    rw [ih (fun c hc => h c (by omega)), h k (by omega)]

theorem waveFetches_setCall (calls : Nat → Call) (c : Nat) (v : Call) (n : Nat)
    (hv : v.fetches = (calls c).fetches) :
    waveFetches (setCall calls c v) n = waveFetches calls n := by
  apply waveFetches_congr
  intro k _
  by_cases hk : k = c
  · subst hk; simp [setCall, hv]
  · simp [setCall, hk]

theorem waveFetches_bump (calls : Nat → Call) (c : Nat) (v : Call) (n : Nat) (hc : c < n)
    (hv : v.fetches = (calls c).fetches + 1) :
    waveFetches (setCall calls c v) n = waveFetches calls n + 1 := by
  induction n with
  | zero => omega
  | succ k ih =>
    simp only [waveFetches]
    by_cases hk : c = k
    · subst hk
      rw [waveFetches_congr calls (setCall calls c v) c
        (fun j hj => by have : j ≠ c := by omega
                        simp [setCall, this])]
      simp [setCall, hv]
      omega
    · have hne : k ≠ c := fun h => hk h.symm
      rw [ih (by omega)]
      simp [setCall, hne]
      omega

theorem stepThread_fetches (J : JSONCodec) (env : Env) (i : Nat) (t t' : Thread) (s s' : Shared)
    (ht : ThreadOK s i t) (h : stepThread J env i t s = some (t', s')) :
    s'.w.dbCalls "with_singleflight" + waveFetches s.calls s.ncalls
      = s.w.dbCalls "with_singleflight" + waveFetches s'.calls s'.ncalls := by
  obtain ⟨handler, start, pc, call, leads⟩ := t
  cases handler
  · cases pc <;> simp [stepThread, stepRead, ThreadOK] at h ht
    · obtain ⟨rfl, rfl⟩ := h
      simp [enter]
    · cases hg : getFromCache J env.getErr s.w <;> simp [hg] at h <;> obtain ⟨rfl, rfl⟩ := h
      · simp [countMiss]
      · simp [answerHit]
    · subst ht
      obtain ⟨rfl, rfl⟩ := h
      simp [simulateDBCallBegin, incAt, Handler.endpoint]
    · obtain ⟨_, rfl, rfl⟩ := h
      simp [simulateDBCallEnd]
    · obtain ⟨rfl, rfl⟩ := h
      simp [afterFetch_frame]
    · obtain ⟨rfl, rfl⟩ := h
      simp [deferred]
  · cases pc <;> simp only [ThreadOK] at ht <;> simp [stepThread, stepRead] at h
    · obtain ⟨rfl, rfl⟩ := h
      simp [enter]
    · cases hg : getFromCache J env.getErr s.w <;> simp [hg] at h <;> obtain ⟨rfl, rfl⟩ := h
      · simp [countMiss]
      · simp [answerHit]
    · cases hgr : s.group <;> simp [hgr] at h <;> obtain ⟨rfl, rfl⟩ := h
      · simp only [waveFetches]
        rw [waveFetches_congr s.calls (setCall s.calls s.ncalls _) s.ncalls
          (fun c hc => by have : c ≠ s.ncalls := by omega
                          simp [setCall, this])]
        simp [setCall]
      · simp [waveFetches_setCall]
    · obtain ⟨c, ⟨hcall, hlt, hleads, hlead, hres⟩, hf, hr⟩ := ht
      simp only at hcall hleads
      subst hcall
      cases hg : getFromCache J env.recheckErr s.w <;> simp [hg] at h <;> obtain ⟨rfl, rfl⟩ := h
      · rfl
      · simp [waveFetches_setCall]
    · obtain ⟨c, ⟨hcall, hlt, hleads, hlead, hres⟩, hf, hr⟩ := ht
      simp only at hcall hleads
      subst hcall
      obtain ⟨rfl, rfl⟩ := h
      simp only []
      rw [waveFetches_bump s.calls c _ s.ncalls hlt rfl]
      simp [simulateDBCallBegin, incAt, Handler.endpoint]
      omega
    · obtain ⟨_, rfl, rfl⟩ := h
      simp [simulateDBCallEnd]
    · obtain ⟨rfl, rfl⟩ := h
      simp [closureFetched_frame]
    · obtain ⟨c, ⟨hcall, hlt, hleads, hlead, hres⟩, hf, p, rfl⟩ := ht
      simp only at hcall hleads
      subst hcall
      simp at h
      obtain ⟨rfl, rfl⟩ := h
      simp [waveFetches_setCall]
    · obtain ⟨c, hcall, hlt, hleads, hdups⟩ := ht
      subst hcall
      simp at h
      cases hres : (s.calls c).result <;> simp [hres] at h
      obtain ⟨rfl, rfl⟩ := h
      rfl
    · obtain ⟨rfl, rfl⟩ := h
      simp [(afterDo_shared _ _ _).2]
    · obtain ⟨rfl, rfl⟩ := h
      simp [deferred]
  · cases pc <;> simp [stepThread] at h
    obtain ⟨rfl, rfl⟩ := h
    cases hd : env.delErr <;> simp [clearCacheHandler, redisDel, hd]
  · cases pc <;> simp [stepThread] at h
    obtain ⟨rfl, rfl⟩ := h
    simp [healthHandler]

/-- What the counters of a reachable state add up to, relative to the world the server
started over. -/
theorem run_counts (J : JSONCodec) (w0 : World) (es : List Event) (s s' : State) (hs : Inv s)
    (h1 : s.sh.w.singleflightShared = w0.singleflightShared + s.threads.countP flagged)
    (h2 : s.sh.w.dbCalls "with_singleflight"
      = w0.dbCalls "with_singleflight" + waveFetches s.sh.calls s.sh.ncalls)
    (h : run J s es = some s') :
    s'.sh.w.singleflightShared = w0.singleflightShared + s'.threads.countP flagged
    ∧ s'.sh.w.dbCalls "with_singleflight"
      = w0.dbCalls "with_singleflight" + waveFetches s'.sh.calls s'.sh.ncalls := by
  induction es generalizing s with
  | nil =>
    simp only [run, Option.some.injEq] at h
    subst h
    exact ⟨h1, h2⟩
  | cons e es ih =>
    simp only [run] at h
    cases he : exec J s e with
    | none => simp [he] at h
    | some s1 =>
      simp only [he] at h
      refine ih s1 (exec_inv J s s1 e hs he) ?_ ?_ h
      · cases e with
        | spawn hd =>
          simp only [exec, Option.some.injEq] at he
          subst he
          simp [List.countP_append, flagged, h1]
        | tick d =>
          simp only [exec, Option.some.injEq] at he
          subst he
          simpa [advance] using h1
        | step i env =>
          simp only [exec] at he
          cases hti : s.threads[i]? with
          | none => simp [hti] at he
          | some t =>
            simp only [hti] at he
            cases hst : stepThread J env i t s.sh with
            | none => simp [hst] at he
            | some out =>
              obtain ⟨t', sh'⟩ := out
              simp only [hst, Option.some.injEq] at he
              subst he
              have hlen : i < s.threads.length := by
                by_contra hcon
                rw [List.getElem?_eq_none (by omega)] at hti
                exact absurd hti (by simp)
              have hget : s.threads[i] = t := by
                rw [List.getElem?_eq_getElem hlen] at hti
                exact Option.some.inj hti
              have hstep := stepThread_shared J env i t t' s.sh sh' hst
              have hpos : flagged t = true → 0 < s.threads.countP flagged := by
                intro hf
                rw [List.countP_pos_iff]
                exact ⟨t, by rw [← hget]; exact List.getElem_mem _, hf⟩
              simp only [List.countP_set flagged s.threads i t' hlen, hget]
              cases hft : flagged t <;> cases hft' : flagged t' <;>
                simp only [hft, hft', Bool.false_eq_true, if_false, if_true, true_implies]
                  at hstep hpos ⊢ <;> omega
      · cases e with
        | spawn hd =>
          simp only [exec, Option.some.injEq] at he
          subst he
          exact h2
        | tick d =>
          simp only [exec, Option.some.injEq] at he
          subst he
          simpa [advance] using h2
        | step i env =>
          simp only [exec] at he
          cases hti : s.threads[i]? with
          | none => simp [hti] at he
          | some t =>
            simp only [hti] at he
            cases hst : stepThread J env i t s.sh with
            | none => simp [hst] at he
            | some out =>
              obtain ⟨t', sh'⟩ := out
              simp only [hst, Option.some.injEq] at he
              subst he
              have := stepThread_fetches J env i t t' s.sh sh' (hs.2 i t hti) hst
              simp only []
              omega

theorem reachable_counts (J : JSONCodec) (w0 : World) (es : List Event) (s : State)
    (h : run J (boot w0) es = some s) :
    s.sh.w.singleflightShared = w0.singleflightShared + s.threads.countP flagged
    ∧ s.sh.w.dbCalls "with_singleflight"
      = w0.dbCalls "with_singleflight" + waveFetches s.sh.calls s.sh.ncalls :=
  run_counts J w0 es (boot w0) s (boot_inv w0) (by simp [boot]) (by simp [boot, waveFetches]) h
/-! ## Coalescing waves -/

theorem doResponse_shared (p : Product) :
    doResponse p true = jsonResponse "SINGLEFLIGHT-SHARED" [("X-Singleflight-Shared", "true")] p := by
  simp [doResponse]

theorem doResponse_alone (p : Product) :
    doResponse p false = jsonResponse "MISS" [("X-Singleflight-Shared", "false")] p := by
  simp [doResponse]

/-- What a request that has returned from `sfGroup.Do` answered, in terms of its call. -/
theorem done_in_wave (s : State) (hs : Inv s) (i : Nat) (t : Thread) (c : Nat) (resp : Response)
    (hit : s.threads[i]? = some t) (hcall : t.call = some c) (hpc : t.pc = PC.done resp) :
    ∃ p, (s.sh.calls c).result = some (Except.ok p)
      ∧ resp = doResponse p (if t.leads then decide (0 < (s.sh.calls c).dups) else true)
      ∧ (t.leads = true → (s.sh.calls c).leader = i)
      ∧ (t.leads = false → 0 < (s.sh.calls c).dups) := by
  have hok := hs.2 i t hit
  unfold ThreadOK at hok
  cases hh : t.handler <;> simp only [hh, hpc] at hok
  · rw [hcall] at hok
    simp at hok
  · rcases hok with ⟨hnone, _⟩ | ⟨p, shared, ⟨c', hc', _, hres, _, hl, hnl⟩, hresp⟩
    · rw [hcall] at hnone
      simp at hnone
    · rw [hcall] at hc'
      simp only [Option.some.injEq] at hc'
      subst hc'
      refine ⟨p, hres, ?_, fun h => (hl h).1, fun h => (hnl h).2⟩
      cases hleads : t.leads
      · simp [hresp, (hnl hleads).1]
      · simp [hresp, (hl hleads).2]
  · rw [hcall] at hok
    simp at hok
  · rw [hcall] at hok
    simp at hok

/-- C1 as stated fails for a wave whose leader finds the cache filled on its re-check:
in `lateJoiner` request 1 observes a miss (`cacheMisses` is 2) and then leads call 1 alone
(no caller joined), yet that wave never invokes `simulateDBCall` (the only backend call is
the one of call 0) and request 1 is answered from the cache. -/
theorem lateJoiner_wave_never_fetches :
    (run encodingJSON (boot coldWorld) lateJoiner).map
      (fun s => (s.threads.map (fun t => (t.call, t.leads)),
        s.sh.w.cacheMisses "with_singleflight", (s.sh.calls 1).dups, (s.sh.calls 1).fetches,
        s.sh.w.dbCalls "with_singleflight", s.response 1))
    = some ([(some 0, true), (some 1, true)], 2, 0, 0, 1,
        some (jsonResponse "MISS" [("X-Singleflight-Shared", "false")]
          (newProduct calmEnv.stamp 1))) := by
  rfl

/-- C1, amended. In every state the server can reach, for every coalescing wave (one call
`c` of `sfGroup.Do`: its leader and the callers that joined before it completed):
`simulateDBCall` is invoked at most once by the wave, and once the wave is complete exactly
once if the leader's cache re-check missed and not at all if it hit; all requests of the wave
that have answered carry the same product, hence the same `RequestID`; and the backend calls
counted for the coalescing endpoint are exactly those of the waves. -/
theorem wave_fetches_at_most_once (J : JSONCodec) (w0 : World) (es : List Event) (s : State)
    (h : run J (boot w0) es = some s) (c : Nat) :
    (s.sh.calls c).fetches ≤ 1
    ∧ ((s.sh.calls c).result ≠ none →
        (s.sh.calls c).fetches = if (s.sh.calls c).recheckHit then 0 else 1)
    ∧ (∀ (i j : Nat) (ti tj : Thread) (ri rj : Response),
        s.threads[i]? = some ti → s.threads[j]? = some tj →
        ti.call = some c → tj.call = some c → ti.pc = PC.done ri → tj.pc = PC.done rj →
        ∃ p, (s.sh.calls c).result = some (Except.ok p)
          ∧ ri.status = 200 ∧ ri.body = Body.json p
          ∧ rj.status = 200 ∧ rj.body = Body.json p)
    ∧ s.sh.w.dbCalls "with_singleflight"
        = w0.dbCalls "with_singleflight" + waveFetches s.sh.calls s.sh.ncalls := by
  have hinv := reachable_inv J w0 es s h
  obtain ⟨hle, hdone, _⟩ := hinv.1.2 c
  refine ⟨hle, ?_, ?_, (reachable_counts J w0 es s h).2⟩
  · intro hres
    have := hdone hres
    cases hr : (s.sh.calls c).recheckHit <;> simp [hr] at this ⊢ <;> omega
  · intro i j ti tj ri rj hi hj hci hcj hpi hpj
    obtain ⟨p, hres, hri, _, _⟩ := done_in_wave s hinv i ti c ri hi hci hpi
    obtain ⟨q, hres', hrj, _, _⟩ := done_in_wave s hinv j tj c rj hj hcj hpj
    rw [hres] at hres'
    simp only [Option.some.injEq, Except.ok.injEq] at hres'
    subst hres'
    refine ⟨p, hres, ?_, ?_, ?_, ?_⟩ <;> simp [hri, hrj, doResponse, jsonResponse]

/-- C1 at a concrete input: after `tenAtOnce` the one wave has fetched once and requests 0
and 9 carry the same product. -/
theorem wave_fetches_at_most_once_witness :
    ((endOf tenAtOnce).sh.calls 0).fetches ≤ 1
    ∧ ∃ p, ((endOf tenAtOnce).sh.calls 0).result = some (Except.ok p)
        ∧ (jsonResponse "SINGLEFLIGHT-SHARED" [("X-Singleflight-Shared", "true")]
            (newProduct calmEnv.stamp 1)).status = 200
        ∧ (jsonResponse "SINGLEFLIGHT-SHARED" [("X-Singleflight-Shared", "true")]
            (newProduct calmEnv.stamp 1)).body = Body.json p
        ∧ (jsonResponse "SINGLEFLIGHT-SHARED" [("X-Singleflight-Shared", "true")]
            (newProduct calmEnv.stamp 1)).status = 200
        ∧ (jsonResponse "SINGLEFLIGHT-SHARED" [("X-Singleflight-Shared", "true")]
            (newProduct calmEnv.stamp 1)).body = Body.json p :=
  ⟨(wave_fetches_at_most_once encodingJSON coldWorld tenAtOnce (endOf tenAtOnce) rfl 0).1,
   (wave_fetches_at_most_once encodingJSON coldWorld tenAtOnce (endOf tenAtOnce) rfl 0).2.2.1
     0 9
     { handler := Handler.withSingleflight, start := 0, call := some 0, leads := true,
       pc := PC.done (jsonResponse "SINGLEFLIGHT-SHARED" [("X-Singleflight-Shared", "true")]
         (newProduct calmEnv.stamp 1)) }
     { handler := Handler.withSingleflight, start := 0, call := some 0, leads := false,
       pc := PC.done (jsonResponse "SINGLEFLIGHT-SHARED" [("X-Singleflight-Shared", "true")]
         (newProduct calmEnv.stamp 1)) }
     _ _ rfl rfl rfl rfl rfl rfl⟩
theorem answered_done (t : Thread) (h : t.answered = true) : ∃ resp, t.pc = PC.done resp := by
  unfold Thread.answered at h
  cases hp : t.pc <;> simp [hp] at h
  exact ⟨_, rfl⟩

/-- C2 as stated fails: when ten requests coalesce into one wave over an empty cache
(`tenAtOnce`), the leader (request 0, the one whose closure ran) is flagged as shared too, its
`X-Cache` is `SINGLEFLIGHT-SHARED` and not `MISS`, all ten responses carry the shared marker,
and `singleflightShared` grows by 10, not 9, for one backend call. -/
theorem tenAtOnce_flags_all_ten :
    (run encodingJSON (boot coldWorld) tenAtOnce).map
      (fun s => (s.threads.map (fun t => (t.leads, flagged t)),
        (s.response 0).bind (fun r => r.get "X-Cache"), s.sh.w.singleflightShared,
        s.sh.w.dbCalls "with_singleflight"))
    = some ([(true, true), (false, true), (false, true), (false, true), (false, true),
        (false, true), (false, true), (false, true), (false, true), (false, true)],
        some "SINGLEFLIGHT-SHARED", 10, 1) := by
  rfl

/-- C2, amended. `sfGroup.Do` reports `shared = c.dups > 0` to the caller whose closure ran,
so a leader is answered `X-Cache: MISS` with `shared=false` only when no caller joined its
call; every caller that joined is flagged as shared.  Hence when the requests received (two
or more, ten in the scenario) were coalesced into one wave and have all answered, every one
of them, the leader included, carries the shared marker with the same product, and
`singleflightShared` has grown by exactly their number (10 for ten requests). -/
theorem wave_flags_every_member (J : JSONCodec) (w0 : World) (es : List Event) (s : State)
    (h : run J (boot w0) es = some s) (c : Nat) :
    (∀ (i : Nat) (t : Thread) (resp : Response), s.threads[i]? = some t → t.call = some c →
      t.pc = PC.done resp →
      ∃ p, resp = (if t.leads = true ∧ (s.sh.calls c).dups = 0
        then jsonResponse "MISS" [("X-Singleflight-Shared", "false")] p
        else jsonResponse "SINGLEFLIGHT-SHARED" [("X-Singleflight-Shared", "true")] p))
    ∧ (∀ n, s.threads.length = n → 2 ≤ n →
      (∀ t ∈ s.threads, t.call = some c ∧ t.answered = true) →
      (∃ p, ∀ t ∈ s.threads, t.pc = PC.done
        (jsonResponse "SINGLEFLIGHT-SHARED" [("X-Singleflight-Shared", "true")] p))
      ∧ s.sh.w.singleflightShared = w0.singleflightShared + n) := by
  have hinv := reachable_inv J w0 es s h
  refine ⟨?_, ?_⟩
  · intro i t resp hit hcall hpc
    obtain ⟨p, _, hresp, _, hnl⟩ := done_in_wave s hinv i t c resp hit hcall hpc
    refine ⟨p, ?_⟩
    cases hleads : t.leads
    · simp [hresp, hleads, doResponse]
    · by_cases hd : (s.sh.calls c).dups = 0
      · simp [hresp, hleads, hd, doResponse]
      · have : 0 < (s.sh.calls c).dups := by omega
        simp [hresp, hleads, hd, this, doResponse]
  · intro n hn h2 hall
    have h0 : 0 < s.threads.length := by omega
    have h1 : 1 < s.threads.length := by omega
    have hg0 : s.threads[0]? = some s.threads[0] := List.getElem?_eq_getElem h0
    have hg1 : s.threads[1]? = some s.threads[1] := List.getElem?_eq_getElem h1
    obtain ⟨hc0, ha0⟩ := hall _ (List.getElem_mem h0)
    obtain ⟨hc1, ha1⟩ := hall _ (List.getElem_mem h1)
    obtain ⟨r0, hp0⟩ := answered_done _ ha0
    obtain ⟨r1, hp1⟩ := answered_done _ ha1
    obtain ⟨p, hres, _, hl0, hnl0⟩ := done_in_wave s hinv 0 _ c r0 hg0 hc0 hp0
    obtain ⟨_, _, _, hl1, hnl1⟩ := done_in_wave s hinv 1 _ c r1 hg1 hc1 hp1
    have hdups : 0 < (s.sh.calls c).dups := by
      cases hb0 : (s.threads[0]).leads
      · exact hnl0 hb0
      · cases hb1 : (s.threads[1]).leads
        · exact hnl1 hb1
        · have e0 := hl0 hb0
          have e1 := hl1 hb1
          omega
    have hevery : ∀ t ∈ s.threads, t.pc = PC.done
        (jsonResponse "SINGLEFLIGHT-SHARED" [("X-Singleflight-Shared", "true")] p) := by
      intro t ht
      obtain ⟨hct, hat⟩ := hall t ht
      obtain ⟨rt, hpt⟩ := answered_done t hat
      obtain ⟨i, hi, hget⟩ := List.getElem_of_mem ht
      have hgi : s.threads[i]? = some t := by rw [List.getElem?_eq_getElem hi, hget]
      obtain ⟨q, hres', hresp, _, _⟩ := done_in_wave s hinv i t c rt hgi hct hpt
      rw [hres] at hres'
      simp only [Option.some.injEq, Except.ok.injEq] at hres'
      subst hres'
      rw [hpt, hresp]
      cases t.leads <;> simp [hdups, doResponse]
    refine ⟨⟨p, hevery⟩, ?_⟩
    rw [(reachable_counts J w0 es s h).1]
    have hcount : s.threads.countP flagged = s.threads.length := by
      rw [List.countP_eq_length]
      intro t ht
      simp [flagged, hevery t ht, jsonResponse, Response.get, List.find?]
    rw [hcount, hn]

/-- C2 at a concrete input: the ten coalesced requests of `tenAtOnce`. -/
theorem wave_flags_every_member_witness :
    (∃ p, ∀ t ∈ (endOf tenAtOnce).threads, t.pc = PC.done
      (jsonResponse "SINGLEFLIGHT-SHARED" [("X-Singleflight-Shared", "true")] p))
    ∧ (endOf tenAtOnce).sh.w.singleflightShared = coldWorld.singleflightShared + 10 :=
  (wave_flags_every_member encodingJSON coldWorld tenAtOnce (endOf tenAtOnce) rfl 0).2 10 rfl
    (by decide) (by decide)

/-- C5 as stated fails: the follower of `twoAtOnce` is answered 200 with
`X-Cache: SINGLEFLIGHT-SHARED`, which is none of `HIT`, `MISS`, `SHARED`. -/
theorem follower_xcache_is_not_SHARED :
    ((run encodingJSON (boot coldWorld) twoAtOnce).bind (fun s => s.response 1)).map
        (fun r => (r.status, r.get "X-Cache")) = some (200, some "SINGLEFLIGHT-SHARED")
    ∧ "SINGLEFLIGHT-SHARED" ≠ "HIT" ∧ "SINGLEFLIGHT-SHARED" ≠ "MISS"
    ∧ "SINGLEFLIGHT-SHARED" ≠ "SHARED" := by
  decide

/-- C5, amended. Every successful response of `withoutSingleflightHandler` and of
`withSingleflightHandler` carries an `X-Cache` header whose value is one of exactly `HIT`,
`MISS` or `SINGLEFLIGHT-SHARED`: `HIT` or `MISS` for a request served alone (whatever the
backend accessor), and one of the three for any request of any interleaving. -/
theorem xcache_values (J : JSONCodec) :
    (∀ (fetch : Fetch) (env : Env) (w : World),
      (withoutSingleflightHandlerWith J fetch env w).1.status = 200 →
      (withoutSingleflightHandlerWith J fetch env w).1.get "X-Cache" = some "HIT"
      ∨ (withoutSingleflightHandlerWith J fetch env w).1.get "X-Cache" = some "MISS")
    ∧ (∀ (fetch : Fetch) (env : Env) (w : World),
      (withSingleflightHandlerWith J fetch env w).1.status = 200 →
      (withSingleflightHandlerWith J fetch env w).1.get "X-Cache" = some "HIT"
      ∨ (withSingleflightHandlerWith J fetch env w).1.get "X-Cache" = some "MISS")
    ∧ (∀ (w0 : World) (es : List Event) (s : State) (i : Nat) (t : Thread) (resp : Response),
      run J (boot w0) es = some s → s.threads[i]? = some t →
      (t.handler = Handler.withoutSingleflight ∨ t.handler = Handler.withSingleflight) →
      (t.pc = PC.deferred resp ∨ t.pc = PC.done resp) →
      resp.status = 200
      ∧ (resp.get "X-Cache" = some "HIT" ∨ resp.get "X-Cache" = some "MISS"
        ∨ resp.get "X-Cache" = some "SINGLEFLIGHT-SHARED")) := by
  refine ⟨?_, ?_, ?_⟩
  · intro fetch env w hst
    simp only [withoutSingleflightHandlerWith] at hst ⊢
    cases hg : getFromCache J env.getErr (enter "without_singleflight" w) with
    | some p => simp [hg, answerHit, jsonResponse, Response.get, List.find?]
    | none =>
      simp only [hg] at hst ⊢
      cases hf : (fetch "without_singleflight" env
          (countMiss "without_singleflight" (enter "without_singleflight" w))).1 with
      | error e => simp [hf, afterFetch, httpError] at hst
      | ok p => simp [hf, afterFetch, jsonResponse, Response.get, List.find?]
  · intro fetch env w hst
    simp only [withSingleflightHandlerWith] at hst ⊢
    cases hg : getFromCache J env.getErr (enter "with_singleflight" w) with
    | some p => simp [hg, answerHit, jsonResponse, Response.get, List.find?]
    | none =>
      simp only [hg, sfGroupDoAlone, closureWith] at hst ⊢
      cases hg2 : getFromCache J env.recheckErr
          (countMiss "with_singleflight" (enter "with_singleflight" w)) with
      | some p => simp [hg2, afterDo, jsonResponse, Response.get, List.find?]
      | none =>
        simp only [hg2] at hst ⊢
        cases hf : (fetch "with_singleflight" env
            (countMiss "with_singleflight" (enter "with_singleflight" w))).1 with
        | error e => simp [hf, closureFetched, afterDo, httpError] at hst
        | ok p => simp [hf, closureFetched, afterDo, jsonResponse, Response.get, List.find?]
  · intro w0 es s i t resp hrun hit hhandler hpc
    have hok := (reachable_inv J w0 es s hrun).2 i t hit
    unfold ThreadOK at hok
    rcases hhandler with hh | hh <;> rcases hpc with hp | hp <;> simp only [hh, hp] at hok
    · obtain ⟨_, p, hr | hr⟩ := hok <;> simp [hr, jsonResponse, Response.get, List.find?]
    · obtain ⟨_, p, hr | hr⟩ := hok <;> simp [hr, jsonResponse, Response.get, List.find?]
    · rcases hok with ⟨_, p, hr⟩ | ⟨p, shared, _, hr⟩
      · simp [hr, jsonResponse, Response.get, List.find?]
      · cases shared <;> simp [hr, doResponse, jsonResponse, Response.get, List.find?]
    · rcases hok with ⟨_, p, hr⟩ | ⟨p, shared, _, hr⟩
      · simp [hr, jsonResponse, Response.get, List.find?]
      · cases shared <;> simp [hr, doResponse, jsonResponse, Response.get, List.find?]

/-- C5 at concrete inputs: a request served alone over an empty cache, and the follower of
`twoAtOnce`. -/
theorem xcache_values_witness :
    ((withSingleflightHandlerWith encodingJSON simulateDBCall calmEnv coldWorld).1.get "X-Cache"
        = some "HIT"
      ∨ (withSingleflightHandlerWith encodingJSON simulateDBCall calmEnv coldWorld).1.get "X-Cache"
        = some "MISS")
    ∧ (jsonResponse "SINGLEFLIGHT-SHARED" [("X-Singleflight-Shared", "true")]
        (newProduct calmEnv.stamp 1)).status = 200
    ∧ ((jsonResponse "SINGLEFLIGHT-SHARED" [("X-Singleflight-Shared", "true")]
          (newProduct calmEnv.stamp 1)).get "X-Cache" = some "HIT"
      ∨ (jsonResponse "SINGLEFLIGHT-SHARED" [("X-Singleflight-Shared", "true")]
          (newProduct calmEnv.stamp 1)).get "X-Cache" = some "MISS"
      ∨ (jsonResponse "SINGLEFLIGHT-SHARED" [("X-Singleflight-Shared", "true")]
          (newProduct calmEnv.stamp 1)).get "X-Cache" = some "SINGLEFLIGHT-SHARED") :=
  ⟨(xcache_values encodingJSON).2.1 simulateDBCall calmEnv coldWorld (by decide),
   (xcache_values encodingJSON).2.2 coldWorld twoAtOnce (endOf twoAtOnce) 1
     { handler := Handler.withSingleflight, start := 0, call := some 0, leads := false,
       pc := PC.done (jsonResponse "SINGLEFLIGHT-SHARED" [("X-Singleflight-Shared", "true")]
         (newProduct calmEnv.stamp 1)) }
     _ rfl rfl (Or.inr rfl) (Or.inr rfl)⟩
/-! ## A request served alone: the interleaving agrees with the handler function -/

/-- A request to `withSingleflightHandler` that is the only one the server ever received:
stepping it through the interleaving (3 steps on a hit, 7 when the re-check hits, and on a
fetch 5 steps, the sleep, 5 steps) leaves the world and writes the response that the handler
function computes. -/
theorem alone_agrees_withSingleflight (J : JSONCodec) (env : Env) (w : World) :
    (∀ p, getFromCache J env.getErr w = some p →
      (run J (boot w) (Event.spawn Handler.withSingleflight
          :: List.replicate 3 (Event.step 0 env))).map (fun s => (s.sh.w, s.response 0))
        = some ((withSingleflightHandler J env w).2, some (withSingleflightHandler J env w).1))
    ∧ (getFromCache J env.getErr w = none → ∀ p, getFromCache J env.recheckErr w = some p →
      (run J (boot w) (Event.spawn Handler.withSingleflight
          :: List.replicate 7 (Event.step 0 env))).map (fun s => (s.sh.w, s.response 0))
        = some ((withSingleflightHandler J env w).2, some (withSingleflightHandler J env w).1))
    ∧ (getFromCache J env.getErr w = none → getFromCache J env.recheckErr w = none →
      (run J (boot w) (Event.spawn Handler.withSingleflight
          :: List.replicate 5 (Event.step 0 env) ++ Event.tick (dbLatency + env.oversleep)
          :: List.replicate 5 (Event.step 0 env))).map (fun s => (s.sh.w, s.response 0))
        = some ((withSingleflightHandler J env w).2,
            some (withSingleflightHandler J env w).1)) := by
  refine ⟨?_, ?_, ?_⟩
  · intro p h
    have e1 : getFromCache J env.getErr (enter "with_singleflight" w) = some p := by
      rw [getFromCache_congr _ _ _ _ rfl rfl]; exact h
    simp only [enter] at e1
    rw [withSingleflightHandler_hit J env w p h]
    simp [run, exec, boot, stepThread, stepRead, List.replicate, Handler.endpoint, e1,
      State.response, answerHit, deferred, enter, addAt_cancel]
  · intro h1 p h2
    have e1 : getFromCache J env.getErr (enter "with_singleflight" w) = none := by
      rw [getFromCache_congr _ _ _ _ rfl rfl]; exact h1
    have e2 : getFromCache J env.recheckErr (countMiss "with_singleflight"
        (enter "with_singleflight" w)) = some p := by
      rw [getFromCache_congr _ _ _ _ rfl rfl]; exact h2
    simp only [enter, countMiss] at e1 e2
    rw [withSingleflightHandler_recheck_hit J env w p h1 h2]
    simp [run, exec, boot, stepThread, stepRead, List.replicate, Handler.endpoint, e1, e2,
      State.response, deferred, enter, countMiss, addAt_cancel, setCall, afterDo, noCall]
  · intro h1 h2
    have e1 : getFromCache J env.getErr (enter "with_singleflight" w) = none := by
      rw [getFromCache_congr _ _ _ _ rfl rfl]; exact h1
    have e2 : getFromCache J env.recheckErr (countMiss "with_singleflight"
        (enter "with_singleflight" w)) = none := by
      rw [getFromCache_congr _ _ _ _ rfl rfl]; exact h2
    simp only [enter, countMiss] at e1 e2
    have ht : w.now + (dbLatency + env.oversleep) - w.now = dbLatency + env.oversleep := by
      omega
    rw [withSingleflightHandler_miss J env w h1 h2]
    cases hm : J.marshal (newProduct env.stamp (atomicAddInt64 w.requestCount 1)) <;>
      simp [run, exec, boot, stepThread, stepRead, List.replicate, Handler.endpoint, e1, e2,
        State.response, deferred, enter, countMiss, addAt_cancel, advance, setCall,
        simulateDBCallBegin, simulateDBCallEnd, closureFetched, afterDo, setCache, noCall, hm,
        Nat.add_assoc, ht]

/-- A coalescing request served alone at concrete inputs: a warm cache, a warm cache whose
first read fails, and an empty cache. -/
theorem alone_agrees_withSingleflight_witness :
    (run encodingJSON (boot warmWorld) (Event.spawn Handler.withSingleflight
        :: List.replicate 3 (Event.step 0 calmEnv))).map (fun s => (s.sh.w, s.response 0))
      = some ((withSingleflightHandler encodingJSON calmEnv warmWorld).2,
          some (withSingleflightHandler encodingJSON calmEnv warmWorld).1)
    ∧ (run encodingJSON (boot warmWorld) (Event.spawn Handler.withSingleflight
        :: List.replicate 7 (Event.step 0 firstReadFails))).map (fun s => (s.sh.w, s.response 0))
      = some ((withSingleflightHandler encodingJSON firstReadFails warmWorld).2,
          some (withSingleflightHandler encodingJSON firstReadFails warmWorld).1)
    ∧ (run encodingJSON (boot coldWorld) (Event.spawn Handler.withSingleflight
        :: List.replicate 5 (Event.step 0 calmEnv) ++ Event.tick (dbLatency + calmEnv.oversleep)
        :: List.replicate 5 (Event.step 0 calmEnv))).map (fun s => (s.sh.w, s.response 0))
      = some ((withSingleflightHandler encodingJSON calmEnv coldWorld).2,
          some (withSingleflightHandler encodingJSON calmEnv coldWorld).1) :=
  ⟨(alone_agrees_withSingleflight encodingJSON calmEnv warmWorld).1 sampleProduct (by decide),
   (alone_agrees_withSingleflight encodingJSON firstReadFails warmWorld).2.1 (by decide)
     sampleProduct (by decide),
   (alone_agrees_withSingleflight encodingJSON calmEnv coldWorld).2.2 (by decide) (by decide)⟩

/-- A request to `withoutSingleflightHandler` that is the only one the server ever received:
stepping it through the interleaving (3 steps on a hit; on a miss 3 steps, the sleep, 3 steps)
leaves the world and writes the response that the handler function computes. -/
theorem alone_agrees_withoutSingleflight (J : JSONCodec) (env : Env) (w : World) :
    (∀ p, getFromCache J env.getErr w = some p →
      (run J (boot w) (Event.spawn Handler.withoutSingleflight
          :: List.replicate 3 (Event.step 0 env))).map (fun s => (s.sh.w, s.response 0))
        = some ((withoutSingleflightHandler J env w).2,
            some (withoutSingleflightHandler J env w).1))
    ∧ (getFromCache J env.getErr w = none →
      (run J (boot w) (Event.spawn Handler.withoutSingleflight
          :: List.replicate 3 (Event.step 0 env) ++ Event.tick (dbLatency + env.oversleep)
          :: List.replicate 3 (Event.step 0 env))).map (fun s => (s.sh.w, s.response 0))
        = some ((withoutSingleflightHandler J env w).2,
            some (withoutSingleflightHandler J env w).1)) := by
  refine ⟨?_, ?_⟩
  · intro p h
    have e1 : getFromCache J env.getErr (enter "without_singleflight" w) = some p := by
      rw [getFromCache_congr _ _ _ _ rfl rfl]; exact h
    simp only [enter] at e1
    rw [withoutSingleflightHandler_hit J env w p h]
    simp [run, exec, boot, stepThread, stepRead, List.replicate, Handler.endpoint, e1,
      State.response, answerHit, deferred, enter, addAt_cancel]
  · intro h1
    have e1 : getFromCache J env.getErr (enter "without_singleflight" w) = none := by
      rw [getFromCache_congr _ _ _ _ rfl rfl]; exact h1
    simp only [enter] at e1
    have ht : w.now + (dbLatency + env.oversleep) - w.now = dbLatency + env.oversleep := by
      omega
    rw [withoutSingleflightHandler_miss J env w h1]
    cases hm : J.marshal (newProduct env.stamp (atomicAddInt64 w.requestCount 1)) <;>
      simp [run, exec, boot, stepThread, stepRead, List.replicate, Handler.endpoint, e1,
        State.response, deferred, enter, countMiss, addAt_cancel, advance,
        simulateDBCallBegin, simulateDBCallEnd, afterFetch, setCache, noCall, hm,
        Nat.add_assoc, ht]

/-- A naive request served alone at concrete inputs: a warm cache and an empty cache. -/
theorem alone_agrees_withoutSingleflight_witness :
    (run encodingJSON (boot warmWorld) (Event.spawn Handler.withoutSingleflight
        :: List.replicate 3 (Event.step 0 calmEnv))).map (fun s => (s.sh.w, s.response 0))
      = some ((withoutSingleflightHandler encodingJSON calmEnv warmWorld).2,
          some (withoutSingleflightHandler encodingJSON calmEnv warmWorld).1)
    ∧ (run encodingJSON (boot coldWorld) (Event.spawn Handler.withoutSingleflight
        :: List.replicate 3 (Event.step 0 calmEnv) ++ Event.tick (dbLatency + calmEnv.oversleep)
        :: List.replicate 3 (Event.step 0 calmEnv))).map (fun s => (s.sh.w, s.response 0))
      = some ((withoutSingleflightHandler encodingJSON calmEnv coldWorld).2,
          some (withoutSingleflightHandler encodingJSON calmEnv coldWorld).1) :=
  ⟨(alone_agrees_withoutSingleflight encodingJSON calmEnv warmWorld).1 sampleProduct (by decide),
   (alone_agrees_withoutSingleflight encodingJSON calmEnv coldWorld).2 (by decide)⟩
/-! ## The naive endpoint: every miss is a backend call -/

theorem run_countP (J : JSONCodec) (f : World → Nat) (p : Thread → Bool) (k : Nat)
    (hspawn : ∀ h, p { handler := h, start := 0, pc := PC.start, call := none, leads := false }
      = false)
    (htick : ∀ d w, f (advance d w) = f w)
    (hstep : ∀ env i t t' s s', ThreadOK s i t → stepThread J env i t s = some (t', s') →
      f s'.w + (if p t = true then 1 else 0) = f s.w + (if p t' = true then 1 else 0))
    (es : List Event) (s s' : State) (hs : Inv s)
    (h1 : f s.sh.w = k + s.threads.countP p) (h : run J s es = some s') :
    f s'.sh.w = k + s'.threads.countP p := by
  induction es generalizing s with
  | nil =>
    simp only [run, Option.some.injEq] at h
    subst h
    exact h1
  | cons e es ih =>
    simp only [run] at h
    cases he : exec J s e with
    | none => simp [he] at h
    | some s1 =>
      simp only [he] at h
      refine ih s1 (exec_inv J s s1 e hs he) ?_ h
      cases e with
      | spawn hd =>
        simp only [exec, Option.some.injEq] at he
        subst he
        simp [List.countP_append, hspawn, h1]
      | tick d =>
        simp only [exec, Option.some.injEq] at he
        subst he
        simpa [htick] using h1
      | step i env =>
        simp only [exec] at he
        cases hti : s.threads[i]? with
        | none => simp [hti] at he
        | some t =>
          simp only [hti] at he
          cases hst : stepThread J env i t s.sh with
          | none => simp [hst] at he
          | some out =>
            obtain ⟨t', sh'⟩ := out
            simp only [hst, Option.some.injEq] at he
            subst he
            have hlen : i < s.threads.length := by
              by_contra hcon
              rw [List.getElem?_eq_none (by omega)] at hti
              exact absurd hti (by simp)
            have hget : s.threads[i] = t := by
              rw [List.getElem?_eq_getElem hlen] at hti
              exact Option.some.inj hti
            have hstep' := hstep env i t t' s.sh sh' (hs.2 i t hti) hst
            have hpos : p t = true → 0 < s.threads.countP p := by
              intro hf
              rw [List.countP_pos_iff]
              exact ⟨t, by rw [← hget]; exact List.getElem_mem _, hf⟩
            simp only [List.countP_set p s.threads i t' hlen, hget]
            cases hft : p t <;> cases hft' : p t' <;>
              simp only [hft, hft', Bool.false_eq_true, if_false, if_true, true_implies]
                at hstep' hpos ⊢ <;> omega

theorem get_xcache_json (x : String) (extra : List (String × String)) (p : Product) :
    (jsonResponse x extra p).get "X-Cache" = some x := by
  simp [jsonResponse, Response.get, List.find?]

theorem get_xcache_error (msg : String) (code : Nat) :
    (httpError msg code).get "X-Cache" = none := by
  simp [httpError, Response.get, List.find?]

theorem afterFetch_xcache (J : JSONCodec) (f : Option String) (r : Except String Product)
    (w : World) :
    (afterFetch J f r w).1.get "X-Cache" ≠ some "HIT"
    ∧ (afterFetch J f r w).2.cacheMisses = w.cacheMisses := by
  cases r with
  | error e => simp [afterFetch, get_xcache_error]
  | ok p =>
    refine ⟨by simp [afterFetch, get_xcache_json], ?_⟩
    simp only [afterFetch, setCache]
    cases J.marshal p <;> simp

theorem stepThread_naive (J : JSONCodec) (env : Env) (i : Nat) (t t' : Thread) (s s' : Shared)
    (ht : ThreadOK s i t) (h : stepThread J env i t s = some (t', s')) :
    (s'.w.cacheMisses "without_singleflight" + (if naiveMissed t = true then 1 else 0)
      = s.w.cacheMisses "without_singleflight" + (if naiveMissed t' = true then 1 else 0))
    ∧ (s'.w.dbCalls "without_singleflight" + (if naiveFetched t = true then 1 else 0)
      = s.w.dbCalls "without_singleflight" + (if naiveFetched t' = true then 1 else 0)) := by
  obtain ⟨handler, start, pc, call, leads⟩ := t
  cases handler
  · cases pc <;> simp [stepThread, stepRead, ThreadOK] at h ht
    · obtain ⟨rfl, rfl⟩ := h
      simp [naiveMissed, naiveFetched, enter]
    · cases hg : getFromCache J env.getErr s.w <;> simp [hg] at h <;> obtain ⟨rfl, rfl⟩ := h
      · simp [naiveMissed, naiveFetched, countMiss, incAt, Handler.endpoint]
      · simp [naiveMissed, naiveFetched, answerHit, get_xcache_json]
    · subst ht
      obtain ⟨rfl, rfl⟩ := h
      simp [naiveMissed, naiveFetched, simulateDBCallBegin, incAt, Handler.endpoint]
    · obtain ⟨_, rfl, rfl⟩ := h
      simp [naiveMissed, naiveFetched, simulateDBCallEnd]
    · obtain ⟨rfl, rfl⟩ := h
      simp [naiveMissed, naiveFetched, afterFetch_xcache, afterFetch_frame]
    · obtain ⟨rfl, rfl⟩ := h
      simp [naiveMissed, naiveFetched, deferred]
  · cases pc <;> simp only [ThreadOK] at ht <;> simp [stepThread, stepRead] at h
    · obtain ⟨rfl, rfl⟩ := h
      simp [naiveMissed, naiveFetched, enter]
    · cases hg : getFromCache J env.getErr s.w <;> simp [hg] at h <;> obtain ⟨rfl, rfl⟩ := h
      · simp [naiveMissed, naiveFetched, countMiss, incAt, Handler.endpoint]
      · simp [naiveMissed, naiveFetched, answerHit]
    · cases hgr : s.group <;> simp [hgr] at h <;> obtain ⟨rfl, rfl⟩ := h <;>
        simp [naiveMissed, naiveFetched]
    · obtain ⟨c, ⟨hcall, _⟩, _⟩ := ht
      simp only at hcall
      subst hcall
      cases hg : getFromCache J env.recheckErr s.w <;> simp [hg] at h <;> obtain ⟨rfl, rfl⟩ := h <;>
        simp [naiveMissed, naiveFetched]
    · obtain ⟨rfl, rfl⟩ := h
      simp [naiveMissed, naiveFetched, simulateDBCallBegin, incAt, Handler.endpoint]
    · obtain ⟨_, rfl, rfl⟩ := h
      simp [naiveMissed, naiveFetched, simulateDBCallEnd]
    · obtain ⟨rfl, rfl⟩ := h
      have hcm : ∀ r, (closureFetched J env.setErr r s.w).2.cacheMisses = s.w.cacheMisses := by
        intro r
        cases r with
        | error e => simp [closureFetched]
        | ok p =>
          simp only [closureFetched, setCache]
          cases J.marshal p <;> simp
      simp [naiveMissed, naiveFetched, closureFetched_frame, hcm]
    · obtain ⟨c, ⟨hcall, _⟩, _⟩ := ht
      simp only at hcall
      subst hcall
      simp at h
      obtain ⟨rfl, rfl⟩ := h
      simp [naiveMissed, naiveFetched]
    · obtain ⟨c, hcall, _⟩ := ht
      subst hcall
      simp at h
      cases hres : (s.calls c).result <;> simp [hres] at h
      obtain ⟨rfl, rfl⟩ := h
      simp [naiveMissed, naiveFetched]
    · obtain ⟨rfl, rfl⟩ := h
      rename_i r shared
      have hcm : (afterDo r shared s.w).2.cacheMisses = s.w.cacheMisses := by
        cases r with
        | error e => simp [afterDo]
        | ok p => cases shared <;> simp [afterDo]
      simp [naiveMissed, naiveFetched, (afterDo_shared _ _ _).2, hcm]
    · obtain ⟨rfl, rfl⟩ := h
      simp [naiveMissed, naiveFetched, deferred]
  · cases pc <;> simp [stepThread] at h
    obtain ⟨rfl, rfl⟩ := h
    cases hd : env.delErr <;>
      simp [naiveMissed, naiveFetched, clearCacheHandler, redisDel, hd]
  · cases pc <;> simp [stepThread] at h
    obtain ⟨rfl, rfl⟩ := h
    simp [naiveMissed, naiveFetched, healthHandler]

/-- The naive endpoint reproduces the stampede: in every state the server can reach,
`cacheMisses["without_singleflight"]` counts the naive requests that missed and
`dbCalls["without_singleflight"]` those of them that have called `simulateDBCall`; a naive
request that missed and has answered has made its own backend call, so once all have answered
N misses are N backend calls. -/
theorem naive_miss_is_backend_call (J : JSONCodec) (w0 : World) (es : List Event) (s : State)
    (h : run J (boot w0) es = some s) :
    s.sh.w.cacheMisses "without_singleflight"
      = w0.cacheMisses "without_singleflight" + s.threads.countP naiveMissed
    ∧ s.sh.w.dbCalls "without_singleflight"
      = w0.dbCalls "without_singleflight" + s.threads.countP naiveFetched
    ∧ ((∀ t ∈ s.threads, t.answered = true) →
        s.sh.w.dbCalls "without_singleflight" - w0.dbCalls "without_singleflight"
          = s.sh.w.cacheMisses "without_singleflight"
            - w0.cacheMisses "without_singleflight") := by
  have hm := run_countP J (fun w => w.cacheMisses "without_singleflight") naiveMissed
    (w0.cacheMisses "without_singleflight") (by intro hd; simp [naiveMissed])
    (by intro d w; rfl)
    (fun env i t t' s s' ht hst => (stepThread_naive J env i t t' s s' ht hst).1)
    es (boot w0) s (boot_inv w0) (by simp [boot]) h
  have hf := run_countP J (fun w => w.dbCalls "without_singleflight") naiveFetched
    (w0.dbCalls "without_singleflight") (by intro hd; simp [naiveFetched])
    (by intro d w; rfl)
    (fun env i t t' s s' ht hst => (stepThread_naive J env i t t' s s' ht hst).2)
    es (boot w0) s (boot_inv w0) (by simp [boot]) h
  simp only at hm hf
  refine ⟨hm, hf, ?_⟩
  intro hall
  have hsame : s.threads.countP naiveFetched = s.threads.countP naiveMissed := by
    apply List.countP_congr
    intro t ht
    obtain ⟨resp, hp⟩ := answered_done t (hall t ht)
    simp [naiveFetched, naiveMissed, hp]
  rw [hm, hf, hsame]
  omega

/-- The stampede at a concrete input: ten naive requests over an empty cache, ten backend
calls. -/
theorem naive_miss_is_backend_call_witness :
    (endOf tenNaive).sh.w.dbCalls "without_singleflight" - coldWorld.dbCalls "without_singleflight"
      = (endOf tenNaive).sh.w.cacheMisses "without_singleflight"
        - coldWorld.cacheMisses "without_singleflight"
    ∧ (endOf tenNaive).sh.w.dbCalls "without_singleflight" = 10 :=
  ⟨(naive_miss_is_backend_call encodingJSON coldWorld tenNaive (endOf tenNaive) rfl).2.2
      (by decide), by decide⟩
/-! ## Counters of the interleaving -/

theorem run_count_rel (J : JSONCodec) (Q : World → Nat → Prop) (p : Thread → Bool)
    (hspawn : ∀ h, p { handler := h, start := 0, pc := PC.start, call := none, leads := false }
      = false)
    (htick : ∀ d w n, Q w n → Q (advance d w) n)
    (hstep : ∀ env i t t' s s', ThreadOK s i t → stepThread J env i t s = some (t', s') →
      ∀ n, Q s.w (n + (if p t = true then 1 else 0)) →
        Q s'.w (n + (if p t' = true then 1 else 0)))
    (es : List Event) (s s' : State) (hs : Inv s)
    (h1 : Q s.sh.w (s.threads.countP p)) (h : run J s es = some s') :
    Q s'.sh.w (s'.threads.countP p) := by
  induction es generalizing s with
  | nil =>
    simp only [run, Option.some.injEq] at h
    subst h
    exact h1
  | cons e es ih =>
    simp only [run] at h
    cases he : exec J s e with
    | none => simp [he] at h
    | some s1 =>
      simp only [he] at h
      refine ih s1 (exec_inv J s s1 e hs he) ?_ h
      cases e with
      | spawn hd =>
        simp only [exec, Option.some.injEq] at he
        subst he
        simpa [List.countP_append, hspawn] using h1
      | tick d =>
        simp only [exec, Option.some.injEq] at he
        subst he
        exact htick d _ _ h1
      | step i env =>
        simp only [exec] at he
        cases hti : s.threads[i]? with
        | none => simp [hti] at he
        | some t =>
          simp only [hti] at he
          cases hst : stepThread J env i t s.sh with
          | none => simp [hst] at he
          | some out =>
            obtain ⟨t', sh'⟩ := out
            simp only [hst, Option.some.injEq] at he
            subst he
            have hlen : i < s.threads.length := by
              by_contra hcon
              rw [List.getElem?_eq_none (by omega)] at hti
              exact absurd hti (by simp)
            have hget : s.threads[i] = t := by
              rw [List.getElem?_eq_getElem hlen] at hti
              exact Option.some.inj hti
            have hpos : p t = true → 0 < s.threads.countP p := by
              intro hf
              rw [List.countP_pos_iff]
              exact ⟨t, by rw [← hget]; exact List.getElem_mem _, hf⟩
            have hsplit : s.threads.countP p
                = (s.threads.countP p - (if p t = true then 1 else 0))
                  + (if p t = true then 1 else 0) := by
              cases hft : p t
              · simp
              · have := hpos hft
                simp only [if_true]
                omega
            rw [hsplit] at h1
            have := hstep env i t t' s.sh sh' (hs.2 i t hti) hst _ h1
            simpa only [List.countP_set p s.threads i t' hlen, hget] using this

theorem setCache_counters (J : JSONCodec) (f : Option String) (p : Product) (w : World) :
    (setCache J f p w).cacheHits = w.cacheHits
    ∧ (setCache J f p w).cacheMisses = w.cacheMisses
    ∧ (setCache J f p w).dbCalls = w.dbCalls
    ∧ (setCache J f p w).requestCount = w.requestCount
    ∧ (setCache J f p w).inflightRequests = w.inflightRequests := by
  unfold setCache
  cases J.marshal p <;> simp

theorem afterDo_counters (p : Product) (shared : Bool) (w : World) :
    (afterDo (Except.ok p) shared w).2.cacheHits = w.cacheHits
    ∧ (afterDo (Except.ok p) shared w).2.cacheMisses = w.cacheMisses
    ∧ (afterDo (Except.ok p) shared w).2.dbCalls = w.dbCalls
    ∧ (afterDo (Except.ok p) shared w).2.requestCount = w.requestCount
    ∧ (afterDo (Except.ok p) shared w).2.inflightRequests = w.inflightRequests
    ∧ (afterDo (Except.ok p) shared w).1.get "X-Cache" ≠ some "HIT" := by
  cases shared <;> simp [afterDo, get_xcache_json]

set_option linter.unusedTactic false in
set_option linter.unreachableTactic false in
set_option linter.unnecessarySeqFocus false in
/-- What one step of a request does to the counters, against where the request is. -/
theorem stepThread_counters (J : JSONCodec) (e : String) (env : Env) (i : Nat) (t t' : Thread)
    (s s' : Shared) (ht : ThreadOK s i t) (h : stepThread J env i t s = some (t', s')) :
    (s'.w.cacheHits e + (if hitOn e t = true then 1 else 0)
      = s.w.cacheHits e + (if hitOn e t' = true then 1 else 0))
    ∧ (s'.w.cacheMisses e + (if missedOn e t = true then 1 else 0)
      = s.w.cacheMisses e + (if missedOn e t' = true then 1 else 0))
    ∧ (s'.w.dbCalls e + (if pendingOn e t' = true then 1 else 0) + s.w.cacheMisses e
      ≤ s.w.dbCalls e + (if pendingOn e t = true then 1 else 0) + s'.w.cacheMisses e)
    ∧ (s'.w.inflightRequests e + (if activeOn e t = true then 1 else 0)
      = s.w.inflightRequests e + (if activeOn e t' = true then 1 else 0)) := by
  obtain ⟨handler, start, pc, call, leads⟩ := t
  cases handler
  · cases pc <;> simp [stepThread, stepRead, ThreadOK] at h ht
    · obtain ⟨rfl, rfl⟩ := h
      refine ⟨?_, ?_, ?_, ?_⟩ <;>
        simp [hitOn, missedOn, pendingOn, activeOn, requestTo, Handler.reads, Handler.endpoint,
          enter, countMiss, answerHit, simulateDBCallBegin, simulateDBCallEnd, deferred,
          afterFetch, closureFetched, setCache_counters, afterDo_counters, get_xcache_json,
          incAt, addAt] <;> (try split_ifs) <;> (try simp_all) <;> (try omega)
    · cases hg : getFromCache J env.getErr s.w <;> simp [hg] at h <;> obtain ⟨rfl, rfl⟩ := h
      · refine ⟨?_, ?_, ?_, ?_⟩ <;>
        simp [hitOn, missedOn, pendingOn, activeOn, requestTo, Handler.reads, Handler.endpoint,
          enter, countMiss, answerHit, simulateDBCallBegin, simulateDBCallEnd, deferred,
          afterFetch, closureFetched, setCache_counters, afterDo_counters, get_xcache_json,
          incAt, addAt] <;> (try split_ifs) <;> (try simp_all) <;> (try omega)
      · refine ⟨?_, ?_, ?_, ?_⟩ <;>
        simp [hitOn, missedOn, pendingOn, activeOn, requestTo, Handler.reads, Handler.endpoint,
          enter, countMiss, answerHit, simulateDBCallBegin, simulateDBCallEnd, deferred,
          afterFetch, closureFetched, setCache_counters, afterDo_counters, get_xcache_json,
          incAt, addAt] <;> (try split_ifs) <;> (try simp_all) <;> (try omega)
    · subst ht
      obtain ⟨rfl, rfl⟩ := h
      refine ⟨?_, ?_, ?_, ?_⟩ <;>
        simp [hitOn, missedOn, pendingOn, activeOn, requestTo, Handler.reads, Handler.endpoint,
          enter, countMiss, answerHit, simulateDBCallBegin, simulateDBCallEnd, deferred,
          afterFetch, closureFetched, setCache_counters, afterDo_counters, get_xcache_json,
          incAt, addAt] <;> (try split_ifs) <;> (try simp_all) <;> (try omega)
    · obtain ⟨_, rfl, rfl⟩ := h
      refine ⟨?_, ?_, ?_, ?_⟩ <;>
        simp [hitOn, missedOn, pendingOn, activeOn, requestTo, Handler.reads, Handler.endpoint,
          enter, countMiss, answerHit, simulateDBCallBegin, simulateDBCallEnd, deferred,
          afterFetch, closureFetched, setCache_counters, afterDo_counters, get_xcache_json,
          incAt, addAt] <;> (try split_ifs) <;> (try simp_all) <;> (try omega)
    · obtain ⟨rfl, rfl⟩ := h
      obtain ⟨hc, p, rfl⟩ := ht
      refine ⟨?_, ?_, ?_, ?_⟩ <;>
        simp [hitOn, missedOn, pendingOn, activeOn, requestTo, Handler.reads, Handler.endpoint,
          enter, countMiss, answerHit, simulateDBCallBegin, simulateDBCallEnd, deferred,
          afterFetch, closureFetched, setCache_counters, afterDo_counters, get_xcache_json,
          incAt, addAt] <;> (try split_ifs) <;> (try simp_all) <;> (try omega)
    · obtain ⟨rfl, rfl⟩ := h
      obtain ⟨hc, p, hr⟩ := ht
      rcases hr with rfl | rfl
      · refine ⟨?_, ?_, ?_, ?_⟩ <;>
        simp [hitOn, missedOn, pendingOn, activeOn, requestTo, Handler.reads, Handler.endpoint,
          enter, countMiss, answerHit, simulateDBCallBegin, simulateDBCallEnd, deferred,
          afterFetch, closureFetched, setCache_counters, afterDo_counters, get_xcache_json,
          incAt, addAt] <;> (try split_ifs) <;> (try simp_all) <;> (try omega)
      · refine ⟨?_, ?_, ?_, ?_⟩ <;>
        simp [hitOn, missedOn, pendingOn, activeOn, requestTo, Handler.reads, Handler.endpoint,
          enter, countMiss, answerHit, simulateDBCallBegin, simulateDBCallEnd, deferred,
          afterFetch, closureFetched, setCache_counters, afterDo_counters, get_xcache_json,
          incAt, addAt] <;> (try split_ifs) <;> (try simp_all) <;> (try omega)
  · cases pc <;> simp only [ThreadOK] at ht <;> simp [stepThread, stepRead] at h
    · obtain ⟨rfl, rfl⟩ := h
      refine ⟨?_, ?_, ?_, ?_⟩ <;>
        simp [hitOn, missedOn, pendingOn, activeOn, requestTo, Handler.reads, Handler.endpoint,
          enter, countMiss, answerHit, simulateDBCallBegin, simulateDBCallEnd, deferred,
          afterFetch, closureFetched, setCache_counters, afterDo_counters, get_xcache_json,
          incAt, addAt] <;> (try split_ifs) <;> (try simp_all) <;> (try omega)
    · cases hg : getFromCache J env.getErr s.w <;> simp [hg] at h <;> obtain ⟨rfl, rfl⟩ := h
      · refine ⟨?_, ?_, ?_, ?_⟩ <;>
        simp [hitOn, missedOn, pendingOn, activeOn, requestTo, Handler.reads, Handler.endpoint,
          enter, countMiss, answerHit, simulateDBCallBegin, simulateDBCallEnd, deferred,
          afterFetch, closureFetched, setCache_counters, afterDo_counters, get_xcache_json,
          incAt, addAt] <;> (try split_ifs) <;> (try simp_all) <;> (try omega)
      · refine ⟨?_, ?_, ?_, ?_⟩ <;>
        simp [hitOn, missedOn, pendingOn, activeOn, requestTo, Handler.reads, Handler.endpoint,
          enter, countMiss, answerHit, simulateDBCallBegin, simulateDBCallEnd, deferred,
          afterFetch, closureFetched, setCache_counters, afterDo_counters, get_xcache_json,
          incAt, addAt] <;> (try split_ifs) <;> (try simp_all) <;> (try omega)
    · cases hgr : s.group <;> simp [hgr] at h <;> obtain ⟨rfl, rfl⟩ := h
      · refine ⟨?_, ?_, ?_, ?_⟩ <;>
        simp [hitOn, missedOn, pendingOn, activeOn, requestTo, Handler.reads, Handler.endpoint,
          enter, countMiss, answerHit, simulateDBCallBegin, simulateDBCallEnd, deferred,
          afterFetch, closureFetched, setCache_counters, afterDo_counters, get_xcache_json,
          incAt, addAt] <;> (try split_ifs) <;> (try simp_all) <;> (try omega)
      · refine ⟨?_, ?_, ?_, ?_⟩ <;>
        simp [hitOn, missedOn, pendingOn, activeOn, requestTo, Handler.reads, Handler.endpoint,
          enter, countMiss, answerHit, simulateDBCallBegin, simulateDBCallEnd, deferred,
          afterFetch, closureFetched, setCache_counters, afterDo_counters, get_xcache_json,
          incAt, addAt] <;> (try split_ifs) <;> (try simp_all) <;> (try omega)
    · obtain ⟨c, ⟨hcall, _⟩, _⟩ := ht
      simp only at hcall
      subst hcall
      cases hg : getFromCache J env.recheckErr s.w <;> simp [hg] at h <;> obtain ⟨rfl, rfl⟩ := h
      · refine ⟨?_, ?_, ?_, ?_⟩ <;>
        simp [hitOn, missedOn, pendingOn, activeOn, requestTo, Handler.reads, Handler.endpoint,
          enter, countMiss, answerHit, simulateDBCallBegin, simulateDBCallEnd, deferred,
          afterFetch, closureFetched, setCache_counters, afterDo_counters, get_xcache_json,
          incAt, addAt] <;> (try split_ifs) <;> (try simp_all) <;> (try omega)
      · refine ⟨?_, ?_, ?_, ?_⟩ <;>
        simp [hitOn, missedOn, pendingOn, activeOn, requestTo, Handler.reads, Handler.endpoint,
          enter, countMiss, answerHit, simulateDBCallBegin, simulateDBCallEnd, deferred,
          afterFetch, closureFetched, setCache_counters, afterDo_counters, get_xcache_json,
          incAt, addAt] <;> (try split_ifs) <;> (try simp_all) <;> (try omega)
    · obtain ⟨rfl, rfl⟩ := h
      refine ⟨?_, ?_, ?_, ?_⟩ <;>
        simp [hitOn, missedOn, pendingOn, activeOn, requestTo, Handler.reads, Handler.endpoint,
          enter, countMiss, answerHit, simulateDBCallBegin, simulateDBCallEnd, deferred,
          afterFetch, closureFetched, setCache_counters, afterDo_counters, get_xcache_json,
          incAt, addAt] <;> (try split_ifs) <;> (try simp_all) <;> (try omega)
    · obtain ⟨_, rfl, rfl⟩ := h
      refine ⟨?_, ?_, ?_, ?_⟩ <;>
        simp [hitOn, missedOn, pendingOn, activeOn, requestTo, Handler.reads, Handler.endpoint,
          enter, countMiss, answerHit, simulateDBCallBegin, simulateDBCallEnd, deferred,
          afterFetch, closureFetched, setCache_counters, afterDo_counters, get_xcache_json,
          incAt, addAt] <;> (try split_ifs) <;> (try simp_all) <;> (try omega)
    · obtain ⟨rfl, rfl⟩ := h
      obtain ⟨c, _, _, _, p, rfl⟩ := ht
      refine ⟨?_, ?_, ?_, ?_⟩ <;>
        simp [hitOn, missedOn, pendingOn, activeOn, requestTo, Handler.reads, Handler.endpoint,
          enter, countMiss, answerHit, simulateDBCallBegin, simulateDBCallEnd, deferred,
          afterFetch, closureFetched, setCache_counters, afterDo_counters, get_xcache_json,
          incAt, addAt] <;> (try split_ifs) <;> (try simp_all) <;> (try omega)
    · obtain ⟨c, ⟨hcall, _⟩, _⟩ := ht
      simp only at hcall
      subst hcall
      simp at h
      obtain ⟨rfl, rfl⟩ := h
      refine ⟨?_, ?_, ?_, ?_⟩ <;>
        simp [hitOn, missedOn, pendingOn, activeOn, requestTo, Handler.reads, Handler.endpoint,
          enter, countMiss, answerHit, simulateDBCallBegin, simulateDBCallEnd, deferred,
          afterFetch, closureFetched, setCache_counters, afterDo_counters, get_xcache_json,
          incAt, addAt] <;> (try split_ifs) <;> (try simp_all) <;> (try omega)
    · obtain ⟨c, hcall, _⟩ := ht
      subst hcall
      simp at h
      cases hres : (s.calls c).result <;> simp [hres] at h
      obtain ⟨rfl, rfl⟩ := h
      refine ⟨?_, ?_, ?_, ?_⟩ <;>
        simp [hitOn, missedOn, pendingOn, activeOn, requestTo, Handler.reads, Handler.endpoint,
          enter, countMiss, answerHit, simulateDBCallBegin, simulateDBCallEnd, deferred,
          afterFetch, closureFetched, setCache_counters, afterDo_counters, get_xcache_json,
          incAt, addAt] <;> (try split_ifs) <;> (try simp_all) <;> (try omega)
    · obtain ⟨rfl, rfl⟩ := h
      obtain ⟨c, _, _, _, ⟨p, rfl⟩, _⟩ := ht
      refine ⟨?_, ?_, ?_, ?_⟩ <;>
        simp [hitOn, missedOn, pendingOn, activeOn, requestTo, Handler.reads, Handler.endpoint,
          enter, countMiss, answerHit, simulateDBCallBegin, simulateDBCallEnd, deferred,
          afterFetch, closureFetched, setCache_counters, afterDo_counters, get_xcache_json,
          incAt, addAt] <;> (try split_ifs) <;> (try simp_all) <;> (try omega)
    · obtain ⟨rfl, rfl⟩ := h
      rcases ht with ⟨_, p, rfl⟩ | ⟨p, shared, _, rfl⟩
      · refine ⟨?_, ?_, ?_, ?_⟩ <;>
        simp [hitOn, missedOn, pendingOn, activeOn, requestTo, Handler.reads, Handler.endpoint,
          enter, countMiss, answerHit, simulateDBCallBegin, simulateDBCallEnd, deferred,
          afterFetch, closureFetched, setCache_counters, afterDo_counters, get_xcache_json,
          incAt, addAt] <;> (try split_ifs) <;> (try simp_all) <;> (try omega)
      · cases shared <;>
        refine ⟨?_, ?_, ?_, ?_⟩ <;>
        simp [hitOn, missedOn, pendingOn, activeOn, requestTo, Handler.reads, Handler.endpoint,
          enter, countMiss, answerHit, simulateDBCallBegin, simulateDBCallEnd, deferred,
          afterFetch, closureFetched, setCache_counters, afterDo_counters, get_xcache_json, doResponse,
          incAt, addAt] <;> (try split_ifs) <;> (try simp_all) <;> (try omega)
  · cases pc <;> simp [stepThread] at h
    obtain ⟨rfl, rfl⟩ := h
    cases hd : env.delErr <;>
      refine ⟨?_, ?_, ?_, ?_⟩ <;>
        simp [hitOn, missedOn, pendingOn, activeOn, requestTo, Handler.reads, Handler.endpoint,
          enter, countMiss, answerHit, simulateDBCallBegin, simulateDBCallEnd, deferred,
          afterFetch, closureFetched, setCache_counters, afterDo_counters, get_xcache_json,
          incAt, addAt, clearCacheHandler, redisDel, hd] <;> (try split_ifs) <;> (try simp_all) <;> (try omega)
  · cases pc <;> simp [stepThread] at h
    obtain ⟨rfl, rfl⟩ := h
    refine ⟨?_, ?_, ?_, ?_⟩ <;>
        simp [hitOn, missedOn, pendingOn, activeOn, requestTo, Handler.reads, Handler.endpoint,
          enter, countMiss, answerHit, simulateDBCallBegin, simulateDBCallEnd, deferred,
          afterFetch, closureFetched, setCache_counters, afterDo_counters, get_xcache_json,
          incAt, addAt, healthHandler] <;> (try split_ifs) <;> (try simp_all) <;> (try omega)

theorem afterDo_requestCount (r : Except String Product) (shared : Bool) (w : World) :
    (afterDo r shared w).2.requestCount = w.requestCount
    ∧ (afterDo r shared w).2.dbCalls = w.dbCalls := by
  cases r <;> cases shared <;> simp [afterDo]

theorem afterFetch_requestCount (J : JSONCodec) (f : Option String) (r : Except String Product)
    (w : World) :
    (afterFetch J f r w).2.requestCount = w.requestCount
    ∧ (afterFetch J f r w).2.dbCalls = w.dbCalls := by
  cases r <;> simp [afterFetch, setCache_counters]

theorem closureFetched_requestCount (J : JSONCodec) (f : Option String)
    (r : Except String Product) (w : World) :
    (closureFetched J f r w).2.requestCount = w.requestCount
    ∧ (closureFetched J f r w).2.dbCalls = w.dbCalls := by
  cases r <;> simp [closureFetched, setCache_counters]

/-- What one step of a request does to `requestCount` and to the sum of the two `dbCalls`
counters: either `requestCount` is untouched and the sum grows exactly when the request
enters the sleep of `simulateDBCall`, or the request leaves that sleep and `requestCount`
takes one `int64` increment. -/
theorem stepThread_requestCount (J : JSONCodec) (env : Env) (i : Nat) (t t' : Thread)
    (s s' : Shared) (h : stepThread J env i t s = some (t', s')) :
    (s'.w.requestCount = s.w.requestCount
      ∧ s'.w.dbCalls "without_singleflight" + s'.w.dbCalls "with_singleflight"
          + (if sleeping t = true then 1 else 0)
        = s.w.dbCalls "without_singleflight" + s.w.dbCalls "with_singleflight"
          + (if sleeping t' = true then 1 else 0))
    ∨ (s'.w.requestCount = atomicAddInt64 s.w.requestCount 1
      ∧ s'.w.dbCalls = s.w.dbCalls ∧ sleeping t = true ∧ sleeping t' = false) := by
  obtain ⟨handler, start, pc, call, leads⟩ := t
  cases handler
  · cases pc <;> simp [stepThread, stepRead] at h
    · obtain ⟨rfl, rfl⟩ := h
      simp [sleeping, enter]
    · cases hg : getFromCache J env.getErr s.w <;> simp [hg] at h <;> obtain ⟨rfl, rfl⟩ := h <;>
        simp [sleeping, countMiss, answerHit]
    · cases hgr : s.group <;> simp [hgr] at h <;> obtain ⟨rfl, rfl⟩ := h <;> simp [sleeping]
    · cases hg : getFromCache J env.recheckErr s.w <;> simp [hg] at h <;>
        obtain ⟨rfl, rfl⟩ := h <;> cases call <;> simp [sleeping]
    · obtain ⟨rfl, rfl⟩ := h
      simp [sleeping, simulateDBCallBegin, incAt, Handler.reads, Handler.endpoint]
      omega
    · obtain ⟨_, rfl, rfl⟩ := h
      simp [sleeping, simulateDBCallEnd, Handler.reads]
    · obtain ⟨rfl, rfl⟩ := h
      simp [sleeping, afterFetch_requestCount]
    · cases call <;> simp at h
      obtain ⟨rfl, rfl⟩ := h
      simp [sleeping]
    · cases call <;> simp at h
      rename_i c
      cases hres : (s.calls c).result <;> simp [hres] at h
      obtain ⟨rfl, rfl⟩ := h
      simp [sleeping]
    · obtain ⟨rfl, rfl⟩ := h
      simp [sleeping, afterDo_requestCount]
    · obtain ⟨rfl, rfl⟩ := h
      simp [sleeping, deferred]
  · cases pc <;> simp [stepThread, stepRead] at h
    · obtain ⟨rfl, rfl⟩ := h
      simp [sleeping, enter]
    · cases hg : getFromCache J env.getErr s.w <;> simp [hg] at h <;> obtain ⟨rfl, rfl⟩ := h <;>
        simp [sleeping, countMiss, answerHit]
    · cases hgr : s.group <;> simp [hgr] at h <;> obtain ⟨rfl, rfl⟩ := h <;> simp [sleeping]
    · cases hg : getFromCache J env.recheckErr s.w <;> simp [hg] at h <;>
        obtain ⟨rfl, rfl⟩ := h <;> cases call <;> simp [sleeping]
    · obtain ⟨rfl, rfl⟩ := h
      simp [sleeping, simulateDBCallBegin, incAt, Handler.reads, Handler.endpoint]
      omega
    · obtain ⟨_, rfl, rfl⟩ := h
      simp [sleeping, simulateDBCallEnd, Handler.reads]
    · obtain ⟨rfl, rfl⟩ := h
      simp [sleeping, closureFetched_requestCount]
    · cases call <;> simp at h
      obtain ⟨rfl, rfl⟩ := h
      simp [sleeping]
    · cases call <;> simp at h
      rename_i c
      cases hres : (s.calls c).result <;> simp [hres] at h
      obtain ⟨rfl, rfl⟩ := h
      simp [sleeping]
    · obtain ⟨rfl, rfl⟩ := h
      simp [sleeping, afterDo_requestCount]
    · obtain ⟨rfl, rfl⟩ := h
      simp [sleeping, deferred]
  · cases pc <;> simp [stepThread] at h
    obtain ⟨rfl, rfl⟩ := h
    cases hd : env.delErr <;> simp [sleeping, clearCacheHandler, redisDel, hd, Handler.reads]
  · cases pc <;> simp [stepThread] at h
    obtain ⟨rfl, rfl⟩ := h
    simp [sleeping, healthHandler, Handler.reads]

theorem wrapInt64_pred_succ (x : Int) (n : Nat) :
    atomicAddInt64 (wrapInt64 (x - ((n + 1 : Nat) : Int))) 1 = wrapInt64 (x - (n : Int)) := by
  rw [wrapInt64_succ]
  congr 1
  push_cast
  omega

/-- The counters of a reachable state, read off the requests the server has received:
where each of them is in its handler determines what it has counted so far. -/
theorem reachable_counters (J : JSONCodec) (db : Redis) (now : Nat) (es : List Event) (s : State)
    (h : run J (boot (initial db now)) es = some s) :
    (∀ e, s.sh.w.cacheHits e = s.threads.countP (hitOn e))
    ∧ (∀ e, s.sh.w.cacheMisses e = s.threads.countP (missedOn e))
    ∧ (∀ e, s.sh.w.dbCalls e + s.threads.countP (pendingOn e) ≤ s.sh.w.cacheMisses e)
    ∧ (∀ e, s.sh.w.inflightRequests e = ((s.threads.countP (activeOn e) : Nat) : Int))
    ∧ s.sh.w.requestCount
        = wrapInt64 (((s.sh.w.dbCalls "without_singleflight"
            + s.sh.w.dbCalls "with_singleflight" : Nat) : Int)
          - ((s.threads.countP sleeping : Nat) : Int)) := by
  have hinv := boot_inv (initial db now)
  refine ⟨?_, ?_, ?_, ?_, ?_⟩
  · intro e
    refine run_count_rel J (fun w n => w.cacheHits e = n) (hitOn e) (by intro hd; simp [hitOn])
      (by intro d w n hq; exact hq) ?_ es _ s hinv (by simp [boot, initial]) h
    intro env i t t' s1 s2 ht hst n hq
    have := (stepThread_counters J e env i t t' s1 s2 ht hst).1
    simp only at hq ⊢
    omega
  · intro e
    refine run_count_rel J (fun w n => w.cacheMisses e = n) (missedOn e)
      (by intro hd; simp [missedOn]) (by intro d w n hq; exact hq) ?_ es _ s hinv
      (by simp [boot, initial]) h
    intro env i t t' s1 s2 ht hst n hq
    have := (stepThread_counters J e env i t t' s1 s2 ht hst).2.1
    simp only at hq ⊢
    omega
  · intro e
    refine run_count_rel J (fun w n => w.dbCalls e + n ≤ w.cacheMisses e) (pendingOn e)
      (by intro hd; simp [pendingOn]) (by intro d w n hq; exact hq) ?_ es _ s hinv
      (by simp [boot, initial]) h
    intro env i t t' s1 s2 ht hst n hq
    have := (stepThread_counters J e env i t t' s1 s2 ht hst).2.2.1
    simp only at hq ⊢
    omega
  · intro e
    refine run_count_rel J (fun w n => w.inflightRequests e = ((n : Nat) : Int)) (activeOn e)
      (by intro hd; simp [activeOn]) (by intro d w n hq; exact hq) ?_ es _ s hinv
      (by simp [boot, initial]) h
    intro env i t t' s1 s2 ht hst n hq
    have := (stepThread_counters J e env i t t' s1 s2 ht hst).2.2.2
    simp only at hq ⊢
    split_ifs at this hq ⊢ <;> push_cast at hq ⊢ <;> omega
  · refine run_count_rel J (fun w n => w.requestCount
        = wrapInt64 (((w.dbCalls "without_singleflight" + w.dbCalls "with_singleflight" : Nat)
            : Int) - ((n : Nat) : Int))) sleeping
      (by intro hd; simp [sleeping]) (by intro d w n hq; exact hq) ?_ es _ s hinv
      (by simp [boot, initial, wrapInt64]) h
    intro env i t t' s1 s2 ht hst n hq
    simp only at hq ⊢
    rcases stepThread_requestCount J env i t t' s1 s2 hst with ⟨h1, h2⟩ | ⟨h1, h2, h3, h4⟩
    · rw [h1, hq]
      congr 1
      split_ifs at h2 hq ⊢ <;> push_cast <;> omega
    · rw [h1, hq, h2]
      simp only [h3, h4, if_true, Bool.false_eq_true, if_false, Nat.add_zero]
      exact wrapInt64_pred_succ _ n

/-- A request that has answered was counted once: as a hit or as a miss on its own endpoint,
on no other endpoint, and it is no longer in flight, about to fetch or fetching. -/
theorem answered_counted (e : String) (t : Thread) (h : t.answered = true) :
    (requestTo e t = true →
      (hitOn e t = true ∧ missedOn e t = false) ∨ (hitOn e t = false ∧ missedOn e t = true))
    ∧ (requestTo e t = false → hitOn e t = false ∧ missedOn e t = false)
    ∧ activeOn e t = false ∧ pendingOn e t = false ∧ sleeping t = false := by
  obtain ⟨resp, hpc⟩ := answered_done t h
  refine ⟨?_, ?_, ?_, ?_, ?_⟩
  · intro hr
    by_cases hx : resp.get "X-Cache" = some "HIT" <;> simp [hitOn, missedOn, hpc, hr, hx]
  · intro hr
    simp [hitOn, missedOn, hr]
  · simp [activeOn, hpc]
  · simp [pendingOn, hpc]
  · simp [sleeping, hpc]

theorem countP_answered (e : String) (l : List Thread) (h : ∀ t ∈ l, t.answered = true) :
    l.countP (hitOn e) + l.countP (missedOn e) = l.countP (requestTo e)
    ∧ l.countP (activeOn e) = 0 ∧ l.countP (pendingOn e) = 0 ∧ l.countP sleeping = 0 := by
  induction l with
  | nil => simp
  | cons t l ih =>
    have ht := answered_counted e t (h t (List.mem_cons_self _ _))
    have := ih (fun u hu => h u (List.mem_cons_of_mem _ hu))
    obtain ⟨h1, h2, h3, h4, h5⟩ := ht
    cases hr : requestTo e t
    · obtain ⟨a, b⟩ := h2 hr
      simp only [List.countP_cons, h3, h4, h5, a, b, hr, Bool.false_eq_true, if_false]
      omega
    · rcases h1 hr with ⟨a, b⟩ | ⟨a, b⟩ <;>
        simp only [List.countP_cons, h3, h4, h5, a, b, hr, Bool.false_eq_true, if_false, if_true] <;>
        omega

theorem run_append (J : JSONCodec) (s : State) (a b : List Event) :
    run J s (a ++ b) = (run J s a).bind (fun s1 => run J s1 b) := by
  induction a generalizing s with
  | nil => simp [run]
  | cons e a ih =>
    simp only [List.cons_append, run]
    cases exec J s e with
    | none => simp
    | some s1 => simpa using ih s1

theorem exec_step_last (J : JSONCodec) (env : Env) (sh : Shared) (l : List Thread) (t : Thread) :
    exec J { sh := sh, threads := l ++ [t] } (Event.step l.length env)
      = (stepThread J env l.length t sh).map
          (fun out => { sh := out.2, threads := l ++ [out.1] }) := by
  simp only [exec, List.getElem?_concat_length]
  cases stepThread J env l.length t sh <;> simp

/-- One naive request that misses, served before the next request arrives, from any state of
the server: the schedule runs, the world is the one the handler function computes, and the
request has answered. -/
theorem naiveRound_run (J : JSONCodec) (env : Env) (s : State)
    (h1 : getFromCache J env.getErr s.sh.w = none) :
    ∃ resp, run J s (naiveRound s.threads.length env)
      = some { sh := { s.sh with w := (withoutSingleflightHandler J env s.sh.w).2 }
               threads := s.threads ++ [{ handler := Handler.withoutSingleflight
                                          start := s.sh.w.now, pc := PC.done resp
                                          call := none, leads := false }] } := by
  obtain ⟨sh, l⟩ := s
  have e1 : getFromCache J env.getErr (enter "without_singleflight" sh.w) = none := by
    rw [getFromCache_congr _ _ _ _ rfl rfl]; exact h1
  simp only [enter] at e1
  simp only at h1
  have ht : sh.w.now + (dbLatency + env.oversleep) - sh.w.now = dbLatency + env.oversleep := by
    omega
  rw [withoutSingleflightHandler_miss J env sh.w h1]
  cases hm : J.marshal (newProduct env.stamp (atomicAddInt64 sh.w.requestCount 1)) <;>
    simp [naiveRound, run, exec, exec_step_last, stepThread, stepRead, List.replicate,
      Handler.endpoint, e1, deferred, enter, countMiss, addAt_cancel, advance,
      simulateDBCallBegin, simulateDBCallEnd, afterFetch, setCache, hm, Nat.add_assoc, ht]

/-- The schedule `serialMisses n` runs from any start-up world: all `n` requests answer, and
the world is the one that serving `n` naive requests one after the other computes. -/
theorem serialMisses_run (J : JSONCodec) (w : World) (n : Nat) :
    ∃ s, run J (boot w) (serialMisses n) = some s
      ∧ s.threads.length = n
      ∧ (∀ t ∈ s.threads, t.answered = true)
      ∧ s.sh.w = serveAll J (List.replicate n (Request.withoutSingleflight redisDown)) w := by
  induction n with
  | zero => exact ⟨boot w, rfl, rfl, by simp [boot], rfl⟩
  | succ n ih =>
    obtain ⟨s, hrun, hlen, hans, hw⟩ := ih
    have hmiss : getFromCache J redisDown.getErr s.sh.w = none :=
      getFromCache_fault J "dial tcp: connection refused" s.sh.w
    obtain ⟨resp, hround⟩ := naiveRound_run J redisDown s hmiss
    rw [hlen] at hround
    have hgo : run J (boot w) (serialMisses (n + 1)) = run J s (naiveRound n redisDown) := by
      simp only [serialMisses, run_append, hrun, Option.some_bind]
    rw [hround] at hgo
    refine ⟨_, hgo, ?_, ?_, ?_⟩
    · simp [hlen]
    · intro t ht
      simp only [List.mem_append, List.mem_singleton] at ht
      rcases ht with ht | rfl
      · exact hans t ht
      · rfl
    · show (withoutSingleflightHandler J redisDown s.sh.w).2 = _
      rw [hw]
      simp only [List.replicate_succ', serveAll, List.foldl_append, List.foldl_cons,
        List.foldl_nil]
      rfl

/-- After `n` naive requests that miss, served one after the other through the interleaving
from start-up: every request has completed, `dbCalls["without_singleflight"]` is `n`,
`dbCalls["with_singleflight"]` is 0, and `requestCount` is `n` reduced to `int64`. -/
theorem serialMisses_counts (J : JSONCodec) (db : Redis) (now : Nat) (n : Nat) :
    ∃ s, run J (boot (initial db now)) (serialMisses n) = some s
      ∧ (∀ t ∈ s.threads, t.answered = true)
      ∧ s.sh.w.dbCalls "without_singleflight" = n
      ∧ s.sh.w.dbCalls "with_singleflight" = 0
      ∧ s.sh.w.requestCount = wrapInt64 (n : Int) := by
  obtain ⟨s, hrun, _, hans, hw⟩ := serialMisses_run J (initial db now) n
  have hn := serveAll_naive_misses J "dial tcp: connection refused" redisDown rfl n
    (initial db now)
  have hc := (serveAll_counts J (List.replicate n (Request.withoutSingleflight redisDown))
    (initial db now) (by simp [initial, wrapInt64]) (by intro e; exact Nat.le_refl _)).1
  rw [← hw] at hn hc
  have h0 : (initial db now).dbCalls "without_singleflight" = 0 := rfl
  have h1 : (initial db now).dbCalls "with_singleflight" = 0 := rfl
  rw [h0, h1] at hn
  refine ⟨s, hrun, hans, by omega, hn.2, ?_⟩
  rw [hc, hn.1, hn.2]
  simp

/-- Three naive misses in a row, evaluated: three backend calls, `requestCount` 3. -/
theorem serialMisses_three :
    (run encodingJSON (boot coldWorld) (serialMisses 3)).map
        (fun s => (s.threads.all Thread.answered, s.sh.w.requestCount,
          s.sh.w.dbCalls "without_singleflight", s.sh.w.dbCalls "with_singleflight"))
      = some (true, 3, 3, 0) := by
  rfl

/-- C10 as stated fails once the `int64` counter wraps: let 2^63 requests to the naive
endpoint arrive one after the other while Redis is down (`serialMisses`), each answered
before the next arrives.  The schedule runs, every request has completed, and
`dbCalls["without_singleflight"]` is 2^63 and `dbCalls["with_singleflight"]` is 0 while
`requestCount` is -2^63, not their sum. -/
theorem requestCount_wraps_below_dbCalls :
    (run encodingJSON (boot (initial emptyRedis 0)) (serialMisses 9223372036854775808)).map
        (fun s => (s.threads.all Thread.answered, s.sh.w.requestCount,
          s.sh.w.dbCalls "without_singleflight", s.sh.w.dbCalls "with_singleflight"))
      = some (true, -9223372036854775808, 9223372036854775808, 0)
    ∧ (-9223372036854775808 : Int) ≠ ((9223372036854775808 + 0 : Nat) : Int) := by
  obtain ⟨s, hrun, hans, h1, h2, h3⟩ :=
    serialMisses_counts encodingJSON emptyRedis 0 9223372036854775808
  have hall : s.threads.all Thread.answered = true := by
    rw [List.all_eq_true]
    exact hans
  have hwrap : wrapInt64 ((9223372036854775808 : Nat) : Int) = -9223372036854775808 := by
    decide
  refine ⟨?_, by decide⟩
  rw [hrun, Option.map_some', h1, h2, h3, hall, hwrap]

/-- C10, amended. In every state the server reaches from start-up (all counters 0) by any
interleaving of requests to the four handlers and of time passing:
`dbCalls[e] <= cacheMisses[e]` for each endpoint; `cacheHits[e]` and `cacheMisses[e]` are the
numbers of requests to `e` whose first cache read hit and missed, and a request that has
completed is counted in exactly one of the two, once, and on no other endpoint;
`inflightRequests[e]` is the number of requests to `e` inside their handler; and
`requestCount` is the sum of the two `dbCalls` counters minus the calls of `simulateDBCall`
still asleep, reduced to `int64`.  Hence whenever every request received has completed:
`requestCount` equals `dbCalls["without_singleflight"] + dbCalls["with_singleflight"]` reduced
to `int64` (so it equals that sum while fewer than 2^63 backend calls were made),
`inflightRequests[e]` is back at 0, and `cacheHits[e] + cacheMisses[e]` is the number of
requests to `e`. -/
theorem counters_consistent (J : JSONCodec) (db : Redis) (now : Nat) (es : List Event)
    (s : State) (h : run J (boot (initial db now)) es = some s) :
    (∀ e, s.sh.w.dbCalls e ≤ s.sh.w.cacheMisses e)
    ∧ (∀ e, s.sh.w.cacheHits e = s.threads.countP (hitOn e)
        ∧ s.sh.w.cacheMisses e = s.threads.countP (missedOn e)
        ∧ s.sh.w.inflightRequests e = ((s.threads.countP (activeOn e) : Nat) : Int))
    ∧ (∀ e, ∀ t ∈ s.threads, t.answered = true →
        (requestTo e t = true →
          (hitOn e t = true ∧ missedOn e t = false) ∨ (hitOn e t = false ∧ missedOn e t = true))
        ∧ (requestTo e t = false → hitOn e t = false ∧ missedOn e t = false)
        ∧ activeOn e t = false)
    ∧ s.sh.w.requestCount
        = wrapInt64 (((s.sh.w.dbCalls "without_singleflight"
            + s.sh.w.dbCalls "with_singleflight" : Nat) : Int)
          - ((s.threads.countP sleeping : Nat) : Int))
    ∧ ((∀ t ∈ s.threads, t.answered = true) →
        s.sh.w.requestCount
          = wrapInt64 ((s.sh.w.dbCalls "without_singleflight"
              + s.sh.w.dbCalls "with_singleflight" : Nat) : Int)
        ∧ (s.sh.w.dbCalls "without_singleflight" + s.sh.w.dbCalls "with_singleflight"
            < 9223372036854775808 →
          s.sh.w.requestCount
            = ((s.sh.w.dbCalls "without_singleflight"
                + s.sh.w.dbCalls "with_singleflight" : Nat) : Int))
        ∧ (∀ e, s.sh.w.inflightRequests e = 0)
        ∧ (∀ e, s.sh.w.cacheHits e + s.sh.w.cacheMisses e = s.threads.countP (requestTo e))) := by
  obtain ⟨hh, hm, hd, hi, hr⟩ := reachable_counters J db now es s h
  refine ⟨?_, ?_, ?_, hr, ?_⟩
  · intro e
    have := hd e
    omega
  · intro e
    exact ⟨hh e, hm e, hi e⟩
  · intro e t _ ha
    have := answered_counted e t ha
    exact ⟨this.1, this.2.1, this.2.2.1⟩
  · intro hall
    have hq : s.sh.w.requestCount
        = wrapInt64 ((s.sh.w.dbCalls "without_singleflight"
            + s.sh.w.dbCalls "with_singleflight" : Nat) : Int) := by
      rw [hr, (countP_answered "" s.threads hall).2.2.2]
      simp
    refine ⟨hq, ?_, ?_, ?_⟩
    · intro hlt
      rw [hq]
      apply wrapInt64_of_range
      · unfold minInt64; omega
      · unfold maxInt64; omega
    · intro e
      rw [hi e, (countP_answered e s.threads hall).2.1]
      rfl
    · intro e
      rw [hh e, hm e]
      exact (countP_answered e s.threads hall).1


/-- C10 at a concrete input: the ten coalesced requests of `tenAtOnce`, all completed, have
counted ten misses on one backend call, and `requestCount` is 1, the sum of the two `dbCalls`
counters. -/
theorem counters_consistent_witness :
    run encodingJSON (boot coldWorld) tenAtOnce = some (endOf tenAtOnce)
    ∧ (∀ t ∈ (endOf tenAtOnce).threads, t.answered = true)
    ∧ (endOf tenAtOnce).sh.w.cacheMisses "with_singleflight" = 10
    ∧ (endOf tenAtOnce).sh.w.dbCalls "with_singleflight" = 1
    ∧ (endOf tenAtOnce).sh.w.requestCount = 1
    ∧ (endOf tenAtOnce).sh.w.requestCount
        = (((endOf tenAtOnce).sh.w.dbCalls "without_singleflight"
            + (endOf tenAtOnce).sh.w.dbCalls "with_singleflight" : Nat) : Int)
    ∧ (∀ e, (endOf tenAtOnce).sh.w.inflightRequests e = 0)
    ∧ (∀ e, (endOf tenAtOnce).sh.w.cacheHits e + (endOf tenAtOnce).sh.w.cacheMisses e
        = (endOf tenAtOnce).threads.countP (requestTo e)) :=
  ⟨rfl, by decide, by decide, by decide, by decide,
   ((counters_consistent encodingJSON emptyRedis 0 tenAtOnce (endOf tenAtOnce)
      (show run encodingJSON (boot coldWorld) tenAtOnce = some (endOf tenAtOnce) from rfl)).2.2.2.2
      (by decide)).2.1 (by decide),
   ((counters_consistent encodingJSON emptyRedis 0 tenAtOnce (endOf tenAtOnce)
      (show run encodingJSON (boot coldWorld) tenAtOnce = some (endOf tenAtOnce) from rfl)).2.2.2.2
      (by decide)).2.2.1,
   ((counters_consistent encodingJSON emptyRedis 0 tenAtOnce (endOf tenAtOnce)
      (show run encodingJSON (boot coldWorld) tenAtOnce = some (endOf tenAtOnce) from rfl)).2.2.2.2
      (by decide)).2.2.2⟩

/-! ## A failed fetch -/

theorem exec_step (J : JSONCodec) (env : Env) (st : State) (i : Nat) (t : Thread)
    (out : Thread × Shared) (hit : st.threads[i]? = some t)
    (hs : stepThread J env i t st.sh = some out) :
    ∃ st', exec J st (Event.step i env) = some st' ∧ st'.sh = out.2
      ∧ st'.threads = st.threads.set i out.1 ∧ st'.threads[i]? = some out.1 := by
  have hlt : i < st.threads.length := by
    rcases Nat.lt_or_ge i st.threads.length with h | h
    · exact h
    · rw [List.getElem?_eq_none h] at hit
      cases hit
  refine ⟨{ sh := out.2, threads := st.threads.set i out.1 }, ?_, rfl, rfl, ?_⟩
  · simp [exec, hit, hs]
  · simp [List.getElem?_set, hlt]

/-- A coalescing request whose closure got an error from the fetch: its remaining four steps
(the closure returns, `sfGroup.Do` publishes and returns, the handler answers, the deferred
function runs) write `http.Error(err, 500)`, publish the error as the result of the call, and
leave cache, trace and `singleflightShared` alone. -/
theorem error_leader_run (J : JSONCodec) (err : String) (env : Env) (st : State) (i : Nat)
    (t : Thread) (c : Nat) (hit : st.threads[i]? = some t)
    (hh : t.handler = Handler.withSingleflight) (hpc : t.pc = PC.fetched (Except.error err))
    (hc : t.call = some c) :
    ∃ st', run J st (List.replicate 4 (Event.step i env)) = some st'
      ∧ st'.response i = some
          { status := 500
            header := [("Content-Type", "text/plain; charset=utf-8"),
              ("X-Content-Type-Options", "nosniff")]
            body := Body.text (err ++ "\n") }
      ∧ (st'.sh.calls c).result = some (Except.error err)
      ∧ st'.sh.w.rdb = st.sh.w.rdb ∧ st'.sh.w.trace = st.sh.w.trace
      ∧ st'.sh.w.singleflightShared = st.sh.w.singleflightShared
      ∧ ∀ j, j ≠ i → st'.threads[j]? = st.threads[j]? := by
  obtain ⟨handler, start, pc, call, leads⟩ := t
  simp only at hh hpc hc
  subst hh hpc hc
  have s1 : ∀ sh : Shared, stepThread J env i
      { handler := Handler.withSingleflight, start := start
        pc := PC.fetched (Except.error err), call := some c, leads := leads } sh
      = some ({ handler := Handler.withSingleflight, start := start
                pc := PC.finish (Except.error err), call := some c, leads := leads }, sh) := by
    intro sh
    simp [stepThread, stepRead, closureFetched]
  have s2 : ∀ sh : Shared, stepThread J env i
      { handler := Handler.withSingleflight, start := start
        pc := PC.finish (Except.error err), call := some c, leads := leads } sh
      = some ({ handler := Handler.withSingleflight, start := start
                pc := PC.respond (Except.error err) (decide (0 < (sh.calls c).dups))
                call := some c, leads := leads },
              { sh with calls := setCall sh.calls c
                          { sh.calls c with result := some (Except.error err) }
                        group := if sh.group = some c then none else sh.group }) := by
    intro sh
    simp [stepThread, stepRead]
  have s3 : ∀ (b : Bool) (sh : Shared), stepThread J env i
      { handler := Handler.withSingleflight, start := start
        pc := PC.respond (Except.error err) b, call := some c, leads := leads } sh
      = some ({ handler := Handler.withSingleflight, start := start
                pc := PC.deferred (httpError err 500), call := some c, leads := leads }, sh) := by
    intro b sh
    simp [stepThread, stepRead, afterDo]
  have s4 : ∀ sh : Shared, stepThread J env i
      { handler := Handler.withSingleflight, start := start
        pc := PC.deferred (httpError err 500), call := some c, leads := leads } sh
      = some ({ handler := Handler.withSingleflight, start := start
                pc := PC.done (httpError err 500), call := some c, leads := leads },
              { sh with w := deferred "with_singleflight" start sh.w }) := by
    intro sh
    simp [stepThread, stepRead, Handler.endpoint]
  obtain ⟨st1, e1, a1, b1, g1⟩ := exec_step J env st i _ _ hit (s1 st.sh)
  obtain ⟨st2, e2, a2, b2, g2⟩ := exec_step J env st1 i _ _ g1 (s2 st1.sh)
  obtain ⟨st3, e3, a3, b3, g3⟩ := exec_step J env st2 i _ _ g2 (s3 _ st2.sh)
  obtain ⟨st4, e4, a4, b4, g4⟩ := exec_step J env st3 i _ _ g3 (s4 st3.sh)
  simp only at a1 a2 a3 a4 b1 b2 b3 b4 g4
  refine ⟨st4, ?_, ?_, ?_, ?_, ?_, ?_, ?_⟩
  · simp only [List.replicate, run, e1, e2, e3, e4]
  · simp only [State.response, g4, httpError]
  · rw [a4, a3, a2, a1]
    simp [setCall]
  · rw [a4, a3, a2, a1]
    simp [deferred]
  · rw [a4, a3, a2, a1]
    simp [deferred]
  · rw [a4, a3, a2, a1]
    simp [deferred]
  · intro j hj
    rw [b4, b3, b2, b1]
    simp only [List.set_set]
    exact List.getElem?_set_ne (fun h => hj h.symm)

/-- A coalescing request waiting in `sfGroup.Do` for a call that published an error: its three
steps (`Do` returns, the handler answers, the deferred function runs) write
`http.Error(err, 500)` and change neither the calls nor cache, trace and
`singleflightShared`. -/
theorem error_follower_run (J : JSONCodec) (err : String) (env : Env) (st : State) (j : Nat)
    (t : Thread) (c : Nat) (hit : st.threads[j]? = some t)
    (hh : t.handler = Handler.withSingleflight) (hpc : t.pc = PC.wait) (hc : t.call = some c)
    (hres : (st.sh.calls c).result = some (Except.error err)) :
    ∃ st', run J st (List.replicate 3 (Event.step j env)) = some st'
      ∧ st'.response j = some
          { status := 500
            header := [("Content-Type", "text/plain; charset=utf-8"),
              ("X-Content-Type-Options", "nosniff")]
            body := Body.text (err ++ "\n") }
      ∧ st'.sh.calls = st.sh.calls
      ∧ st'.sh.w.rdb = st.sh.w.rdb ∧ st'.sh.w.trace = st.sh.w.trace
      ∧ st'.sh.w.singleflightShared = st.sh.w.singleflightShared
      ∧ ∀ k, k ≠ j → st'.threads[k]? = st.threads[k]? := by
  obtain ⟨handler, start, pc, call, leads⟩ := t
  simp only at hh hpc hc
  subst hh hpc hc
  have s1 : stepThread J env j
      { handler := Handler.withSingleflight, start := start
        pc := PC.wait, call := some c, leads := leads } st.sh
      = some ({ handler := Handler.withSingleflight, start := start
                pc := PC.respond (Except.error err) true, call := some c, leads := leads },
              st.sh) := by
    simp [stepThread, stepRead, hres]
  have s3 : ∀ (b : Bool) (sh : Shared), stepThread J env j
      { handler := Handler.withSingleflight, start := start
        pc := PC.respond (Except.error err) b, call := some c, leads := leads } sh
      = some ({ handler := Handler.withSingleflight, start := start
                pc := PC.deferred (httpError err 500), call := some c, leads := leads }, sh) := by
    intro b sh
    simp [stepThread, stepRead, afterDo]
  have s4 : ∀ sh : Shared, stepThread J env j
      { handler := Handler.withSingleflight, start := start
        pc := PC.deferred (httpError err 500), call := some c, leads := leads } sh
      = some ({ handler := Handler.withSingleflight, start := start
                pc := PC.done (httpError err 500), call := some c, leads := leads },
              { sh with w := deferred "with_singleflight" start sh.w }) := by
    intro sh
    simp [stepThread, stepRead, Handler.endpoint]
  obtain ⟨st1, e1, a1, b1, g1⟩ := exec_step J env st j _ _ hit s1
  obtain ⟨st2, e2, a2, b2, g2⟩ := exec_step J env st1 j _ _ g1 (s3 _ st1.sh)
  obtain ⟨st3, e3, a3, b3, g3⟩ := exec_step J env st2 j _ _ g2 (s4 st2.sh)
  simp only at a1 a2 a3 b1 b2 b3 g3
  refine ⟨st3, ?_, ?_, ?_, ?_, ?_, ?_, ?_⟩
  · simp only [List.replicate, run, e1, e2, e3]
  · simp only [State.response, g3, httpError]
  · rw [a3, a2, a1]
  · rw [a3, a2, a1]
    simp [deferred]
  · rw [a3, a2, a1]
    simp [deferred]
  · rw [a3, a2, a1]
    simp [deferred]
  · intro k hk
    rw [b3, b2, b1]
    simp only [List.set_set]
    exact List.getElem?_set_ne (fun h => hk h.symm)

/-- A naive request whose fetch returned an error: its remaining two steps (the handler
answers, the deferred function runs) write `http.Error(err, 500)` and leave cache and trace
alone. -/
theorem error_naive_run (J : JSONCodec) (err : String) (env : Env) (st : State) (i : Nat)
    (t : Thread) (hit : st.threads[i]? = some t)
    (hh : t.handler = Handler.withoutSingleflight)
    (hpc : t.pc = PC.fetched (Except.error err)) :
    ∃ st', run J st (List.replicate 2 (Event.step i env)) = some st'
      ∧ st'.response i = some
          { status := 500
            header := [("Content-Type", "text/plain; charset=utf-8"),
              ("X-Content-Type-Options", "nosniff")]
            body := Body.text (err ++ "\n") }
      ∧ st'.sh.w.rdb = st.sh.w.rdb ∧ st'.sh.w.trace = st.sh.w.trace
      ∧ ∀ k, k ≠ i → st'.threads[k]? = st.threads[k]? := by
  obtain ⟨handler, start, pc, call, leads⟩ := t
  simp only at hh hpc
  subst hh hpc
  have s1 : ∀ sh : Shared, stepThread J env i
      { handler := Handler.withoutSingleflight, start := start
        pc := PC.fetched (Except.error err), call := call, leads := leads } sh
      = some ({ handler := Handler.withoutSingleflight, start := start
                pc := PC.deferred (httpError err 500), call := call, leads := leads }, sh) := by
    intro sh
    simp [stepThread, stepRead, afterFetch]
  have s2 : ∀ sh : Shared, stepThread J env i
      { handler := Handler.withoutSingleflight, start := start
        pc := PC.deferred (httpError err 500), call := call, leads := leads } sh
      = some ({ handler := Handler.withoutSingleflight, start := start
                pc := PC.done (httpError err 500), call := call, leads := leads },
              { sh with w := deferred "without_singleflight" start sh.w }) := by
    intro sh
    simp [stepThread, stepRead, Handler.endpoint]
  obtain ⟨st1, e1, a1, b1, g1⟩ := exec_step J env st i _ _ hit (s1 st.sh)
  obtain ⟨st2, e2, a2, b2, g2⟩ := exec_step J env st1 i _ _ g1 (s2 st1.sh)
  simp only at a1 a2 b1 b2 g2
  refine ⟨st2, ?_, ?_, ?_, ?_, ?_⟩
  · simp only [List.replicate, run, e1, e2]
  · simp only [State.response, g2, httpError]
  · rw [a2, a1]
    simp [deferred]
  · rw [a2, a1]
    simp [deferred]
  · intro k hk
    rw [b2, b1]
    simp only [List.set_set]
    exact List.getElem?_set_ne (fun h => hk h.symm)

/-- C7. If the backend fetch fails on a cache miss, the request fails.  `http.Error(err, 500)`
is status 500 with the error text as a plain-text body.  In `withoutSingleflightHandler`
(lines 160-163) and after `sfGroup.Do` in `withSingleflightHandler` (lines 213-216) a non-nil
error yields exactly that response and nothing else happens: no product is written,
`setCache` is not called (cache and trace stay as the fetch left them), and
`singleflightShared` is not incremented; the closure (lines 205-208) returns `(nil, err)`
without calling `setCache`.  This holds for the handler bodies over any backend accessor (the
handlers of the source are these bodies at `simulateDBCall`), and in the interleaving with
`sfGroup.Do`: the naive request answers 500, the leader of a wave publishes the error as the
result of its call and answers 500, and every caller that joined the call is handed the same
error and answers 500. -/
theorem backend_error_fails_request (J : JSONCodec) (err : String) :
    httpError err 500
      = { status := 500
          header := [("Content-Type", "text/plain; charset=utf-8"),
            ("X-Content-Type-Options", "nosniff")]
          body := Body.text (err ++ "\n") }
    ∧ (withoutSingleflightHandler J = withoutSingleflightHandlerWith J simulateDBCall
      ∧ withSingleflightHandler J = withSingleflightHandlerWith J simulateDBCall)
    ∧ (∀ (setErr : Option String) (w : World),
        afterFetch J setErr (Except.error err) w = (httpError err 500, w)
        ∧ closureFetched J setErr (Except.error err) w = (Except.error err, w))
    ∧ (∀ (shared : Bool) (w : World),
        afterDo (Except.error err) shared w = (httpError err 500, w))
    ∧ (∀ (fetch : Fetch) (env : Env) (w : World),
        getFromCache J env.getErr w = none →
        (fetch "without_singleflight" env
          (countMiss "without_singleflight" (enter "without_singleflight" w))).1
            = Except.error err →
        (withoutSingleflightHandlerWith J fetch env w).1 = httpError err 500
        ∧ (withoutSingleflightHandlerWith J fetch env w).1.status = 500
        ∧ (withoutSingleflightHandlerWith J fetch env w).1.body = Body.text (err ++ "\n")
        ∧ (∀ p, (withoutSingleflightHandlerWith J fetch env w).1.body ≠ Body.json p)
        ∧ (withoutSingleflightHandlerWith J fetch env w).2.rdb
            = (fetch "without_singleflight" env
                (countMiss "without_singleflight" (enter "without_singleflight" w))).2.rdb
        ∧ (withoutSingleflightHandlerWith J fetch env w).2.trace
            = (fetch "without_singleflight" env
                (countMiss "without_singleflight" (enter "without_singleflight" w))).2.trace)
    ∧ (∀ (fetch : Fetch) (env : Env) (w : World),
        getFromCache J env.getErr w = none → getFromCache J env.recheckErr w = none →
        (fetch "with_singleflight" env
          (countMiss "with_singleflight" (enter "with_singleflight" w))).1 = Except.error err →
        (closureWith J fetch "with_singleflight" env
          (countMiss "with_singleflight" (enter "with_singleflight" w))).1 = Except.error err
        ∧ (sfGroupDoAlone (closureWith J fetch "with_singleflight" env)
            (countMiss "with_singleflight" (enter "with_singleflight" w))).1
              = (Except.error err, false)
        ∧ (withSingleflightHandlerWith J fetch env w).1 = httpError err 500
        ∧ (withSingleflightHandlerWith J fetch env w).1.status = 500
        ∧ (withSingleflightHandlerWith J fetch env w).1.body = Body.text (err ++ "\n")
        ∧ (∀ p, (withSingleflightHandlerWith J fetch env w).1.body ≠ Body.json p)
        ∧ (withSingleflightHandlerWith J fetch env w).2.rdb
            = (fetch "with_singleflight" env
                (countMiss "with_singleflight" (enter "with_singleflight" w))).2.rdb
        ∧ (withSingleflightHandlerWith J fetch env w).2.trace
            = (fetch "with_singleflight" env
                (countMiss "with_singleflight" (enter "with_singleflight" w))).2.trace
        ∧ (withSingleflightHandlerWith J fetch env w).2.singleflightShared
            = (fetch "with_singleflight" env
                (countMiss "with_singleflight" (enter "with_singleflight" w))).2.singleflightShared)
    ∧ (∀ (env : Env) (st : State) (i : Nat) (t : Thread),
        st.threads[i]? = some t → t.handler = Handler.withoutSingleflight →
        t.pc = PC.fetched (Except.error err) →
        ∃ st', run J st (List.replicate 2 (Event.step i env)) = some st'
          ∧ st'.response i = some (httpError err 500)
          ∧ st'.sh.w.rdb = st.sh.w.rdb ∧ st'.sh.w.trace = st.sh.w.trace
          ∧ ∀ k, k ≠ i → st'.threads[k]? = st.threads[k]?)
    ∧ (∀ (env : Env) (st : State) (i : Nat) (t : Thread) (c : Nat),
        st.threads[i]? = some t → t.handler = Handler.withSingleflight →
        t.pc = PC.fetched (Except.error err) → t.call = some c →
        ∃ st', run J st (List.replicate 4 (Event.step i env)) = some st'
          ∧ st'.response i = some (httpError err 500)
          ∧ (st'.sh.calls c).result = some (Except.error err)
          ∧ st'.sh.w.rdb = st.sh.w.rdb ∧ st'.sh.w.trace = st.sh.w.trace
          ∧ st'.sh.w.singleflightShared = st.sh.w.singleflightShared
          ∧ ∀ k, k ≠ i → st'.threads[k]? = st.threads[k]?)
    ∧ (∀ (env : Env) (st : State) (j : Nat) (t : Thread) (c : Nat),
        st.threads[j]? = some t → t.handler = Handler.withSingleflight →
        t.pc = PC.wait → t.call = some c →
        (st.sh.calls c).result = some (Except.error err) →
        ∃ st', run J st (List.replicate 3 (Event.step j env)) = some st'
          ∧ st'.response j = some (httpError err 500)
          ∧ st'.sh.calls = st.sh.calls
          ∧ st'.sh.w.rdb = st.sh.w.rdb ∧ st'.sh.w.trace = st.sh.w.trace
          ∧ st'.sh.w.singleflightShared = st.sh.w.singleflightShared
          ∧ ∀ k, k ≠ j → st'.threads[k]? = st.threads[k]?) := by
  refine ⟨rfl, ⟨rfl, rfl⟩, fun _ _ => ⟨rfl, rfl⟩, fun _ _ => rfl, ?_, ?_, ?_, ?_, ?_⟩
  · intro fetch env w h1 hf
    have e1 : getFromCache J env.getErr (enter "without_singleflight" w)
        = getFromCache J env.getErr w := getFromCache_congr _ _ _ _ rfl rfl
    simp only [withoutSingleflightHandlerWith, e1, h1, hf, afterFetch]
    simp [deferred, httpError]
  · intro fetch env w h1 h2 hf
    have e1 : getFromCache J env.getErr (enter "with_singleflight" w)
        = getFromCache J env.getErr w := getFromCache_congr _ _ _ _ rfl rfl
    have e2 : getFromCache J env.recheckErr (countMiss "with_singleflight"
        (enter "with_singleflight" w)) = getFromCache J env.recheckErr w :=
      getFromCache_congr _ _ _ _ rfl rfl
    simp only [withSingleflightHandlerWith, e1, h1, sfGroupDoAlone, closureWith, e2, h2, hf,
      closureFetched, afterDo]
    simp [deferred, httpError]
  · intro env st i t hit hh hpc
    exact error_naive_run J err env st i t hit hh hpc
  · intro env st i t c hit hh hpc hc
    exact error_leader_run J err env st i t c hit hh hpc hc
  · intro env st j t c hit hh hpc hc hres
    exact error_follower_run J err env st j t c hit hh hpc hc hres

/-- C7 at concrete inputs: a failing backend accessor over an empty cache answers 500 on both
endpoints; in `errorWave` the leader publishes the error and answers 500; and running every
request of `errorWave` to its end, all four answer 500 with the error text while the cache
stays empty, `setCache` is never called and `singleflightShared` stays 0. -/
theorem backend_error_fails_request_witness :
    (withoutSingleflightHandlerWith encodingJSON failingFetch calmEnv coldWorld).1.status = 500
    ∧ (withSingleflightHandlerWith encodingJSON failingFetch calmEnv coldWorld).1.status = 500
    ∧ (∃ st', run encodingJSON (errorWave "backend unavailable")
          (List.replicate 4 (Event.step 0 calmEnv)) = some st'
        ∧ st'.response 0 = some (httpError "backend unavailable" 500)
        ∧ (st'.sh.calls 0).result = some (Except.error "backend unavailable")
        ∧ st'.sh.w.rdb = (errorWave "backend unavailable").sh.w.rdb
        ∧ st'.sh.w.trace = (errorWave "backend unavailable").sh.w.trace
        ∧ st'.sh.w.singleflightShared = (errorWave "backend unavailable").sh.w.singleflightShared
        ∧ ∀ k, k ≠ 0 → st'.threads[k]? = (errorWave "backend unavailable").threads[k]?)
    ∧ (run encodingJSON (errorWave "backend unavailable")
          (steps 0 4 ++ steps 1 3 ++ steps 2 3 ++ steps 3 2)).map
        (fun s => (s.threads.map (fun t => t.pc), s.sh.w.rdb cacheKey, s.sh.w.trace,
          s.sh.w.singleflightShared))
      = some (List.replicate 4 (PC.done
            { status := 500
              header := [("Content-Type", "text/plain; charset=utf-8"),
                ("X-Content-Type-Options", "nosniff")]
              body := Body.text "backend unavailable\n" }),
          none, [], 0) :=
  ⟨((backend_error_fails_request encodingJSON "backend unavailable").2.2.2.2.1
      failingFetch calmEnv coldWorld (by decide) rfl).2.1,
   ((backend_error_fails_request encodingJSON "backend unavailable").2.2.2.2.2.1
      failingFetch calmEnv coldWorld (by decide) (by decide) rfl).2.2.2.1,
   (backend_error_fails_request encodingJSON "backend unavailable").2.2.2.2.2.2.2.1
      calmEnv (errorWave "backend unavailable") 0 _ 0 rfl rfl rfl rfl,
   rfl⟩

end Main
